import Mathlib

/-!
# Jarvis team frontend: chat session flow and registration forms

A shallow embedding of the chat view of the repository
(`src/src/components/MemberChatInterface.jsx`, `src/src/App.jsx`,
`src/src/utils/UrlUtils.js`), of its two registration forms
(`src/src/components/ManagerDashboard.jsx`,
`src/src/components/TeamRegistrationForm.jsx`) and of the countdown
(`src/src/components/HackathonTimer.jsx`).

React state is an explicit record (`ChatState`), every `setX` call is a record
update, and a functional updater `setMessages(prev => ...)` is a function
applied to the transcript held at the time the update is processed.  An
`async` handler is cut at its `await`: the part before it (`...Start`) runs
atomically and may issue a request, the part after it (`...Settle`) runs
atomically once the request has settled, with the way it settled as an
argument.  `new Date()` reads a clock that is passed in as `now`.  The Numbers
that `parseInt` returns are doubles: `JsNumber` holds the exact value of a
finite one, `NaN` or an infinity, and `toNumber` rounds an integer to the
nearest double.
-/

namespace Jarvis

/-! ## JavaScript strings -/

/-- Code points removed by `String.prototype.trim`: ECMAScript `WhiteSpace`
and `LineTerminator`. -/
def isJsWhiteSpace (c : Char) : Bool :=
  let n := c.toNat
  n = 0x09 || n = 0x0A || n = 0x0B || n = 0x0C || n = 0x0D || n = 0x20 ||
  n = 0xA0 || n = 0x1680 || (0x2000 ≤ n && n ≤ 0x200A) || n = 0x2028 ||
  n = 0x2029 || n = 0x202F || n = 0x205F || n = 0x3000 || n = 0xFEFF

/-- The method `String.prototype.trim`, on the list of code points. -/
def jsTrimChars (cs : List Char) : List Char :=
  ((cs.dropWhile isJsWhiteSpace).reverse.dropWhile isJsWhiteSpace).reverse

/-- The method `String.prototype.trim`. -/
def jsTrim (s : String) : String :=
  ⟨jsTrimChars s.data⟩

/-- Truthiness of a JavaScript string: every string but the empty one. -/
def truthyString (s : String) : Bool :=
  !s.data.isEmpty

/-- Truthiness of a value that is a string, `null` or `undefined`. -/
def truthy : Option String → Bool
  | some s => truthyString s
  | none => false

/-! ## Data model -/

/-- The value of a message's `timestamp` field: `new Date(raw)` for a raw
server value, or `new Date()` read at clock value `now`. -/
inductive Timestamp where
  | parsed (raw : String)
  | clock (now : Nat)
  deriving DecidableEq

/-- One element of the state variable `messages`. -/
structure Message where
  id : Nat
  text : String
  sender : String
  timestamp : Timestamp
  deriving DecidableEq

/-- One element of `member.chat_history` in the init response. -/
structure HistoryEntry where
  message : String
  role : String
  timestamp : Option String
  deriving DecidableEq

/-- The field `member` of the init response. -/
structure Member where
  name : String
  role : String
  chat_history : Option (List HistoryEntry)
  deriving DecidableEq

/-- The field `team` of the init response; the chat view only stores it. -/
structure Team where
  name : String
  deriving DecidableEq

/-- A parsed body of `GET /api/chat/init` that is not `null`. -/
structure InitResult where
  success : Bool
  member : Option Member
  team : Option Team
  deriving DecidableEq

/-- How the init request settles: `fetch` rejects, `response.json()` rejects,
the body parses to `null`, or the body parses to an object. -/
inductive InitOutcome where
  | fetchRejected
  | bodyUnparsable
  | nullBody
  | body (result : InitResult)
  deriving DecidableEq

/-- A parsed body of `POST /api/chat` that is not `null`. -/
structure ChatResult where
  success : Bool
  response : String
  deriving DecidableEq

/-- How a chat request settles. -/
inductive ChatOutcome where
  | fetchRejected
  | bodyUnparsable
  | nullBody
  | body (result : ChatResult)
  deriving DecidableEq

/-- A request handed to `fetch`. -/
inductive Request where
  | init (url : String)
  | chat (url : String) (token : Option String) (message : String) (is_welcome : Bool)
  deriving DecidableEq

/-- What the chat view reads from the browser and from its props:
`window.location.hostname`, the name/value pairs of `window.location.search`
in order, and the prop `memberId`. -/
structure Env where
  hostname : String
  search : List (String × String)
  memberId : Option String
  deriving DecidableEq

/-- The `useState` variables of `MemberChatInterface`. -/
structure ChatState where
  memberData : Option Member
  teamData : Option Team
  messages : List Message
  inputMessage : String
  isTyping : Bool
  loading : Bool
  deriving DecidableEq

/-- The state of the first render. -/
def initialState : ChatState :=
  { memberData := none, teamData := none, messages := [], inputMessage := "",
    isTyping := false, loading := true }

/-! ## URL helpers -/

/-- The function `getApiBaseUrl` of `UrlUtils.js`. -/
def getApiBaseUrl (hostname : String) : String :=
  if hostname = "localhost" ∨ hostname = "127.0.0.1" then "http://localhost:5002"
  else "https://jarvis-projectmanager.onrender.com"

/-- The method `URLSearchParams.get`: the value of the first pair with the
given name, `null` when there is none. -/
def searchParamsGet (params : List (String × String)) (name : String) : Option String :=
  (params.find? (fun p => p.1 == name)).map Prod.snd

/-- The function `getTokenFromUrl`: `urlParams.get("token") || memberId`. -/
def getTokenFromUrl (env : Env) : Option String :=
  match searchParamsGet env.search "token" with
  | some t => if truthyString t then some t else env.memberId
  | none => env.memberId

/-- The component `MemberChatWrapper` of `App.jsx` (routes `/member/:id` and
`/chat/:id`): the route parameter becomes the prop `memberId`. -/
def MemberChatWrapper (hostname : String) (search : List (String × String)) (id : String) : Env :=
  { hostname := hostname, search := search, memberId := some id }

/-- The component `TokenBasedChat` of `App.jsx` (route `/chat`): the query
token, `null` when there is none, becomes the prop `memberId`. -/
def TokenBasedChat (hostname : String) (search : List (String × String)) : Env :=
  { hostname := hostname, search := search, memberId := searchParamsGet search "token" }

/-- The text a template literal puts for a token that may be `null`. -/
def interpolate : Option String → String
  | some s => s
  | none => "null"

/-! ## Transcript updates -/

/-- The updater `prev => [...prev, {id: prev.length + 1, text, sender, timestamp: new Date()}]`. -/
def appendMessage (text sender : String) (now : Nat) (prev : List Message) : List Message :=
  prev ++ [{ id := prev.length + 1, text := text, sender := sender, timestamp := .clock now }]

/-- The value `formattedMessages` computed by `fetchMemberData` from
`chatHistory`. -/
def formattedMessages (chatHistory : List HistoryEntry) (now : Nat) : List Message :=
  chatHistory.enum.map fun p =>
    { id := p.1 + 1
      text := p.2.message
      sender := if p.2.role = "user" then "user" else "jarvis"
      timestamp :=
        match p.2.timestamp with
        | some raw => if truthyString raw then .parsed raw else .clock now
        | none => .clock now }

/-- The value `result?.member?.chat_history || []` for a body that is an object. -/
def chatHistoryOf (result : InitResult) : List HistoryEntry :=
  match result.member with
  | some m => m.chat_history.getD []
  | none => []

/-- Fixed reply shown when the chat response has a falsy `success`. -/
def processingTroubleText : String :=
  "Sorry, I'm having trouble processing your message. Please try again."

/-- Fixed reply shown when the chat request throws. -/
def networkErrorText : String :=
  "Network error. Please check your connection and try again."

/-! ## `handleSendMessage` -/

/-- The handler `handleSendMessage` up to its first `await`: the blank-input
guard, the optimistic echo, clearing the input, raising `isTyping`, and the
call of `fetch`.  Returns the request issued, if any. -/
def handleSendMessageStart (env : Env) (now : Nat) (s : ChatState) :
    ChatState × Option Request :=
  if truthyString (jsTrim s.inputMessage) then
    let userText := s.inputMessage
    ({ s with
        messages := appendMessage userText "user" now s.messages
        inputMessage := ""
        isTyping := true },
     some (.chat (getApiBaseUrl env.hostname ++ "/api/chat") (getTokenFromUrl env) userText false))
  else (s, none)

/-- The handler `handleSendMessage` after the request has settled: the
`success` branch, the `else` branch or the `catch` block, then `finally`. -/
def handleSendMessageSettle (o : ChatOutcome) (now : Nat) (s : ChatState) : ChatState :=
  let s1 : ChatState :=
    match o with
    | .body result =>
      if result.success then
        { s with messages := appendMessage result.response "jarvis" now s.messages }
      else
        { s with messages := appendMessage processingTroubleText "jarvis" now s.messages }
    | _ => { s with messages := appendMessage networkErrorText "jarvis" now s.messages }
  { s1 with isTyping := false }

/-- One call of `handleSendMessage` in the special case that no other event
takes place while its request is in flight, so that the part after the `await`
finds the state the part before it left: the final state and the requests
issued.  The general case is `run`, where other events come between
`.submitted` and `.sendSettled`. -/
def handleSendMessage (env : Env) (now : Nat) (o : ChatOutcome) (later : Nat) (s : ChatState) :
    ChatState × List Request :=
  match handleSendMessageStart env now s with
  | (s1, some rq) => (handleSendMessageSettle o later s1, [rq])
  | (s1, none) => (s1, [])

/-! ## Effects of the chat view -/

/-- The first effect (dependency `memberId`): resolve the token; without one,
lower `loading` and stop; with one, call `fetchMemberData`, which issues the
init request. -/
def initEffect (env : Env) (s : ChatState) : ChatState × Option Request :=
  let token := getTokenFromUrl env
  if truthy token then
    (s, some (.init (getApiBaseUrl env.hostname ++ "/api/chat/init?token=" ++ interpolate token)))
  else ({ s with loading := false }, none)

/-- The function `fetchMemberData` after the init request has settled. -/
def fetchMemberDataSettle (o : InitOutcome) (now : Nat) (s : ChatState) : ChatState :=
  match o with
  | .fetchRejected => { s with loading := false }
  | .bodyUnparsable => { s with loading := false }
  | .nullBody =>
    -- the optional chain yields the empty history, then reading a field of null throws
    { s with messages := formattedMessages [] now, loading := false }
  | .body result =>
    let s1 : ChatState := { s with messages := formattedMessages (chatHistoryOf result) now }
    if !result.success then { s1 with loading := false }
    else { s1 with memberData := result.member, teamData := result.team, loading := false }

/-- The request sent by `sendWelcomeMessage`. -/
def welcomeRequest (env : Env) : Request :=
  .chat (getApiBaseUrl env.hostname ++ "/api/chat") (getTokenFromUrl env) "welcome" true

/-- The second effect (dependency `memberData`): its two guards, then the call
of `sendWelcomeMessage`, which issues the welcome request. -/
def welcomeEffect (env : Env) (s : ChatState) : Option Request :=
  if s.memberData.isNone then none
  else if s.messages.length > 0 then none
  else some (welcomeRequest env)

/-- The function `sendWelcomeMessage` after the welcome request has settled. -/
def sendWelcomeMessageSettle (o : ChatOutcome) (now : Nat) (s : ChatState) : ChatState :=
  match o with
  | .body result =>
    if result.success then
      { s with messages := appendMessage result.response "jarvis" now s.messages }
    else s
  | _ => s

/-- The four return statements of the component's render. -/
inductive View where
  | loading
  | noTokenFound
  | memberNotFound
  | chat
  deriving DecidableEq

/-- Which view the component renders in a state. -/
def selectView (env : Env) (s : ChatState) : View :=
  if s.loading then .loading
  else if !truthy (getTokenFromUrl env) then .noTokenFound
  else if s.memberData.isNone then .memberNotFound
  else .chat

/-! ## One page load as a transition system -/

/-- A mounted chat view: its React state, the requests issued so far in
order, and how many requests of each kind are still in flight. -/
structure Session where
  state : ChatState
  sent : List Request
  pendingInit : Nat
  pendingSends : Nat
  pendingWelcomes : Nat
  deriving DecidableEq

/-- What can happen to a mounted chat view. -/
inductive Event where
  | initSettled (o : InitOutcome) (now : Nat)
  | inputChanged (text : String)
  | submitted (now : Nat)
  | sendSettled (o : ChatOutcome) (now : Nat)
  | welcomeSettled (o : ChatOutcome) (now : Nat)
  deriving DecidableEq

/-- The render after a state change: the second effect runs again exactly when
its dependency `memberData` differs from the previous render.  Both `null`
and `undefined` are `none` here; the effect returns at its first guard on
either. -/
def commit (env : Env) (old : ChatState) (sys : Session) : Session :=
  if sys.state.memberData = old.memberData then sys
  else
    match welcomeEffect env sys.state with
    | some rq => { sys with sent := sys.sent ++ [rq], pendingWelcomes := sys.pendingWelcomes + 1 }
    | none => sys

/-- The first render and its two effects, both run on `initialState`. -/
def mount (env : Env) : Session :=
  let r := initEffect env initialState
  let w := welcomeEffect env initialState
  { state := r.1
    sent := r.2.toList ++ w.toList
    pendingInit := r.2.toList.length
    pendingSends := 0
    pendingWelcomes := w.toList.length }

/-- The state change of one event.  A continuation runs only when a request
of its kind is in flight; the input and the form exist only in the chat
view. -/
def applyEvent (env : Env) (ev : Event) (sys : Session) : Session :=
  match ev with
  | .initSettled o now =>
    if sys.pendingInit = 0 then sys
    else { sys with state := fetchMemberDataSettle o now sys.state
                    pendingInit := sys.pendingInit - 1 }
  | .inputChanged text =>
    if selectView env sys.state = .chat then
      { sys with state := { sys.state with inputMessage := text } }
    else sys
  | .submitted now =>
    if selectView env sys.state = .chat then
      let r := handleSendMessageStart env now sys.state
      { sys with state := r.1
                 sent := sys.sent ++ r.2.toList
                 pendingSends := sys.pendingSends + r.2.toList.length }
    else sys
  | .sendSettled o now =>
    if sys.pendingSends = 0 then sys
    else { sys with state := handleSendMessageSettle o now sys.state
                    pendingSends := sys.pendingSends - 1 }
  | .welcomeSettled o now =>
    if sys.pendingWelcomes = 0 then sys
    else { sys with state := sendWelcomeMessageSettle o now sys.state
                    pendingWelcomes := sys.pendingWelcomes - 1 }

/-- One event followed by the render it causes. -/
def step (env : Env) (ev : Event) (sys : Session) : Session :=
  commit env sys.state (applyEvent env ev sys)

/-- A sequence of events, oldest first. -/
def run (env : Env) (evs : List Event) (sys : Session) : Session :=
  evs.foldl (fun acc ev => step env ev acc) sys

/-- Whether a request is a chat request flagged `is_welcome`. -/
def isWelcomeRequest : Request → Bool
  | .chat _ _ _ w => w
  | .init _ => false

/-- Whether a chat request ended in the `catch` block. -/
def ChatOutcome.throws : ChatOutcome → Bool
  | .body _ => false
  | _ => true

/-- Whether an init request ended in the `catch` block. -/
def InitOutcome.throws : InitOutcome → Bool
  | .body _ => false
  | _ => true

/-- The transcript numbers its entries 1, 2, 3, ... in order. -/
def IdsSequential (ms : List Message) : Prop :=
  ms.map Message.id = List.range' 1 ms.length

/-- Sequential numbering can be checked by evaluation. -/
instance decidableIdsSequential (ms : List Message) : Decidable (IdsSequential ms) :=
  inferInstanceAs (Decidable (ms.map Message.id = List.range' 1 ms.length))

/-- Whether an event is the settling of a send. -/
def Event.isSendSettled : Event → Bool
  | .sendSettled _ _ => true
  | _ => false

/-- Whether an event is a change of the input field. -/
def Event.isInputChanged : Event → Bool
  | .inputChanged _ => true
  | _ => false

/-! ## JavaScript helpers used by the registration forms -/

/-- The method `String.prototype.split` with the separator `","`, on code
points: the pieces between commas, `[""]` for the empty string. -/
def splitComma : List Char → List (List Char)
  | [] => [[]]
  | c :: cs =>
    if c = ',' then [] :: splitComma cs
    else
      match splitComma cs with
      | [] => [[c]]
      | piece :: pieces => (c :: piece) :: pieces

/-- The call `s.split(',')`. -/
def jsSplitComma (s : String) : List String :=
  (splitComma s.data).map String.mk

/-- The value of a digit in the given radix, if the code point is one. -/
def digitValue (radix : Nat) (c : Char) : Option Nat :=
  let n := c.toNat
  let v : Option Nat :=
    if 48 ≤ n ∧ n ≤ 57 then some (n - 48)
    else if 97 ≤ n ∧ n ≤ 122 then some (n - 87)
    else if 65 ≤ n ∧ n ≤ 90 then some (n - 55)
    else none
  match v with
  | some d => if d < radix then some d else none
  | none => none

/-- The longest prefix of digits of the radix, read as a number; `none` when
the prefix is empty. -/
def readDigits (radix : Nat) (cs : List Char) : Option Nat :=
  let ds := (cs.map (digitValue radix)).takeWhile Option.isSome
  if ds.isEmpty then none
  else some (ds.foldl (fun acc d => acc * radix + d.getD 0) 0)

/-- A JavaScript Number as far as this code meets one: `NaN`, an infinity, or
a finite double whose value is an integer, held as that integer.  The sign of
zero is not kept: both zeros are falsy and `JSON.stringify` writes `0` for
both. -/
inductive JsNumber where
  | nan
  | finite (value : Int)
  | infinity (negative : Bool)
  deriving DecidableEq

/-- The number of binary digits of `m`, found by halving at most `fuel`
times. -/
def bitLengthAux : Nat → Nat → Nat
  | 0, _ => 0
  | fuel + 1, m => if m = 0 then 0 else bitLengthAux fuel (m / 2) + 1

/-- The number of binary digits of a natural number. -/
def bitLength (m : Nat) : Nat :=
  bitLengthAux m m

/-- The power `2 ^ e`, as a shift. -/
def pow2 (e : Nat) : Nat :=
  1 <<< e

/-- The magnitude of the double nearest to the natural number `m`, were the
exponent unbounded: `m` itself when it is below `2 ^ 53`, and otherwise `m`
rounded to 53 significant binary digits, a tie going to the even
significand. -/
def roundToDouble (m : Nat) : Nat :=
  if m < 2 ^ 53 then m
  else
    let e := bitLength m - 53
    let q := m / pow2 e
    let r := m % pow2 e
    if 2 * r < pow2 e then q * pow2 e
    else if 2 * r = pow2 e ∧ q % 2 = 0 then q * pow2 e
    else (q + 1) * pow2 e

/-- The Number value for a mathematical integer: the nearest double, and an
infinity when the rounded magnitude reaches `2 ^ 1024`, that is, when it has
more than 1024 binary digits. -/
def toNumber (n : Int) : JsNumber :=
  let m := roundToDouble n.natAbs
  if bitLength m ≤ 1024 then .finite (if n < 0 then -(m : Int) else (m : Int))
  else .infinity (decide (n < 0))

/-- The product `x * y` of two Numbers: the exact product rounded to the
nearest double; `NaN` for `NaN` and for an infinity times zero. -/
def JsNumber.mul : JsNumber → JsNumber → JsNumber
  | .nan, _ => .nan
  | _, .nan => .nan
  | .finite a, .finite b => toNumber (a * b)
  | .finite a, .infinity s => if a = 0 then .nan else .infinity (s != decide (a < 0))
  | .infinity s, .finite b => if b = 0 then .nan else .infinity (s != decide (b < 0))
  | .infinity s, .infinity t => .infinity (s != t)

/-- What `JSON.stringify` writes for a Number: the number itself when it is
finite (as a decimal text that reads back as the same double), and `null`,
here `none`, for `NaN` and the infinities. -/
def jsonNumber : JsNumber → Option Int
  | .finite n => some n
  | _ => none

/-- The function `parseInt` called without a radix: leading white space is
skipped, then an optional sign, then an optional `0x` prefix, then the longest
run of digits; without a digit the result is `NaN`, otherwise it is the Number
value of the integer the digits denote: the nearest double, or an infinity
when the run is too long for a double. -/
def parseInt (s : String) : JsNumber :=
  let cs := s.data.dropWhile isJsWhiteSpace
  let negative := cs.head? = some '-'
  let cs1 := if cs.head? = some '-' ∨ cs.head? = some '+' then cs.tail else cs
  let hex := cs1.take 2 = ['0', 'x'] ∨ cs1.take 2 = ['0', 'X']
  let magnitude := if hex then readDigits 16 (cs1.drop 2) else readDigits 10 cs1
  match magnitude with
  | some n => toNumber (if negative then -(n : Int) else (n : Int))
  | none => .nan

/-- The expression `parseInt(value) || fallback`: `NaN` and zero are falsy,
every other Number, the infinities included, is truthy. -/
def parseIntOr (value : String) (fallback : Int) : JsNumber :=
  match parseInt value with
  | .finite n => if n = 0 then .finite fallback else .finite n
  | .infinity negative => .infinity negative
  | .nan => .finite fallback

/-- The expression `text || fallback` for strings. -/
def stringOr (text fallback : String) : String :=
  if truthyString text then text else fallback

/-- The function `generateMemberLink` of `UrlUtils.js`; `origin` is
`window.location.origin`. -/
def generateMemberLink (origin token : String) : String :=
  origin ++ "/chat?token=" ++ token

/-! ## From a link to `window.location.search` and `URLSearchParams`

The browser side of following a generated link, after the URL standard: the
parser strips the ends of the input, drops tabs and newlines, cuts the
fragment at the first `#`, starts the query at the first `?` and
percent-encodes it; `URLSearchParams` splits the query on `&` and on the first
`=`, turns `+` into a space, percent-decodes and decodes UTF-8. -/

/-- The UTF-8 bytes of a code point. -/
def utf8Bytes (c : Char) : List Nat :=
  let n := c.toNat
  if n < 0x80 then [n]
  else if n < 0x800 then [0xC0 + n / 64, 0x80 + n % 64]
  else if n < 0x10000 then [0xE0 + n / 4096, 0x80 + n / 64 % 64, 0x80 + n % 64]
  else [0xF0 + n / 262144, 0x80 + n / 4096 % 64, 0x80 + n / 64 % 64, 0x80 + n % 64]

/-- The upper-case hexadecimal digit of a number below 16. -/
def hexDigit (n : Nat) : Char :=
  if n < 10 then Char.ofNat (48 + n) else Char.ofNat (55 + n)

/-- Whether the URL parser percent-encodes a code point of the query of an
`http` or `https` URL. -/
def inQueryEncodeSet (c : Char) : Bool :=
  let n := c.toNat
  n ≤ 0x1F || n > 0x7E || n = 0x20 || n = 0x22 || n = 0x23 || n = 0x3C || n = 0x3E || n = 0x27

/-- What the URL parser writes for one code point of the query. -/
def queryEncode (c : Char) : List Char :=
  if inQueryEncodeSet c then
    (utf8Bytes c).flatMap fun b => ['%', hexDigit (b / 16), hexDigit (b % 16)]
  else [c]

/-- Whether a code point is a C0 control or a space. -/
def isC0ControlOrSpace (c : Char) : Bool :=
  c.toNat ≤ 0x20

/-- Whether a code point is an ASCII tab or newline. -/
def isTabOrNewline (c : Char) : Bool :=
  c.toNat = 0x09 || c.toNat = 0x0A || c.toNat = 0x0D

/-- The query of the URL record the parser builds from `href`, for an `http`
or `https` URL whose part before the first `?` or `#` is well formed. -/
def urlQuery (href : List Char) : List Char :=
  let trimmed :=
    ((href.dropWhile isC0ControlOrSpace).reverse.dropWhile isC0ControlOrSpace).reverse
  let cleaned := trimmed.filter fun c => !isTabOrNewline c
  let beforeFragment := cleaned.takeWhile fun c => c != '#'
  let raw := (beforeFragment.dropWhile fun c => c != '?').drop 1
  raw.flatMap queryEncode

/-- The value of `window.location.search` after navigating to `href`: empty
when the query is empty, otherwise `?` followed by the query. -/
def locationSearch (href : String) : String :=
  let query := urlQuery href.data
  if query.isEmpty then "" else ⟨'?' :: query⟩

/-- The pieces of a byte sequence between occurrences of a separator byte. -/
def splitBytes (sep : Nat) : List Nat → List (List Nat)
  | [] => [[]]
  | b :: bs =>
    if b = sep then [] :: splitBytes sep bs
    else
      match splitBytes sep bs with
      | [] => [[b]]
      | piece :: pieces => (b :: piece) :: pieces

/-- The value of a byte that is an ASCII hexadecimal digit. -/
def hexValue (b : Nat) : Option Nat :=
  if 48 ≤ b ∧ b ≤ 57 then some (b - 48)
  else if 65 ≤ b ∧ b ≤ 70 then some (b - 55)
  else if 97 ≤ b ∧ b ≤ 102 then some (b - 87)
  else none

/-- Percent-decoding of a byte sequence: `%` followed by two hexadecimal
digits becomes the byte they denote, every other byte stays. -/
def percentDecode : List Nat → List Nat
  | [] => []
  | [b] => [b]
  | [b, h] => [b, h]
  | b :: h :: l :: rest =>
    if b = 37 then
      match hexValue h, hexValue l with
      | some x, some y => (16 * x + y) :: percentDecode rest
      | _, _ => 37 :: percentDecode (h :: l :: rest)
    else b :: percentDecode (h :: l :: rest)

/-- Whether a byte lies within the given bounds. -/
def inRange (lower upper b : Nat) : Bool :=
  lower ≤ b && b ≤ upper

/-- The replacement character U+FFFD. -/
def replacementChar : Char :=
  Char.ofNat 0xFFFD

/-- The UTF-8 decoder of the Encoding standard, with its state: the number of
bytes still needed, the code point so far and the bounds for the next byte.
A byte that breaks a sequence gives U+FFFD and is read again as a first byte;
an unfinished sequence at the end gives U+FFFD. -/
def utf8DecodeFrom (needed codePoint lower upper : Nat) : List Nat → List Char
  | [] => if needed = 0 then [] else [replacementChar]
  | b :: rest =>
    if needed ≠ 0 ∧ inRange lower upper b = true then
      if needed = 1 then
        Char.ofNat (codePoint * 64 + (b - 0x80)) :: utf8DecodeFrom 0 0 0x80 0xBF rest
      else utf8DecodeFrom (needed - 1) (codePoint * 64 + (b - 0x80)) 0x80 0xBF rest
    else
      (if needed = 0 then [] else [replacementChar]) ++
      (if b < 0x80 then Char.ofNat b :: utf8DecodeFrom 0 0 0x80 0xBF rest
       else if inRange 0xC2 0xDF b then utf8DecodeFrom 1 (b - 0xC0) 0x80 0xBF rest
       else if inRange 0xE0 0xEF b then
         utf8DecodeFrom 2 (b - 0xE0) (if b = 0xE0 then 0xA0 else 0x80)
           (if b = 0xED then 0x9F else 0xBF) rest
       else if inRange 0xF0 0xF4 b then
         utf8DecodeFrom 3 (b - 0xF0) (if b = 0xF0 then 0x90 else 0x80)
           (if b = 0xF4 then 0x8F else 0xBF) rest
       else replacementChar :: utf8DecodeFrom 0 0 0x80 0xBF rest)

/-- UTF-8 decoding without BOM handling. -/
def utf8Decode (bytes : List Nat) : List Char :=
  utf8DecodeFrom 0 0 0x80 0xBF bytes

/-- One name or value of a query: `+` becomes a space, then percent-decoding,
then UTF-8 decoding. -/
def decodeComponent (bytes : List Nat) : String :=
  ⟨utf8Decode (percentDecode (bytes.map fun b => if b = 43 then 32 else b))⟩

/-- The parser of `application/x-www-form-urlencoded`: the non-empty pieces
between `&`, each cut at its first `=`. -/
def parseUrlencoded (bytes : List Nat) : List (String × String) :=
  ((splitBytes 38 bytes).filter fun piece => !piece.isEmpty).map fun piece =>
    (decodeComponent (piece.takeWhile fun b => b != 61),
     decodeComponent ((piece.dropWhile fun b => b != 61).drop 1))

/-- The list behind `new URLSearchParams(search)`: one leading `?` is dropped. -/
def searchParamsOf (search : String) : List (String × String) :=
  let cs := if search.data.head? = some '?' then search.data.tail else search.data
  parseUrlencoded (cs.flatMap utf8Bytes)

/-- The chat view as the browser shows it after the link `href` to the route
`/chat` is followed. -/
def followLink (hostname href : String) : Env :=
  TokenBasedChat hostname (searchParamsOf (locationSearch href))

/-! ## Registration: data model -/

/-- The field `skills` of a roster entry: free text, or already an array. -/
inductive Skills where
  | text (s : String)
  | list (items : List String)
  deriving DecidableEq

/-- One element of the state variable `members` of either form. -/
structure RosterMember where
  id : Nat
  name : String
  email : String
  phone : String
  role : String
  skills : Skills
  deriving DecidableEq

/-- One element of `members` in `projectData` / `teamData` and in the request
body. -/
structure MemberRecord where
  name : String
  email : String
  phone : String
  role : String
  skills : List String
  deriving DecidableEq

/-- The body of `POST /api/register` as `JSON.stringify` writes it;
`duration_hours` is `none` where the text has `null`. -/
structure RegisterBody where
  team_name : String
  problem_statement : String
  duration_hours : Option Int
  members : List MemberRecord
  deriving DecidableEq

/-- One element of `result.members` in the registration response. -/
structure TokenData where
  token : String
  role : String
  deriving DecidableEq

/-- The field `memberId` of a generated link: a fixed label for the manager or
leader, the numeric id for a roster entry. -/
inductive LinkId where
  | label (name : String)
  | number (id : Nat)
  deriving DecidableEq

/-- One element of the state variable `generatedLinks`. -/
structure MemberLink where
  memberId : LinkId
  memberName : String
  role : String
  link : String
  deriving DecidableEq

/-! ## Registration: code shared verbatim by both forms -/

/-- The skills expression of `handleSubmit` and `saveToJarvisMemory`:
`Array.isArray(skills) ? skills : (skills ? skills.split(',').map(skill => skill.trim()).filter(skill => skill) : [])`. -/
def normalizeSkills : Skills → List String
  | .list items => items
  | .text s =>
    if truthyString s then ((jsSplitComma s).map jsTrim).filter truthyString
    else []

/-- The object pushed by the `while` loop of `handleInputChange`. -/
def blankMember (id : Nat) : RosterMember :=
  { id := id, name := "", email := "", phone := "", role := "", skills := .text "" }

/-- The loop `while (newMembers.length < num) newMembers.push(blank)`, with a
bound on the number of iterations. -/
def growMembers (num : Int) : Nat → List RosterMember → List RosterMember
  | 0, newMembers => newMembers
  | fuel + 1, newMembers =>
    if (newMembers.length : Int) < num then
      growMembers num fuel (newMembers ++ [blankMember (newMembers.length + 1)])
    else newMembers

/-- The call `newMembers.splice(num)`: a negative start counts from the end,
and everything from the start on is removed. -/
def spliceFrom (num : Int) (newMembers : List RosterMember) : List RosterMember :=
  let start : Nat :=
    if num < 0 then ((newMembers.length : Int) + num).toNat
    else min num.toNat newMembers.length
  newMembers.take start

/-- The roster branch of `handleInputChange`: the roster after it.  For a
finite `num` this is the value `newMembers` handed to `setMembers`; the loop
adds one entry per iteration, so `num` iterations suffice.  For `-Infinity`
the loop is not entered and `splice(-Infinity)` removes every entry.  For
`Infinity` the loop condition never becomes false, so `setMembers` is never
reached and the roster keeps its value. -/
def resizeMembers (members : List RosterMember) (value : String) : List RosterMember :=
  match parseIntOr value 1 with
  | .finite num =>
    let newMembers := growMembers num num.toNat members
    if (newMembers.length : Int) > num then spliceFrom num newMembers else newMembers
  | .infinity true => []
  | .infinity false => members
  | .nan => members

/-- The update `{...member, [field]: value}` for the field names the roster
inputs pass; the key `id` is never passed and is not modelled. -/
def setMemberField (member : RosterMember) (field value : String) : RosterMember :=
  if field = "name" then { member with name := value }
  else if field = "email" then { member with email := value }
  else if field = "phone" then { member with phone := value }
  else if field = "role" then { member with role := value }
  else if field = "skills" then { member with skills := .text value }
  else member

/-- The updater of `handleMemberChange`:
`prev.map(member => member.id === memberId ? {...member, [field]: value} : member)`. -/
def handleMemberChange (memberId : Nat) (field value : String) (prev : List RosterMember) :
    List RosterMember :=
  prev.map fun member => if member.id = memberId then setMemberField member field value else member

/-- The mapping applied to each roster entry by `handleSubmit`. -/
def toMemberRecord (member : RosterMember) : MemberRecord :=
  { name := member.name
    email := member.email
    phone := stringOr member.phone ""
    role := stringOr member.role "Team Member"
    skills := normalizeSkills member.skills }

/-- The mapping applied to each member by `saveToJarvisMemory` when it builds
the request body. -/
def toBodyMember (member : MemberRecord) : MemberRecord :=
  { name := member.name
    email := member.email
    phone := stringOr member.phone ""
    role := stringOr member.role "Team Member"
    skills := normalizeSkills (.list member.skills) }

/-- The link entry of a roster member: the callback of `members.forEach`
(dashboard) and of `members.map` (registration form). -/
def rosterLink (origin : String) (memberTokens : List TokenData) (index : Nat)
    (member : RosterMember) : MemberLink :=
  let tokenData := memberTokens[index + 1]?
  { memberId := .number member.id
    memberName := member.name
    role :=
      match tokenData with
      | some td => td.role
      | none => member.role
    link :=
      match tokenData with
      | some td => if truthyString td.token then generateMemberLink origin td.token else "#"
      | none => "#" }

/-! ## `ManagerDashboard` -/

namespace ManagerDashboard

/-- The state variable `formData`.  The field `numberOfMembers` starts as the
number 1, shown as `"1"`, and holds the typed text afterwards. -/
structure FormData where
  clientName : String
  projectName : String
  projectDescription : String
  projectDurationDays : String
  managerName : String
  managerEmail : String
  managerPhone : String
  numberOfMembers : String
  deriving DecidableEq

/-- The `useState` variables of `ManagerDashboard`. -/
structure State where
  formData : FormData
  members : List RosterMember
  currentStep : Nat
  generatedLinks : List MemberLink
  isGenerating : Bool
  deriving DecidableEq

/-- The state of the first render. -/
def initialState : State :=
  { formData :=
      { clientName := "", projectName := "", projectDescription := ""
        projectDurationDays := "7", managerName := "Dhairyashil Shinde"
        managerEmail := "dhairyashil@agrimater.com", managerPhone := ""
        numberOfMembers := "1" }
    members := []
    currentStep := 1
    generatedLinks := []
    isGenerating := false }

/-- The update `{...prev, [name]: value}` for the names the inputs carry. -/
def setField (prev : FormData) (name value : String) : FormData :=
  if name = "clientName" then { prev with clientName := value }
  else if name = "projectName" then { prev with projectName := value }
  else if name = "projectDescription" then { prev with projectDescription := value }
  else if name = "projectDurationDays" then { prev with projectDurationDays := value }
  else if name = "managerName" then { prev with managerName := value }
  else if name = "managerEmail" then { prev with managerEmail := value }
  else if name = "managerPhone" then { prev with managerPhone := value }
  else if name = "numberOfMembers" then { prev with numberOfMembers := value }
  else prev

/-- The handler `handleInputChange` for an input named `name` holding `value`. -/
def handleInputChange (name value : String) (st : State) : State :=
  let st1 : State := { st with formData := setField st.formData name value }
  if name = "numberOfMembers" then { st1 with members := resizeMembers st.members value }
  else st1

/-- The truthiness of what `validateForm` returns. -/
def validateForm (st : State) : Bool :=
  if st.currentStep = 1 then
    truthyString st.formData.clientName && truthyString st.formData.projectName &&
      truthyString st.formData.projectDescription &&
      truthyString st.formData.projectDurationDays
  else if st.currentStep = 2 then
    truthyString st.formData.managerName &&
      st.members.all fun member => truthyString member.name && truthyString member.email
  else true

/-- The attribute `disabled` of the submit button of step 1. -/
def step1SubmitDisabled (st : State) : Bool :=
  !validateForm st

/-- The attribute `disabled` of the submit button of step 2. -/
def step2SubmitDisabled (st : State) : Bool :=
  !validateForm st || st.isGenerating

/-- The field `members` of the object `projectData` built by `handleSubmit`. -/
def projectMembers (st : State) : List MemberRecord :=
  { name := st.formData.managerName
    email := st.formData.managerEmail
    phone := st.formData.managerPhone
    role := "Manager"
    skills := ["Project Management", "Client Relations"] } ::
  st.members.map toMemberRecord

/-- The request body built by `saveToJarvisMemory` from the `projectData` of
`handleSubmit`. -/
def registerBody (st : State) : RegisterBody :=
  { team_name := st.formData.clientName ++ " - " ++ st.formData.projectName
    problem_statement := st.formData.projectDescription
    duration_hours := jsonNumber ((parseIntOr st.formData.projectDurationDays 7).mul (.finite 24))
    members := (projectMembers st).map toBodyMember }

/-- The array `allLinks` built in the timeout of `generateMemberLinks`, from
the `formData` and `members` of the render that submitted. -/
def allLinks (origin : String) (st : State) (memberTokens : List TokenData) : List MemberLink :=
  let managerLinks : List MemberLink :=
    match memberTokens[0]? with
    | some managerTokenData =>
      [{ memberId := .label "manager"
         memberName := st.formData.managerName
         role := "Manager"
         link := generateMemberLink origin managerTokenData.token }]
    | none => []
  managerLinks ++ st.members.enum.map fun p => rosterLink origin memberTokens p.1 p.2

/-- The function `generateMemberLinks` before its timeout fires. -/
def generateMemberLinksStart (st : State) : State :=
  { st with isGenerating := true }

/-- The timeout callback of `generateMemberLinks`; `submitted` is the state of
the render whose `handleSubmit` is running. -/
def generateMemberLinksTimeout (origin : String) (submitted : State)
    (memberTokens : List TokenData) (st : State) : State :=
  { st with generatedLinks := allLinks origin submitted memberTokens
            isGenerating := false
            currentStep := 3 }

/-- How the request of `saveToJarvisMemory` settles: `fetch` rejects with an
error carrying `message`; the response is not OK, with its status and body
text; reading the body rejects with an error carrying `message`; the body
parses to `null`, so that reading `result.members` throws an error carrying
`message`; or the body parses to an object whose `members` may be missing. -/
inductive RegisterOutcome where
  | fetchRejected (message : String)
  | notOk (status : Nat) (errorText : String)
  | bodyUnreadable (message : String)
  | nullBody (message : String)
  | ok (members : Option (List TokenData))
  deriving DecidableEq

/-- The `message` of the error that reaches the `catch` block of
`handleSubmit`, if one does. -/
def RegisterOutcome.errorMessage : RegisterOutcome → Option String
  | .fetchRejected message => some message
  | .notOk status errorText => some ("HTTP " ++ toString status ++ ": " ++ errorText)
  | .bodyUnreadable message => some message
  | .nullBody message => some message
  | .ok _ => none

/-- The request issued by `saveToJarvisMemory`: its URL and its body. -/
def registerRequest (hostname : String) (st : State) : String × RegisterBody :=
  (getApiBaseUrl hostname ++ "/api/register", registerBody st)

/-- The handler `handleSubmit` after the request has settled: the new state and
the texts passed to `alert`. -/
def handleSubmitSettle (o : RegisterOutcome) (st : State) : State × List String :=
  match o.errorMessage with
  | some message => (st, ["Registration failed: " ++ message])
  | none => (generateMemberLinksStart st, [])

/-- The token list handed to `generateMemberLinks`: `result.members || []`. -/
def RegisterOutcome.memberTokens : RegisterOutcome → List TokenData
  | .ok (some members) => members
  | _ => []

/-- One call of `handleSubmit` run to completion, timeout included, with
nothing else happening in between: the final state and the alerts. -/
def handleSubmit (origin : String) (o : RegisterOutcome) (st : State) : State × List String :=
  match o.errorMessage with
  | some _ => handleSubmitSettle o st
  | none =>
    (generateMemberLinksTimeout origin st o.memberTokens (handleSubmitSettle o st).1, [])

/-- What the user can do to the form: change an input wired to
`handleInputChange`, or change a field of a roster entry. -/
inductive FormEvent where
  | inputChanged (name value : String)
  | memberChanged (memberId : Nat) (field value : String)
  deriving DecidableEq

/-- The state change of one form event. -/
def applyFormEvent (ev : FormEvent) (st : State) : State :=
  match ev with
  | .inputChanged name value => handleInputChange name value st
  | .memberChanged memberId field value =>
    { st with members := handleMemberChange memberId field value st.members }

/-- A sequence of form events, oldest first. -/
def runForm (evs : List FormEvent) (st : State) : State :=
  evs.foldl (fun acc ev => applyFormEvent ev acc) st

/-- The submit handler of the form of step 1. -/
def submitStep1 (st : State) : State :=
  { st with currentStep := 2 }

/-- The dashboard after the project fields are filled, step 1 is submitted and
one roster entry is filled with the free-text skills `skills`. -/
def sampleState (skills : String) : State :=
  let st1 := handleInputChange "clientName" "Acme" initialState
  let st2 := handleInputChange "projectName" "Inventory" st1
  let st3 := handleInputChange "projectDescription" "Stock keeping" st2
  let st4 := handleInputChange "numberOfMembers" "1" (submitStep1 st3)
  { st4 with
    members := handleMemberChange 1 "skills" skills
      (handleMemberChange 1 "email" "aman@agrimater.com"
        (handleMemberChange 1 "name" "Aman" st4.members)) }

end ManagerDashboard

/-! ## `TeamRegistrationForm` -/

namespace TeamRegistrationForm

/-- The state variable `formData`. -/
structure FormData where
  teamName : String
  problemStatement : String
  hackathonTime : String
  teamLeaderName : String
  teamLeaderEmail : String
  teamLeaderPhone : String
  numberOfMembers : String
  deriving DecidableEq

/-- The `useState` variables of `TeamRegistrationForm`. -/
structure State where
  formData : FormData
  members : List RosterMember
  currentStep : Nat
  generatedLinks : List MemberLink
  isGenerating : Bool
  deriving DecidableEq

/-- The state of the first render. -/
def initialState : State :=
  { formData :=
      { teamName := "", problemStatement := "", hackathonTime := "", teamLeaderName := ""
        teamLeaderEmail := "", teamLeaderPhone := "", numberOfMembers := "1" }
    members := []
    currentStep := 1
    generatedLinks := []
    isGenerating := false }

/-- The update `{...prev, [name]: value}` for the names the inputs carry. -/
def setField (prev : FormData) (name value : String) : FormData :=
  if name = "teamName" then { prev with teamName := value }
  else if name = "problemStatement" then { prev with problemStatement := value }
  else if name = "hackathonTime" then { prev with hackathonTime := value }
  else if name = "teamLeaderName" then { prev with teamLeaderName := value }
  else if name = "teamLeaderEmail" then { prev with teamLeaderEmail := value }
  else if name = "teamLeaderPhone" then { prev with teamLeaderPhone := value }
  else if name = "numberOfMembers" then { prev with numberOfMembers := value }
  else prev

/-- The handler `handleInputChange` for an input named `name` holding `value`. -/
def handleInputChange (name value : String) (st : State) : State :=
  let st1 : State := { st with formData := setField st.formData name value }
  if name = "numberOfMembers" then { st1 with members := resizeMembers st.members value }
  else st1

/-- The field `members` of the object `teamData` built by `handleSubmit`. -/
def teamMembers (st : State) : List MemberRecord :=
  { name := st.formData.teamLeaderName
    email := st.formData.teamLeaderEmail
    phone := st.formData.teamLeaderPhone
    role := "Team Leader"
    skills := [] } ::
  st.members.map toMemberRecord

/-- The request body built by `saveToJarvisMemory` from the `teamData` of
`handleSubmit`. -/
def registerBody (st : State) : RegisterBody :=
  { team_name := st.formData.teamName
    problem_statement := st.formData.problemStatement
    duration_hours := jsonNumber (parseIntOr st.formData.hackathonTime 24)
    members := (teamMembers st).map toBodyMember }

/-- The array `links` built in the timeout of `generateMemberLinks`: the
roster entries are mapped first, then the leader entry is put in front with
`unshift`. -/
def allLinks (origin : String) (st : State) (memberTokens : List TokenData) : List MemberLink :=
  let links := st.members.enum.map fun p => rosterLink origin memberTokens p.1 p.2
  match memberTokens[0]? with
  | some leaderTokenData =>
    { memberId := .label "leader"
      memberName := st.formData.teamLeaderName
      role := "Team Leader"
      link := generateMemberLink origin leaderTokenData.token } :: links
  | none => links

/-- What the user can do to the form: change an input wired to
`handleInputChange`, or change a field of a roster entry. -/
inductive FormEvent where
  | inputChanged (name value : String)
  | memberChanged (memberId : Nat) (field value : String)
  deriving DecidableEq

/-- The state change of one form event. -/
def applyFormEvent (ev : FormEvent) (st : State) : State :=
  match ev with
  | .inputChanged name value => handleInputChange name value st
  | .memberChanged memberId field value =>
    { st with members := handleMemberChange memberId field value st.members }

/-- A sequence of form events, oldest first. -/
def runForm (evs : List FormEvent) (st : State) : State :=
  evs.foldl (fun acc ev => applyFormEvent ev acc) st

end TeamRegistrationForm

/-! ## The roster under count changes and member edits -/

/-- The two updates of the state variable `members`. -/
inductive RosterEvent where
  | countChanged (value : String)
  | memberChanged (memberId : Nat) (field value : String)
  deriving DecidableEq

/-- The roster after one update. -/
def applyRosterEvent (ev : RosterEvent) (members : List RosterMember) : List RosterMember :=
  match ev with
  | .countChanged value => resizeMembers members value
  | .memberChanged memberId field value => handleMemberChange memberId field value members

/-- The roster after a sequence of updates, oldest first. -/
def runRoster (evs : List RosterEvent) (members : List RosterMember) : List RosterMember :=
  evs.foldl (fun acc ev => applyRosterEvent ev acc) members

/-- Whether an update edits the key `id` of an entry. -/
def RosterEvent.editsId : RosterEvent → Bool
  | .memberChanged _ field _ => field = "id"
  | .countChanged _ => false

/-- The roster numbers its entries 1, 2, 3, ... in order. -/
def RosterIds (members : List RosterMember) : Prop :=
  members.map RosterMember.id = List.range' 1 members.length

/-- Positional numbering can be checked by evaluation. -/
instance decidableRosterIds (members : List RosterMember) : Decidable (RosterIds members) :=
  inferInstanceAs (Decidable (members.map RosterMember.id = List.range' 1 members.length))

/-! ## `HackathonTimer` -/

namespace HackathonTimer

/-- The `useState` variables of `HackathonTimer`; times are in seconds, held as
integers (the doubles of the source are exact on the integers up to
`2 ^ 53`). -/
structure State where
  timeLeft : Int
  isWarning : Bool
  isCritical : Bool
  isCompleted : Bool
  deriving DecidableEq

/-- The state of the first render for the prop `durationHours`. -/
def initialState (durationHours : Int) : State :=
  { timeLeft := durationHours * 3600, isWarning := false, isCritical := false,
    isCompleted := false }

/-- One firing of the interval.  The effect installs the interval only while
`isActive` holds and `isCompleted` does not; `playSound` only drives the audio
device and is left out. -/
def tick (isActive : Bool) (s : State) : State :=
  if !isActive || s.isCompleted then s
  else
    let newTime := s.timeLeft - 1
    let isWarning := if newTime = 2 * 3600 ∧ s.isWarning = false then true else s.isWarning
    let isCritical := if newTime = 1 * 3600 ∧ s.isCritical = false then true else s.isCritical
    if newTime ≤ 0 then
      { timeLeft := 0, isWarning := isWarning, isCritical := isCritical, isCompleted := true }
    else
      { timeLeft := newTime, isWarning := isWarning, isCritical := isCritical,
        isCompleted := s.isCompleted }

/-- The state after a number of firings of the interval. -/
def ticks (isActive : Bool) : Nat → State → State
  | 0, s => s
  | n + 1, s => ticks isActive n (tick isActive s)

end HackathonTimer

/-! ## Sample data -/

/-- The link `/chat?token=T0` opened on the development host. -/
def sampleEnv : Env :=
  TokenBasedChat "localhost" [("token", "T0")]

/-- The link `/chat` opened without a query string. -/
def tokenlessEnv : Env :=
  TokenBasedChat "localhost" []

/-- An init response that resolves a member whose history holds one message. -/
def sampleInit : InitOutcome :=
  .body { success := true
          member := some { name := "Asha", role := "Dev",
                           chat_history := some [⟨"hello", "assistant", none⟩] }
          team := some { name := "Alpha" } }

/-- Two sends that overlap: the second is submitted while the first is in
flight, then the first one settles. -/
def overlappingSends : List Event :=
  [.initSettled sampleInit 0, .inputChanged "a", .submitted 1, .inputChanged "b", .submitted 2,
   .sendSettled (.body ⟨true, "reply to a"⟩) 3]

/-- An init response that resolves a member without any history. -/
def freshInit : InitOutcome :=
  .body { success := true
          member := some { name := "Asha", role := "Dev", chat_history := some [] }
          team := some { name := "Alpha" } }

/-- Events of a short conversation after the load. -/
def sampleConversation : List Event :=
  [.welcomeSettled (.body ⟨true, "Welcome, Asha"⟩) 1, .inputChanged "welcome", .submitted 2,
   .sendSettled (.body ⟨true, "Hi"⟩) 3]

/-- An init response with a truthy `success` and a team but no member. -/
def memberlessInit : InitOutcome :=
  .body { success := true, member := none, team := some { name := "Alpha" } }

/-- An init response with a falsy `success` that still carries a member with
one history entry. -/
def refusedInit : InitOutcome :=
  .body { success := false
          member := some { name := "Asha", role := "Dev",
                           chat_history := some [⟨"hello", "user", none⟩] }
          team := none }

/-- The chat view after a successful load, with `text` typed into the input. -/
def sampleChatState (text : String) : ChatState :=
  (run sampleEnv [.initSettled sampleInit 0, .inputChanged text] (mount sampleEnv)).state

/-- The sample dashboard with the role `Dev` typed for its roster entry. -/
def sampleStateWithRole : ManagerDashboard.State :=
  { ManagerDashboard.sampleState "react" with
    members := handleMemberChange 1 "role" "Dev" (ManagerDashboard.sampleState "react").members }

/-- The registration form with the leader `Dhairyashil Shinde` and the roster
of the sample dashboard. -/
def sampleTeamForm : TeamRegistrationForm.State :=
  let st1 := TeamRegistrationForm.handleInputChange "teamLeaderName" "Dhairyashil Shinde"
    TeamRegistrationForm.initialState
  let st2 := TeamRegistrationForm.handleInputChange "numberOfMembers" "2" st1
  let st3 := TeamRegistrationForm.handleInputChange "numberOfMembers" "1" st2
  { st3 with
    members := handleMemberChange 1 "skills" "react"
      (handleMemberChange 1 "email" "aman@agrimater.com"
        (handleMemberChange 1 "name" "Aman" st3.members)) }

/-! ## Terms for the way from a link back to its token -/

/-- Whether a code point may occur in `window.location.origin` as far as the
query is concerned: no control character or space, no `?`, no `#`. -/
def isOriginChar (c : Char) : Bool :=
  0x20 < c.toNat && c != '?' && c != '#'

/-- Whether a code point is an ASCII hexadecimal digit. -/
def isHexDigitChar (c : Char) : Bool :=
  (hexValue c.toNat).isSome

/-- Whether a text holds a percent escape: `%` followed by two hexadecimal
digits. -/
def hasPercentEscape : List Char → Bool
  | c :: d :: e :: rest =>
    (c == '%' && isHexDigitChar d && isHexDigitChar e) || hasPercentEscape (d :: e :: rest)
  | _ => false

/-- What is left of a token in the URL record of its link: control characters
and spaces at the end are stripped, tabs and newlines are dropped, and a `#`
starts the fragment. -/
def tokenInUrl (token : List Char) : List Char :=
  (((token.reverse.dropWhile isC0ControlOrSpace).reverse).filter fun c =>
    !isTabOrNewline c).takeWhile fun c => c != '#'

/-- What is left of a token in the value of the parameter `token`: the part
in the URL record up to the first `&`. -/
def tokenInQuery (token : List Char) : List Char :=
  (tokenInUrl token).takeWhile fun c => c != '&'

/-- The bytes that percent-decoding receives for a value whose text in the
link is `cs`: each code point as the URL parser writes it, in UTF-8, with `+`
turned into a space. -/
def valueBytes (cs : List Char) : List Nat :=
  ((cs.flatMap queryEncode).flatMap utf8Bytes).map fun b => if b = 43 then 32 else b

/-! # Theorems -/

/-! ## Auxiliary facts -/

theorem truthyString_iff (s : String) : truthyString s = true ↔ s ≠ "" := by
  cases s with
  | mk cs =>
    cases cs with
    | nil => simp [truthyString]
    | cons c cs =>
      simp only [truthyString, List.isEmpty_cons, Bool.not_false, ne_eq, true_iff]
      intro h
      have := congrArg String.data h
      simp at this

theorem truthyString_eq_false_iff (s : String) : truthyString s = false ↔ s = "" := by
  rw [← Bool.not_eq_true, truthyString_iff]; simp

theorem handleSendMessageStart_of_nonblank (env : Env) (now : Nat) (s : ChatState)
    (h : jsTrim s.inputMessage ≠ "") :
    handleSendMessageStart env now s =
      ({ s with
          messages := appendMessage s.inputMessage "user" now s.messages
          inputMessage := ""
          isTyping := true },
       some (.chat (getApiBaseUrl env.hostname ++ "/api/chat") (getTokenFromUrl env)
          s.inputMessage false)) := by
  have ht : truthyString (jsTrim s.inputMessage) = true := (truthyString_iff _).2 h
  simp [handleSendMessageStart, ht]

theorem handleSendMessageStart_of_blank (env : Env) (now : Nat) (s : ChatState)
    (h : jsTrim s.inputMessage = "") :
    handleSendMessageStart env now s = (s, none) := by
  have ht : truthyString (jsTrim s.inputMessage) = false := (truthyString_eq_false_iff _).2 h
  simp [handleSendMessageStart, ht]

/-! ## Sending a message -/

/-- C2: for every state whose input trims to the empty string,
`handleSendMessage` changes nothing (transcript, input field and `isTyping`
included) and issues no request. -/
theorem handleSendMessage_blank (env : Env) (now later : Nat) (o : ChatOutcome) (s : ChatState)
    (hinput : jsTrim s.inputMessage = "") :
    handleSendMessageStart env now s = (s, none) ∧
      handleSendMessage env now o later s = (s, []) := by
  simp [handleSendMessage, handleSendMessageStart_of_blank env now s hinput]

/-- Witness of C2: a whitespace-only input in the chat view. -/
theorem handleSendMessage_blank_witness :
    handleSendMessageStart sampleEnv 3 (sampleChatState " \t\n") = (sampleChatState " \t\n", none) ∧
    handleSendMessage sampleEnv 3 .fetchRejected 4 (sampleChatState " \t\n") =
      (sampleChatState " \t\n", []) :=
  handleSendMessage_blank sampleEnv 3 4 .fetchRejected (sampleChatState " \t\n") (by decide)

/-! ## The pending-reply flag -/

theorem commit_state (env : Env) (old : ChatState) (sys : Session) :
    (commit env old sys).state = sys.state := by
  unfold commit
  split
  · rfl
  · split <;> rfl

theorem commit_pendingSends (env : Env) (old : ChatState) (sys : Session) :
    (commit env old sys).pendingSends = sys.pendingSends := by
  unfold commit
  split
  · rfl
  · split <;> rfl

theorem commit_pendingInit (env : Env) (old : ChatState) (sys : Session) :
    (commit env old sys).pendingInit = sys.pendingInit := by
  unfold commit
  split
  · rfl
  · split <;> rfl

theorem handleSendMessageStart_isTyping (env : Env) (now : Nat) (s : ChatState)
    (h : s.isTyping = true) : (handleSendMessageStart env now s).1.isTyping = true := by
  unfold handleSendMessageStart
  split <;> simp [h]

theorem fetchMemberDataSettle_isTyping (o : InitOutcome) (now : Nat) (s : ChatState) :
    (fetchMemberDataSettle o now s).isTyping = s.isTyping := by
  cases o with
  | body result => cases hs : result.success <;> simp [fetchMemberDataSettle, hs]
  | _ => rfl

theorem sendWelcomeMessageSettle_isTyping (o : ChatOutcome) (now : Nat) (s : ChatState) :
    (sendWelcomeMessageSettle o now s).isTyping = s.isTyping := by
  cases o with
  | body result => cases hs : result.success <;> simp [sendWelcomeMessageSettle, hs]
  | _ => rfl

theorem handleSendMessageSettle_isTyping (o : ChatOutcome) (now : Nat) (s : ChatState) :
    (handleSendMessageSettle o now s).isTyping = false := by
  simp [handleSendMessageSettle]

theorem step_keeps_typing (env : Env) (ev : Event) (sys : Session)
    (hev : ev.isSendSettled = false) (h : sys.state.isTyping = true) :
    (step env ev sys).state.isTyping = true ∧ sys.pendingSends ≤ (step env ev sys).pendingSends := by
  rw [step, commit_state, commit_pendingSends]
  cases ev with
  | initSettled o now =>
    simp only [applyEvent]
    split
    · exact ⟨h, le_refl _⟩
    · exact ⟨by simp [fetchMemberDataSettle_isTyping, h], le_refl _⟩
  | inputChanged text =>
    simp only [applyEvent]
    split
    · exact ⟨h, le_refl _⟩
    · exact ⟨h, le_refl _⟩
  | submitted now =>
    simp only [applyEvent]
    split
    · exact ⟨handleSendMessageStart_isTyping env now _ h, Nat.le_add_right _ _⟩
    · exact ⟨h, le_refl _⟩
  | sendSettled o now => simp [Event.isSendSettled] at hev
  | welcomeSettled o now =>
    simp only [applyEvent]
    split
    · exact ⟨h, le_refl _⟩
    · exact ⟨by simp [sendWelcomeMessageSettle_isTyping, h], le_refl _⟩

theorem run_keeps_typing (env : Env) (evs : List Event) :
    ∀ sys : Session, (∀ ev ∈ evs, ev.isSendSettled = false) → sys.state.isTyping = true →
      (run env evs sys).state.isTyping = true ∧ sys.pendingSends ≤ (run env evs sys).pendingSends := by
  induction evs with
  | nil => intro sys _ h; exact ⟨h, le_refl _⟩
  | cons ev evs ih =>
    intro sys hevs h
    have h1 := step_keeps_typing env ev sys (hevs ev (List.mem_cons_self _ _)) h
    have h2 := ih (step env ev sys) (fun e he => hevs e (List.mem_cons_of_mem _ he)) h1.1
    exact ⟨h2.1, le_trans h1.2 h2.2⟩

theorem run_append (env : Env) (evs more : List Event) (sys : Session) :
    run env (evs ++ more) sys = run env more (run env evs sys) := by
  simp [run, List.foldl_append]

theorem step_submitted_nonblank (env : Env) (now : Nat) (sys : Session)
    (hview : selectView env sys.state = .chat) (hinput : jsTrim sys.state.inputMessage ≠ "") :
    (step env (.submitted now) sys).state.isTyping = true ∧
      0 < (step env (.submitted now) sys).pendingSends := by
  rw [step, commit_state, commit_pendingSends]
  simp [applyEvent, hview, handleSendMessageStart_of_nonblank env now sys.state hinput]

theorem step_sendSettled_isTyping (env : Env) (o : ChatOutcome) (now : Nat) (sys : Session)
    (h : sys.pendingSends ≠ 0) :
    (run env [.sendSettled o now] sys).state.isTyping = false := by
  simp only [run, List.foldl_cons, List.foldl_nil]
  rw [step, commit_state]
  simp [applyEvent, h, handleSendMessageSettle_isTyping]

/-- C5, as stated, fails: with two overlapping sends, when the first request
settles its `finally` block lowers `isTyping` although the second send,
echoed as message 3, is still in flight. -/
theorem isTyping_lowered_while_send_pending :
    (run sampleEnv (overlappingSends.take 5) (mount sampleEnv)).state.isTyping = true ∧
    (run sampleEnv (overlappingSends.take 5) (mount sampleEnv)).pendingSends = 2 ∧
    (run sampleEnv overlappingSends (mount sampleEnv)).pendingSends = 1 ∧
    (run sampleEnv overlappingSends (mount sampleEnv)).state.messages.map Message.text =
      ["hello", "a", "b", "reply to a"] ∧
    (run sampleEnv overlappingSends (mount sampleEnv)).state.isTyping = false := by
  decide

/-- C5, amended: after a non-blank send is submitted in the chat view,
`isTyping` is true and stays true through every sequence of events in which no
send settles; whenever `handleSendMessage` completes, with whatever outcome and
in whatever state, `isTyping` is false afterwards; in particular it is false
when the submitted send settles after events in which no other send
settled. -/
theorem isTyping_raised_until_a_send_settles (env : Env) (sys : Session) (now : Nat)
    (hview : selectView env sys.state = .chat) (hinput : jsTrim sys.state.inputMessage ≠ "") :
    (∀ evs : List Event, (∀ ev ∈ evs, ev.isSendSettled = false) →
      (run env evs (step env (.submitted now) sys)).state.isTyping = true) ∧
    (∀ (o : ChatOutcome) (later : Nat) (s : ChatState),
      (handleSendMessageSettle o later s).isTyping = false) ∧
    (∀ (evs : List Event) (o : ChatOutcome) (later : Nat),
      (∀ ev ∈ evs, ev.isSendSettled = false) →
      (run env (evs ++ [.sendSettled o later]) (step env (.submitted now) sys)).state.isTyping
        = false) := by
  have h0 := step_submitted_nonblank env now sys hview hinput
  refine ⟨fun evs hevs => (run_keeps_typing env evs _ hevs h0.1).1,
    handleSendMessageSettle_isTyping, fun evs o later hevs => ?_⟩
  have h1 := run_keeps_typing env evs _ hevs h0.1
  have hpos : (run env evs (step env (.submitted now) sys)).pendingSends ≠ 0 :=
    Nat.pos_iff_ne_zero.1 (lt_of_lt_of_le h0.2 h1.2)
  rw [run_append]
  exact step_sendSettled_isTyping env o later _ hpos

/-- Witness of C5 amended: the send of `"a"` after a successful load, with the
input edited while the request is in flight, for each of the three outcomes. -/
theorem isTyping_raised_until_a_send_settles_witness :
    (run sampleEnv [.inputChanged "b"]
      (step sampleEnv (.submitted 1)
        (run sampleEnv [.initSettled sampleInit 0, .inputChanged "a"] (mount sampleEnv)))
      ).state.isTyping = true ∧
    (run sampleEnv ([.inputChanged "b"] ++ [.sendSettled (.body ⟨true, "r"⟩) 2])
      (step sampleEnv (.submitted 1)
        (run sampleEnv [.initSettled sampleInit 0, .inputChanged "a"] (mount sampleEnv)))
      ).state.isTyping = false ∧
    (run sampleEnv ([.inputChanged "b"] ++ [.sendSettled (.body ⟨false, "r"⟩) 2])
      (step sampleEnv (.submitted 1)
        (run sampleEnv [.initSettled sampleInit 0, .inputChanged "a"] (mount sampleEnv)))
      ).state.isTyping = false ∧
    (run sampleEnv ([.inputChanged "b"] ++ [.sendSettled .fetchRejected 2])
      (step sampleEnv (.submitted 1)
        (run sampleEnv [.initSettled sampleInit 0, .inputChanged "a"] (mount sampleEnv)))
      ).state.isTyping = false :=
  have h := isTyping_raised_until_a_send_settles sampleEnv
    (run sampleEnv [.initSettled sampleInit 0, .inputChanged "a"] (mount sampleEnv)) 1
    (by decide) (by decide)
  ⟨h.1 [.inputChanged "b"] (by decide),
   h.2.2 [.inputChanged "b"] (.body ⟨true, "r"⟩) 2 (by decide),
   h.2.2 [.inputChanged "b"] (.body ⟨false, "r"⟩) 2 (by decide),
   h.2.2 [.inputChanged "b"] .fetchRejected 2 (by decide)⟩

/-! ## Initialisation and the welcome exchange -/

theorem formattedMessages_length (h : List HistoryEntry) (now : Nat) :
    (formattedMessages h now).length = h.length := by
  simp [formattedMessages]

theorem formattedMessages_eq_nil_iff (h : List HistoryEntry) (now : Nat) :
    formattedMessages h now = [] ↔ h = [] := by
  rw [← List.length_eq_zero, formattedMessages_length, List.length_eq_zero]

theorem mount_of_token (env : Env) (htoken : truthy (getTokenFromUrl env) = true) :
    mount env =
      { state := initialState
        sent := [.init (getApiBaseUrl env.hostname ++ "/api/chat/init?token=" ++
          interpolate (getTokenFromUrl env))]
        pendingInit := 1
        pendingSends := 0
        pendingWelcomes := 0 } := by
  simp [mount, initEffect, htoken, welcomeEffect, initialState]

theorem mount_of_no_token (env : Env) (htoken : truthy (getTokenFromUrl env) = false) :
    mount env =
      { state := { initialState with loading := false }
        sent := []
        pendingInit := 0
        pendingSends := 0
        pendingWelcomes := 0 } := by
  simp [mount, initEffect, htoken, welcomeEffect, initialState]

theorem handleSendMessageStart_memberData (env : Env) (now : Nat) (s : ChatState) :
    (handleSendMessageStart env now s).1.memberData = s.memberData := by
  unfold handleSendMessageStart
  split <;> rfl

theorem handleSendMessageStart_not_welcome (env : Env) (now : Nat) (s : ChatState) :
    (handleSendMessageStart env now s).2.toList.filter isWelcomeRequest = [] := by
  unfold handleSendMessageStart
  split <;> simp [isWelcomeRequest]

theorem handleSendMessageSettle_memberData (o : ChatOutcome) (now : Nat) (s : ChatState) :
    (handleSendMessageSettle o now s).memberData = s.memberData := by
  cases o with
  | body result => cases hs : result.success <;> simp [handleSendMessageSettle, hs]
  | _ => rfl

theorem sendWelcomeMessageSettle_memberData (o : ChatOutcome) (now : Nat) (s : ChatState) :
    (sendWelcomeMessageSettle o now s).memberData = s.memberData := by
  cases o with
  | body result => cases hs : result.success <;> simp [sendWelcomeMessageSettle, hs]
  | _ => rfl

theorem applyEvent_memberData (env : Env) (ev : Event) (sys : Session) (h : sys.pendingInit = 0) :
    (applyEvent env ev sys).state.memberData = sys.state.memberData ∧
      (applyEvent env ev sys).pendingInit = 0 ∧
      (applyEvent env ev sys).sent.filter isWelcomeRequest = sys.sent.filter isWelcomeRequest := by
  cases ev with
  | initSettled o now => simp [applyEvent, h]
  | inputChanged text =>
    simp only [applyEvent]
    split <;> simp [h]
  | submitted now =>
    simp only [applyEvent]
    split
    · simp [h, handleSendMessageStart_memberData, handleSendMessageStart_not_welcome]
    · simp [h]
  | sendSettled o now =>
    simp only [applyEvent]
    split
    · simp [h]
    · simp [h, handleSendMessageSettle_memberData]
  | welcomeSettled o now =>
    simp only [applyEvent]
    split
    · simp [h]
    · simp [h, sendWelcomeMessageSettle_memberData]

theorem commit_of_same_memberData (env : Env) (old : ChatState) (sys : Session)
    (h : sys.state.memberData = old.memberData) : commit env old sys = sys := by
  simp [commit, h]

theorem step_after_init (env : Env) (ev : Event) (sys : Session) (h : sys.pendingInit = 0) :
    (step env ev sys).state.memberData = sys.state.memberData ∧
      (step env ev sys).pendingInit = 0 ∧
      (step env ev sys).sent.filter isWelcomeRequest = sys.sent.filter isWelcomeRequest := by
  have ha := applyEvent_memberData env ev sys h
  rw [step, commit_of_same_memberData env sys.state _ ha.1]
  exact ha

theorem run_after_init (env : Env) (evs : List Event) :
    ∀ sys : Session, sys.pendingInit = 0 →
      (run env evs sys).sent.filter isWelcomeRequest = sys.sent.filter isWelcomeRequest := by
  induction evs with
  | nil => intro sys _; rfl
  | cons ev evs ih =>
    intro sys h
    have hs := step_after_init env ev sys h
    have := ih (step env ev sys) hs.2.1
    simpa [run, hs.2.2] using this

theorem run_cons (env : Env) (ev : Event) (evs : List Event) (sys : Session) :
    run env (ev :: evs) sys = run env evs (step env ev sys) := rfl

/-- The session right after the init request of a load with a token has settled. -/
theorem step_initSettled_mount (env : Env) (o : InitOutcome) (now : Nat)
    (htoken : truthy (getTokenFromUrl env) = true) :
    step env (.initSettled o now) (mount env) =
      commit env initialState
        { state := fetchMemberDataSettle o now initialState
          sent := [.init (getApiBaseUrl env.hostname ++ "/api/chat/init?token=" ++
            interpolate (getTokenFromUrl env))]
          pendingInit := 0
          pendingSends := 0
          pendingWelcomes := 0 } := by
  rw [mount_of_token env htoken]
  simp [step, applyEvent]

/-- C6: in a load with a token, once the init request has settled and whatever
happens afterwards, the requests flagged `is_welcome` that were issued are
exactly one welcome request (message `"welcome"`, `is_welcome` true) when the
init response has a truthy `success`, carries a member and rehydrates to the
empty transcript, and none at all in every other case. -/
theorem welcome_sent_iff (env : Env) (o : InitOutcome) (now : Nat) (evs : List Event)
    (htoken : truthy (getTokenFromUrl env) = true) :
    ((∃ result, o = .body result ∧ result.success = true ∧ result.member.isSome = true ∧
        formattedMessages (chatHistoryOf result) now = []) →
      (run env (.initSettled o now :: evs) (mount env)).sent.filter isWelcomeRequest =
        [.chat (getApiBaseUrl env.hostname ++ "/api/chat") (getTokenFromUrl env) "welcome" true]) ∧
    ((¬ ∃ result, o = .body result ∧ result.success = true ∧ result.member.isSome = true ∧
        formattedMessages (chatHistoryOf result) now = []) →
      (run env (.initSettled o now :: evs) (mount env)).sent.filter isWelcomeRequest = []) := by
  have hrun : (run env (.initSettled o now :: evs) (mount env)).sent.filter isWelcomeRequest =
      (step env (.initSettled o now) (mount env)).sent.filter isWelcomeRequest := by
    rw [run_cons]
    apply run_after_init
    rw [step_initSettled_mount env o now htoken, commit_pendingInit]
  rw [hrun, step_initSettled_mount env o now htoken]
  constructor
  · rintro ⟨result, rfl, hs, hm, hh⟩
    obtain ⟨m, hm'⟩ := Option.isSome_iff_exists.1 hm
    simp [commit, fetchMemberDataSettle, hs, hm', initialState, welcomeEffect, hh,
      welcomeRequest, isWelcomeRequest]
  · intro hno
    cases o with
    | body result =>
      cases hs : result.success with
      | false => simp [commit, fetchMemberDataSettle, hs, initialState, isWelcomeRequest]
      | true =>
        cases hm : result.member with
        | none => simp [commit, fetchMemberDataSettle, hs, hm, initialState, isWelcomeRequest]
        | some m =>
          have hh : formattedMessages (chatHistoryOf result) now ≠ [] := fun hh =>
            hno ⟨result, rfl, hs, by simp [hm], hh⟩
          have hlen : 0 < (formattedMessages (chatHistoryOf result) now).length :=
            List.length_pos.2 hh
          simp [commit, fetchMemberDataSettle, hs, hm, initialState, welcomeEffect, hlen,
            isWelcomeRequest]
    | _ => simp [commit, fetchMemberDataSettle, initialState, isWelcomeRequest]

/-- Witness of C6: a member without history gets one welcome request, even
when the user later types the word welcome; a member with history gets none. -/
theorem welcome_sent_iff_witness :
    (run sampleEnv (.initSettled freshInit 0 :: sampleConversation)
        (mount sampleEnv)).sent.filter isWelcomeRequest =
      [.chat (getApiBaseUrl sampleEnv.hostname ++ "/api/chat") (getTokenFromUrl sampleEnv)
        "welcome" true] ∧
    (run sampleEnv (.initSettled sampleInit 0 :: sampleConversation)
        (mount sampleEnv)).sent.filter isWelcomeRequest = [] :=
  ⟨(welcome_sent_iff sampleEnv freshInit 0 sampleConversation (by decide)).1
      ⟨_, rfl, rfl, rfl, rfl⟩,
   (welcome_sent_iff sampleEnv sampleInit 0 sampleConversation (by decide)).2
      (by
        rintro ⟨r, hr, -, -, hh⟩
        have hr' := InitOutcome.body.inj hr
        subst hr'
        exact absurd hh (by decide))⟩

/-- C7, as stated, fails: a response with a truthy `success`, a team and no
member leaves team data present, and a response with a falsy `success` whose
member carries history leaves that history in the transcript; both end in the
"Member Not Found" view. -/
theorem init_failure_exposes_partial_state :
    (run sampleEnv [.initSettled memberlessInit 0] (mount sampleEnv)).state.teamData =
      some { name := "Alpha" } ∧
    selectView sampleEnv (run sampleEnv [.initSettled memberlessInit 0] (mount sampleEnv)).state =
      .memberNotFound ∧
    (run sampleEnv [.initSettled refusedInit 0] (mount sampleEnv)).state.messages =
      [{ id := 1, text := "hello", sender := "user", timestamp := .clock 0 }] ∧
    selectView sampleEnv (run sampleEnv [.initSettled refusedInit 0] (mount sampleEnv)).state =
      .memberNotFound := by
  decide

/-- C7, amended: in a load with a token, for every init outcome that is a
failure (the request throws, the response has a falsy `success`, or the
response has no member), member data is absent, `loading` is false and the
view is "Member Not Found"; when the request throws, team data is absent
and the transcript is empty; when `success` is falsy, team data is absent;
when `success` is truthy and the member is missing, the transcript is empty
and team data is the `team` field of the response. -/
theorem init_failure_state (env : Env) (o : InitOutcome) (now : Nat)
    (htoken : truthy (getTokenFromUrl env) = true)
    (hfail : o.throws = true ∨
      ∃ result, o = .body result ∧ (result.success = false ∨ result.member = none)) :
    (run env [.initSettled o now] (mount env)).state.memberData = none ∧
    (run env [.initSettled o now] (mount env)).state.loading = false ∧
    selectView env (run env [.initSettled o now] (mount env)).state = .memberNotFound ∧
    (o.throws = true →
      (run env [.initSettled o now] (mount env)).state.teamData = none ∧
      (run env [.initSettled o now] (mount env)).state.messages = []) ∧
    (∀ result, o = .body result → result.success = false →
      (run env [.initSettled o now] (mount env)).state.teamData = none) ∧
    (∀ result, o = .body result → result.success = true →
      (run env [.initSettled o now] (mount env)).state.teamData = result.team ∧
      (run env [.initSettled o now] (mount env)).state.messages = []) := by
  have hrun : (run env [.initSettled o now] (mount env)).state =
      fetchMemberDataSettle o now initialState := by
    rw [run_cons, step_initSettled_mount env o now htoken]
    simp [run, commit_state]
  rw [hrun]
  cases o with
  | body result =>
    rcases hfail with hthrow | ⟨r, hr, hcase⟩
    · simp [InitOutcome.throws] at hthrow
    · have hr' := InitOutcome.body.inj hr
      subst hr'
      cases hs : result.success with
      | false =>
        simp [fetchMemberDataSettle, hs, initialState, selectView, htoken, InitOutcome.throws]
      | true =>
        have hm : result.member = none := by
          rcases hcase with h | h
          · rw [hs] at h; cases h
          · exact h
        simp [fetchMemberDataSettle, hs, hm, initialState, selectView, htoken,
          InitOutcome.throws, chatHistoryOf, formattedMessages]
  | _ =>
    simp [fetchMemberDataSettle, initialState, selectView, htoken, InitOutcome.throws,
      formattedMessages]

/-- Witness of C7 amended: a rejected fetch, a refused response and a
response without member, each in a load with the token `T0`. -/
theorem init_failure_state_witness :
    ((run sampleEnv [.initSettled .fetchRejected 0] (mount sampleEnv)).state.teamData = none ∧
      (run sampleEnv [.initSettled .fetchRejected 0] (mount sampleEnv)).state.messages = []) ∧
    (run sampleEnv [.initSettled refusedInit 0] (mount sampleEnv)).state.teamData = none ∧
    selectView sampleEnv (run sampleEnv [.initSettled memberlessInit 0] (mount sampleEnv)).state =
      .memberNotFound :=
  ⟨(init_failure_state sampleEnv .fetchRejected 0 (by decide) (Or.inl rfl)).2.2.2.1 rfl,
   (init_failure_state sampleEnv refusedInit 0 (by decide)
      (Or.inr ⟨_, rfl, Or.inl rfl⟩)).2.2.2.2.1 _ rfl rfl,
   (init_failure_state sampleEnv memberlessInit 0 (by decide)
      (Or.inr ⟨_, rfl, Or.inr rfl⟩)).2.2.1⟩

/-! ## Token resolution -/

theorem getTokenFromUrl_of_absent (env : Env)
    (hquery : searchParamsGet env.search "token" = none) :
    getTokenFromUrl env = env.memberId := by
  simp [getTokenFromUrl, hquery]

theorem step_of_terminal (env : Env) (ev : Event) (sys : Session)
    (hview : selectView env sys.state ≠ .chat) (hinit : sys.pendingInit = 0)
    (hsends : sys.pendingSends = 0) (hwelcomes : sys.pendingWelcomes = 0) :
    step env ev sys = sys := by
  have happ : applyEvent env ev sys = sys := by
    cases ev <;> simp [applyEvent, hview, hinit, hsends, hwelcomes]
  rw [step, happ, commit_of_same_memberData env sys.state sys rfl]

theorem run_of_terminal (env : Env) (evs : List Event) (sys : Session)
    (hview : selectView env sys.state ≠ .chat) (hinit : sys.pendingInit = 0)
    (hsends : sys.pendingSends = 0) (hwelcomes : sys.pendingWelcomes = 0) :
    run env evs sys = sys := by
  induction evs with
  | nil => rfl
  | cons ev evs ih => rw [run_cons, step_of_terminal env ev sys hview hinit hsends hwelcomes, ih]

/-- C8: when the query string has no token and there is no route parameter,
mounting the chat view issues no request (neither the init request nor the
welcome request), leaves `loading` false and selects the "No Token Found"
view, which is not the "Member Not Found" view; and no later event changes
the session, so no request is ever issued. -/
theorem no_token_no_request (env : Env) (evs : List Event)
    (hquery : searchParamsGet env.search "token" = none) (hroute : env.memberId = none) :
    (mount env).sent = [] ∧
    (mount env).state.loading = false ∧
    selectView env (mount env).state = .noTokenFound ∧
    selectView env (mount env).state ≠ .memberNotFound ∧
    run env evs (mount env) = mount env := by
  have htok : getTokenFromUrl env = none := by
    rw [getTokenFromUrl_of_absent env hquery, hroute]
  have hfalsy : truthy (getTokenFromUrl env) = false := by rw [htok]; rfl
  have hview : selectView env (mount env).state = .noTokenFound := by
    simp [mount_of_no_token env hfalsy, selectView, hfalsy, initialState]
  refine ⟨?_, ?_, hview, ?_, ?_⟩
  · simp [mount_of_no_token env hfalsy]
  · simp [mount_of_no_token env hfalsy]
  · rw [hview]; decide
  · apply run_of_terminal
    · rw [hview]; decide
    · simp [mount_of_no_token env hfalsy]
    · simp [mount_of_no_token env hfalsy]
    · simp [mount_of_no_token env hfalsy]

/-- Witness of C8: the route `/chat` opened without a query string. -/
theorem no_token_no_request_witness :
    (mount tokenlessEnv).sent = [] ∧
    (mount tokenlessEnv).state.loading = false ∧
    selectView tokenlessEnv (mount tokenlessEnv).state = .noTokenFound ∧
    selectView tokenlessEnv (mount tokenlessEnv).state ≠ .memberNotFound ∧
    run tokenlessEnv [.inputChanged "a", .submitted 1, .initSettled freshInit 2]
      (mount tokenlessEnv) = mount tokenlessEnv :=
  no_token_no_request tokenlessEnv [.inputChanged "a", .submitted 1, .initSettled freshInit 2]
    rfl rfl

/-- C9, as stated, fails: on `/chat/abc?token=` the query string carries a
token (its value is the empty string), yet the result is the route parameter
`abc`, not the query-string token. -/
theorem getTokenFromUrl_empty_query_token :
    searchParamsGet [("token", "")] "token" = some "" ∧
    getTokenFromUrl (MemberChatWrapper "localhost" [("token", "")] "abc") = some "abc" ∧
    getTokenFromUrl (MemberChatWrapper "localhost" [("token", "")] "abc") ≠
      searchParamsGet [("token", "")] "token" := by
  decide

/-- C9, amended: `getTokenFromUrl` returns exactly the query-string token
whenever a non-empty token is present in the query string, whatever the route
parameter is; it returns exactly the route parameter when the query string has
no token; and it returns absent when neither is present. -/
theorem getTokenFromUrl_spec (env : Env) :
    (∀ t, searchParamsGet env.search "token" = some t → t ≠ "" →
      getTokenFromUrl env = some t) ∧
    (searchParamsGet env.search "token" = none → getTokenFromUrl env = env.memberId) ∧
    (searchParamsGet env.search "token" = none → env.memberId = none →
      getTokenFromUrl env = none) := by
  refine ⟨fun t hq ht => ?_, getTokenFromUrl_of_absent env, fun hq hm => ?_⟩
  · have htr : truthyString t = true := (truthyString_iff t).2 ht
    simp [getTokenFromUrl, hq, htr]
  · rw [getTokenFromUrl_of_absent env hq, hm]

/-- Witness of C9 amended: `/chat/abc?ref=mail&token=T0` (both present),
`/chat/abc?ref=mail` (route parameter only) and `/chat` (neither). -/
theorem getTokenFromUrl_spec_witness :
    getTokenFromUrl (MemberChatWrapper "localhost" [("ref", "mail"), ("token", "T0")] "abc") =
      some "T0" ∧
    getTokenFromUrl (MemberChatWrapper "localhost" [("ref", "mail")] "abc") = some "abc" ∧
    getTokenFromUrl tokenlessEnv = none :=
  ⟨(getTokenFromUrl_spec (MemberChatWrapper "localhost" [("ref", "mail"), ("token", "T0")] "abc")).1
      "T0" (by decide) (by decide),
   (getTokenFromUrl_spec (MemberChatWrapper "localhost" [("ref", "mail")] "abc")).2.1 (by decide),
   (getTokenFromUrl_spec tokenlessEnv).2.2 rfl rfl⟩

/-! ## Sequence numbers -/

theorem idsSequential_nil : IdsSequential [] := by
  simp [IdsSequential]

theorem idsSequential_appendMessage (text sender : String) (now : Nat) (ms : List Message)
    (h : IdsSequential ms) : IdsSequential (appendMessage text sender now ms) := by
  unfold IdsSequential at *
  simp [appendMessage, h, List.range'_1_concat, Nat.add_comm]

theorem idsSequential_formattedMessages (h : List HistoryEntry) (now : Nat) :
    IdsSequential (formattedMessages h now) := by
  unfold IdsSequential
  rw [formattedMessages_length]
  have hfst : (formattedMessages h now).map Message.id = (h.enum.map Prod.fst).map (1 + ·) := by
    simp only [formattedMessages, List.map_map]
    apply List.map_congr_left
    intro p _
    simp [Nat.add_comm]
  rw [hfst, List.enum_map_fst, List.range'_eq_map_range]

theorem idsSequential_fetchMemberDataSettle (o : InitOutcome) (now : Nat) (s : ChatState)
    (h : IdsSequential s.messages) : IdsSequential (fetchMemberDataSettle o now s).messages := by
  cases o with
  | fetchRejected => exact h
  | bodyUnparsable => exact h
  | nullBody => exact idsSequential_formattedMessages [] now
  | body result =>
    cases hs : result.success <;>
      simpa [fetchMemberDataSettle, hs] using idsSequential_formattedMessages _ now

theorem idsSequential_handleSendMessageStart (env : Env) (now : Nat) (s : ChatState)
    (h : IdsSequential s.messages) :
    IdsSequential (handleSendMessageStart env now s).1.messages := by
  unfold handleSendMessageStart
  split
  · exact idsSequential_appendMessage _ _ _ _ h
  · exact h

theorem idsSequential_handleSendMessageSettle (o : ChatOutcome) (now : Nat) (s : ChatState)
    (h : IdsSequential s.messages) :
    IdsSequential (handleSendMessageSettle o now s).messages := by
  cases o with
  | body result =>
    cases hs : result.success <;>
      simpa [handleSendMessageSettle, hs] using idsSequential_appendMessage _ _ _ _ h
  | _ => simpa [handleSendMessageSettle] using idsSequential_appendMessage _ _ _ _ h

theorem idsSequential_sendWelcomeMessageSettle (o : ChatOutcome) (now : Nat) (s : ChatState)
    (h : IdsSequential s.messages) :
    IdsSequential (sendWelcomeMessageSettle o now s).messages := by
  cases o with
  | body result =>
    cases hs : result.success
    · simpa [sendWelcomeMessageSettle, hs] using h
    · simpa [sendWelcomeMessageSettle, hs] using idsSequential_appendMessage _ _ _ _ h
  | _ => exact h

theorem idsSequential_step (env : Env) (ev : Event) (sys : Session)
    (h : IdsSequential sys.state.messages) : IdsSequential (step env ev sys).state.messages := by
  rw [step, commit_state]
  cases ev with
  | initSettled o now =>
    simp only [applyEvent]
    split
    · exact h
    · exact idsSequential_fetchMemberDataSettle o now _ h
  | inputChanged text =>
    simp only [applyEvent]
    split <;> exact h
  | submitted now =>
    simp only [applyEvent]
    split
    · exact idsSequential_handleSendMessageStart env now _ h
    · exact h
  | sendSettled o now =>
    simp only [applyEvent]
    split
    · exact h
    · exact idsSequential_handleSendMessageSettle o now _ h
  | welcomeSettled o now =>
    simp only [applyEvent]
    split
    · exact h
    · exact idsSequential_sendWelcomeMessageSettle o now _ h

theorem idsSequential_run (env : Env) (evs : List Event) :
    ∀ sys : Session, IdsSequential sys.state.messages →
      IdsSequential (run env evs sys).state.messages := by
  induction evs with
  | nil => intro sys h; exact h
  | cons ev evs ih => intro sys h; exact ih _ (idsSequential_step env ev sys h)

theorem idsSequential_mount (env : Env) : IdsSequential (mount env).state.messages := by
  cases htoken : truthy (getTokenFromUrl env)
  · rw [mount_of_no_token env htoken]; exact idsSequential_nil
  · rw [mount_of_token env htoken]; exact idsSequential_nil

theorem idsSequential_getElem? (ms : List Message) (h : IdsSequential ms) (i : Nat)
    (m : Message) (hm : ms[i]? = some m) : m.id = i + 1 := by
  have hlt : i < ms.length := by
    rcases Nat.lt_or_ge i ms.length with hlt | hge
    · exact hlt
    · rw [List.getElem?_eq_none hge] at hm; cases hm
  have h1 : (ms.map Message.id)[i]? = some m.id := by simp [hm]
  rw [h, List.getElem?_range' 1 1 hlt] at h1
  have h2 := Option.some.inj h1
  omega

theorem idsSequential_pairwise (ms : List Message) (h : IdsSequential ms) :
    ms.Pairwise (fun a b => a.id < b.id) := by
  have hp : (ms.map Message.id).Pairwise (· < ·) := by
    rw [h]; exact List.pairwise_lt_range' 1 ms.length
  exact List.pairwise_map.1 hp

theorem idsSequential_nodup (ms : List Message) (h : IdsSequential ms) :
    (ms.map Message.id).Nodup := by
  rw [h]; exact List.nodup_range' 1 ms.length

/-- C10: start from any session whose transcript is a rehydrated history and
let any sequence of events happen (submits, settling sends, the settling
welcome exchange, in any interleaving).  In the resulting transcript the
message at 0-based position `i` has id `i + 1`; hence the ids are 1, 2, 3, ...
in order, strictly increasing and pairwise distinct. -/
theorem transcript_ids_sequential (env : Env) (sys : Session) (history : List HistoryEntry)
    (now : Nat) (evs : List Event)
    (hstart : sys.state.messages = formattedMessages history now) :
    (∀ (i : Nat) (m : Message), (run env evs sys).state.messages[i]? = some m → m.id = i + 1) ∧
    (run env evs sys).state.messages.map Message.id =
      List.range' 1 (run env evs sys).state.messages.length ∧
    (run env evs sys).state.messages.Pairwise (fun a b => a.id < b.id) ∧
    ((run env evs sys).state.messages.map Message.id).Nodup := by
  have h0 : IdsSequential sys.state.messages := by
    rw [hstart]; exact idsSequential_formattedMessages history now
  have h := idsSequential_run env evs sys h0
  exact ⟨idsSequential_getElem? _ h, h, idsSequential_pairwise _ h, idsSequential_nodup _ h⟩

/-- Witness of C10: a load that rehydrates one message, followed by two
overlapping sends. -/
theorem transcript_ids_sequential_witness :
    (∀ (i : Nat) (m : Message),
      (run sampleEnv (overlappingSends.drop 1)
        (run sampleEnv [.initSettled sampleInit 0] (mount sampleEnv))).state.messages[i]? = some m →
      m.id = i + 1) ∧
    (run sampleEnv (overlappingSends.drop 1)
        (run sampleEnv [.initSettled sampleInit 0] (mount sampleEnv))).state.messages.map Message.id =
      List.range' 1 (run sampleEnv (overlappingSends.drop 1)
        (run sampleEnv [.initSettled sampleInit 0] (mount sampleEnv))).state.messages.length ∧
    (run sampleEnv (overlappingSends.drop 1)
        (run sampleEnv [.initSettled sampleInit 0] (mount sampleEnv))).state.messages.Pairwise
      (fun a b => a.id < b.id) ∧
    ((run sampleEnv (overlappingSends.drop 1)
        (run sampleEnv [.initSettled sampleInit 0] (mount sampleEnv))).state.messages.map
      Message.id).Nodup :=
  transcript_ids_sequential sampleEnv
    (run sampleEnv [.initSettled sampleInit 0] (mount sampleEnv))
    [⟨"hello", "assistant", none⟩] 0 (overlappingSends.drop 1) (by decide)

/-! ## Append-only transcript -/

theorem appendMessage_eq (text sender : String) (now : Nat) (prev : List Message) :
    ∃ m, appendMessage text sender now prev = prev ++ [m] :=
  ⟨_, rfl⟩

theorem handleSendMessageStart_messages (env : Env) (now : Nat) (s : ChatState) :
    (handleSendMessageStart env now s).1.messages = s.messages ∨
      ∃ m, (handleSendMessageStart env now s).1.messages = s.messages ++ [m] := by
  unfold handleSendMessageStart
  split
  · exact Or.inr (appendMessage_eq _ _ _ _)
  · exact Or.inl rfl

theorem handleSendMessageSettle_messages (o : ChatOutcome) (now : Nat) (s : ChatState) :
    ∃ m, (handleSendMessageSettle o now s).messages = s.messages ++ [m] := by
  cases o with
  | body result =>
    cases hs : result.success <;>
      simpa [handleSendMessageSettle, hs] using appendMessage_eq _ _ _ _
  | _ => simpa [handleSendMessageSettle] using appendMessage_eq _ _ _ _

theorem sendWelcomeMessageSettle_messages (o : ChatOutcome) (now : Nat) (s : ChatState) :
    (sendWelcomeMessageSettle o now s).messages = s.messages ∨
      ∃ m, (sendWelcomeMessageSettle o now s).messages = s.messages ++ [m] := by
  cases o with
  | body result =>
    cases hs : result.success
    · exact Or.inl (by simp [sendWelcomeMessageSettle, hs])
    · exact Or.inr (by simpa [sendWelcomeMessageSettle, hs] using appendMessage_eq _ _ _ _)
  | _ => exact Or.inl rfl

theorem step_messages_after_init (env : Env) (ev : Event) (sys : Session)
    (hinit : sys.pendingInit = 0) :
    (step env ev sys).state.messages = sys.state.messages ∨
      ∃ m, (step env ev sys).state.messages = sys.state.messages ++ [m] := by
  rw [step, commit_state]
  cases ev with
  | initSettled o now => simp [applyEvent, hinit]
  | inputChanged text =>
    simp only [applyEvent]
    split <;> exact Or.inl rfl
  | submitted now =>
    simp only [applyEvent]
    split
    · exact handleSendMessageStart_messages env now _
    · exact Or.inl rfl
  | sendSettled o now =>
    simp only [applyEvent]
    split
    · exact Or.inl rfl
    · exact Or.inr (handleSendMessageSettle_messages o now _)
  | welcomeSettled o now =>
    simp only [applyEvent]
    split
    · exact Or.inl rfl
    · exact sendWelcomeMessageSettle_messages o now _

theorem run_messages_prefix (env : Env) (evs : List Event) :
    ∀ sys : Session, sys.pendingInit = 0 →
      sys.state.messages <+: (run env evs sys).state.messages := by
  induction evs with
  | nil => intro sys _; exact List.prefix_refl _
  | cons ev evs ih =>
    intro sys hinit
    have hnext := ih (step env ev sys) (step_after_init env ev sys hinit).2.1
    rw [run_cons]
    refine List.IsPrefix.trans ?_ hnext
    rcases step_messages_after_init env ev sys hinit with h | ⟨m, h⟩
    · rw [h]
    · rw [h]; exact List.prefix_append _ _

/-- C11: once the init request has settled, the transcript is append-only.
The echo of `handleSendMessage` appends one message or (blank input) makes no
update; its completion appends exactly one message; the welcome exchange
appends one message or makes no update; so every event leaves the transcript
`T` unchanged or turns it into `T` followed by one new message, and every
earlier transcript is a prefix of every later one. -/
theorem transcript_append_only (env : Env) (sys : Session) (hinit : sys.pendingInit = 0) :
    (∀ (now : Nat) (s : ChatState),
      (handleSendMessageStart env now s).1.messages = s.messages ∨
        ∃ m, (handleSendMessageStart env now s).1.messages = s.messages ++ [m]) ∧
    (∀ (o : ChatOutcome) (now : Nat) (s : ChatState),
      ∃ m, (handleSendMessageSettle o now s).messages = s.messages ++ [m]) ∧
    (∀ (o : ChatOutcome) (now : Nat) (s : ChatState),
      (sendWelcomeMessageSettle o now s).messages = s.messages ∨
        ∃ m, (sendWelcomeMessageSettle o now s).messages = s.messages ++ [m]) ∧
    (∀ ev : Event,
      (step env ev sys).state.messages = sys.state.messages ∨
        ∃ m, (step env ev sys).state.messages = sys.state.messages ++ [m]) ∧
    (∀ evs more : List Event,
      (run env evs sys).state.messages <+: (run env (evs ++ more) sys).state.messages) := by
  refine ⟨handleSendMessageStart_messages env, handleSendMessageSettle_messages,
    sendWelcomeMessageSettle_messages, fun ev => step_messages_after_init env ev sys hinit,
    fun evs more => ?_⟩
  rw [run_append]
  apply run_messages_prefix
  clear more
  induction evs generalizing sys with
  | nil => exact hinit
  | cons ev evs ih => rw [run_cons]; exact ih _ (step_after_init env ev sys hinit).2.1

/-- Witness of C11: after a load that rehydrates one message, the transcript
before the reply to the first of two overlapping sends is a prefix of the
transcript after it. -/
theorem transcript_append_only_witness :
    (run sampleEnv [.inputChanged "a", .submitted 1, .inputChanged "b", .submitted 2]
        (run sampleEnv [.initSettled sampleInit 0] (mount sampleEnv))).state.messages <+:
      (run sampleEnv
        ([.inputChanged "a", .submitted 1, .inputChanged "b", .submitted 2] ++
          [.sendSettled (.body ⟨true, "reply to a"⟩) 3])
        (run sampleEnv [.initSettled sampleInit 0] (mount sampleEnv))).state.messages :=
  (transcript_append_only sampleEnv (run sampleEnv [.initSettled sampleInit 0] (mount sampleEnv))
    (by decide)).2.2.2.2 _ _

/-! ## A send among other events -/

theorem handleSendMessageSettle_transcript (o : ChatOutcome) (now : Nat) (s : ChatState) :
    (handleSendMessageSettle o now s).messages =
      s.messages ++
        [{ id := s.messages.length + 1
           text :=
             match o with
             | .body result => if result.success then result.response else processingTroubleText
             | _ => networkErrorText
           sender := "jarvis"
           timestamp := .clock now }] := by
  cases o with
  | body result => cases hs : result.success <;> simp [handleSendMessageSettle, hs, appendMessage]
  | _ => simp [handleSendMessageSettle, appendMessage]

theorem run_inputChanged_messages (env : Env) (evs : List Event) :
    ∀ sys : Session, (∀ ev ∈ evs, ev.isInputChanged = true) →
      (run env evs sys).state.messages = sys.state.messages := by
  induction evs with
  | nil => intro sys _; rfl
  | cons ev evs ih =>
    intro sys hevs
    rw [run_cons, ih _ (fun e he => hevs e (List.mem_cons_of_mem _ he))]
    have hev := hevs ev (List.mem_cons_self _ _)
    cases ev with
    | inputChanged text =>
      rw [step, commit_state]
      simp only [applyEvent]
      split <;> rfl
    | _ => simp [Event.isInputChanged] at hev

/-- A send among other events: the echo comes right after the transcript `T`
of the moment of the submit, the events that take place while the request is
in flight append `between`, and the continuation appends one entry after
them. -/
theorem send_among_events (env : Env) (sys : Session) (now later : Nat) (o : ChatOutcome)
    (evs : List Event) (hview : selectView env sys.state = .chat) (hinit : sys.pendingInit = 0)
    (hinput : jsTrim sys.state.inputMessage ≠ "")
    (hpending : (run env evs (step env (.submitted now) sys)).pendingSends ≠ 0) :
    ∃ between : List Message,
      (run env evs (step env (.submitted now) sys)).state.messages =
        sys.state.messages ++
          { id := sys.state.messages.length + 1, text := sys.state.inputMessage, sender := "user",
            timestamp := .clock now } :: between ∧
      (run env (evs ++ [.sendSettled o later]) (step env (.submitted now) sys)).state.messages =
        sys.state.messages ++
          { id := sys.state.messages.length + 1, text := sys.state.inputMessage, sender := "user",
            timestamp := .clock now } :: between ++
          [{ id := sys.state.messages.length + between.length + 2
             text :=
               match o with
               | .body result => if result.success then result.response else processingTroubleText
               | _ => networkErrorText
             sender := "jarvis"
             timestamp := .clock later }] ∧
      ((∀ ev ∈ evs, ev.isInputChanged = true) → between = []) := by
  have hecho : (step env (.submitted now) sys).state.messages =
      sys.state.messages ++
        [{ id := sys.state.messages.length + 1, text := sys.state.inputMessage, sender := "user",
           timestamp := .clock now }] := by
    rw [step, commit_state]
    simp [applyEvent, hview, handleSendMessageStart_of_nonblank env now sys.state hinput,
      appendMessage]
  have hinit1 := (step_after_init env (.submitted now) sys hinit).2.1
  obtain ⟨between, hbetween⟩ := run_messages_prefix env evs _ hinit1
  rw [hecho] at hbetween
  have hrun : (run env evs (step env (.submitted now) sys)).state.messages =
      sys.state.messages ++
        { id := sys.state.messages.length + 1, text := sys.state.inputMessage, sender := "user",
          timestamp := .clock now } :: between := by
    rw [← hbetween]
    simp
  refine ⟨between, hrun, ?_, fun hquiet => ?_⟩
  · rw [run_append]
    simp only [run, List.foldl_cons, List.foldl_nil]
    rw [step, commit_state]
    simp only [applyEvent, run] at hpending ⊢
    rw [if_neg hpending]
    simp only [handleSendMessageSettle_transcript]
    simp only [run] at hrun
    rw [hrun]
    simp only [List.length_append, List.length_cons, List.append_assoc, List.cons_append]
    congr 4
  · have hsame := run_inputChanged_messages env evs (step env (.submitted now) sys) hquiet
    rw [hrun, hecho] at hsame
    have := List.append_cancel_left hsame
    simpa using this

/-- C1, as stated, fails: a single send is submitted on the empty transcript
while the welcome request is in flight; the welcome reply arrives before the
reply to the send, and the transcript ends with three entries, the reply `r`
not next to the user message. -/
theorem send_success_not_two_entries :
    (run sampleEnv [.initSettled freshInit 0, .inputChanged "hi"]
      (mount sampleEnv)).state.messages = [] ∧
    (run sampleEnv [.initSettled freshInit 0, .inputChanged "hi"]
      (mount sampleEnv)).pendingSends = 0 ∧
    (run sampleEnv [.initSettled freshInit 0, .inputChanged "hi", .submitted 1]
      (mount sampleEnv)).pendingSends = 1 ∧
    (run sampleEnv
      [.initSettled freshInit 0, .inputChanged "hi", .submitted 1,
       .welcomeSettled (.body ⟨true, "Welcome"⟩) 2, .sendSettled (.body ⟨true, "r"⟩) 3]
      (mount sampleEnv)).state.messages =
      [{ id := 1, text := "hi", sender := "user", timestamp := .clock 1 },
       { id := 2, text := "Welcome", sender := "jarvis", timestamp := .clock 2 },
       { id := 3, text := "r", sender := "jarvis", timestamp := .clock 3 }] := by
  decide

/-- C1, amended: a non-blank input is submitted in the chat view on the
transcript `T`, and the chat response arrives with a positive `success` and
the reply text `response` after the events `evs` that take place while the
request is in flight.  Right before the response the transcript is `T`, then
the user message carrying the input as typed, then the entries `between` that
those events appended; the response turns it into that transcript followed by
one `jarvis` message carrying the reply text.  When the events are input
changes only (or there are none), `between` is empty and the transcript is
`T` followed by exactly the two entries. -/
theorem send_success_transcript (env : Env) (sys : Session) (now later : Nat)
    (result : ChatResult) (evs : List Event)
    (hview : selectView env sys.state = .chat) (hinit : sys.pendingInit = 0)
    (hinput : jsTrim sys.state.inputMessage ≠ "") (hflag : result.success = true)
    (hpending : (run env evs (step env (.submitted now) sys)).pendingSends ≠ 0) :
    ∃ between : List Message,
      (run env evs (step env (.submitted now) sys)).state.messages =
        sys.state.messages ++
          { id := sys.state.messages.length + 1, text := sys.state.inputMessage, sender := "user",
            timestamp := .clock now } :: between ∧
      (run env (evs ++ [.sendSettled (.body result) later])
          (step env (.submitted now) sys)).state.messages =
        sys.state.messages ++
          { id := sys.state.messages.length + 1, text := sys.state.inputMessage, sender := "user",
            timestamp := .clock now } :: between ++
          [{ id := sys.state.messages.length + between.length + 2, text := result.response,
             sender := "jarvis", timestamp := .clock later }] ∧
      ((∀ ev ∈ evs, ev.isInputChanged = true) → between = []) := by
  obtain ⟨between, h1, h2, h3⟩ :=
    send_among_events env sys now later (.body result) evs hview hinit hinput hpending
  refine ⟨between, h1, ?_, h3⟩
  rw [h2]
  simp [hflag]

/-- Witness of C1 amended: the send of `" hi "` on the empty transcript, with
the welcome reply arriving while the request is in flight. -/
theorem send_success_transcript_witness :
    ∃ between : List Message,
      (run sampleEnv [.welcomeSettled (.body ⟨true, "Welcome"⟩) 2]
        (step sampleEnv (.submitted 1)
          (run sampleEnv [.initSettled freshInit 0, .inputChanged " hi "]
            (mount sampleEnv)))).state.messages =
        (run sampleEnv [.initSettled freshInit 0, .inputChanged " hi "]
          (mount sampleEnv)).state.messages ++
          { id := (run sampleEnv [.initSettled freshInit 0, .inputChanged " hi "]
              (mount sampleEnv)).state.messages.length + 1,
            text := (run sampleEnv [.initSettled freshInit 0, .inputChanged " hi "]
              (mount sampleEnv)).state.inputMessage,
            sender := "user", timestamp := .clock 1 } :: between ∧
      (run sampleEnv
        ([.welcomeSettled (.body ⟨true, "Welcome"⟩) 2] ++ [.sendSettled (.body ⟨true, "r"⟩) 3])
        (step sampleEnv (.submitted 1)
          (run sampleEnv [.initSettled freshInit 0, .inputChanged " hi "]
            (mount sampleEnv)))).state.messages =
        (run sampleEnv [.initSettled freshInit 0, .inputChanged " hi "]
          (mount sampleEnv)).state.messages ++
          { id := (run sampleEnv [.initSettled freshInit 0, .inputChanged " hi "]
              (mount sampleEnv)).state.messages.length + 1,
            text := (run sampleEnv [.initSettled freshInit 0, .inputChanged " hi "]
              (mount sampleEnv)).state.inputMessage,
            sender := "user", timestamp := .clock 1 } :: between ++
          [{ id := (run sampleEnv [.initSettled freshInit 0, .inputChanged " hi "]
               (mount sampleEnv)).state.messages.length + between.length + 2,
             text := "r", sender := "jarvis", timestamp := .clock 3 }] ∧
      ((∀ ev ∈ [Event.welcomeSettled (.body ⟨true, "Welcome"⟩) 2], ev.isInputChanged = true) →
        between = []) :=
  send_success_transcript sampleEnv
    (run sampleEnv [.initSettled freshInit 0, .inputChanged " hi "] (mount sampleEnv)) 1 3
    ⟨true, "r"⟩ [.welcomeSettled (.body ⟨true, "Welcome"⟩) 2]
    (by decide) (by decide) (by decide) rfl (by decide)

/-- C3, as stated, fails: a single send is submitted on the empty transcript
while the welcome request is in flight; the welcome reply arrives, then
`fetch` rejects for the send, and the transcript ends with three entries, the
network-error message not next to the user message. -/
theorem send_throws_not_two_entries :
    (run sampleEnv [.initSettled freshInit 0, .inputChanged "ping"]
      (mount sampleEnv)).state.messages = [] ∧
    (run sampleEnv [.initSettled freshInit 0, .inputChanged "ping"]
      (mount sampleEnv)).pendingSends = 0 ∧
    (run sampleEnv [.initSettled freshInit 0, .inputChanged "ping", .submitted 1]
      (mount sampleEnv)).pendingSends = 1 ∧
    (run sampleEnv
      [.initSettled freshInit 0, .inputChanged "ping", .submitted 1,
       .welcomeSettled (.body ⟨true, "Welcome"⟩) 2, .sendSettled .fetchRejected 3]
      (mount sampleEnv)).state.messages =
      [{ id := 1, text := "ping", sender := "user", timestamp := .clock 1 },
       { id := 2, text := "Welcome", sender := "jarvis", timestamp := .clock 2 },
       { id := 3, text := "Network error. Please check your connection and try again.",
         sender := "jarvis", timestamp := .clock 3 }] := by
  decide

/-- C3, amended: a non-blank input is submitted in the chat view on the
transcript `T`, and the chat request throws (`fetch` rejects, the body cannot
be parsed, or reading the flag of a `null` body throws) after the events `evs`
that take place while the request is in flight.  Right before that the
transcript is `T`, then the user message, then the entries `between` that
those events appended; the `catch` block turns it into that transcript
followed by one `jarvis` message with the fixed network-error text.  When the
events are input changes only (or there are none), `between` is empty and the
transcript is `T` followed by exactly the two entries. -/
theorem send_throws_transcript (env : Env) (sys : Session) (now later : Nat)
    (o : ChatOutcome) (evs : List Event)
    (hview : selectView env sys.state = .chat) (hinit : sys.pendingInit = 0)
    (hinput : jsTrim sys.state.inputMessage ≠ "") (hthrows : o.throws = true)
    (hpending : (run env evs (step env (.submitted now) sys)).pendingSends ≠ 0) :
    ∃ between : List Message,
      (run env evs (step env (.submitted now) sys)).state.messages =
        sys.state.messages ++
          { id := sys.state.messages.length + 1, text := sys.state.inputMessage, sender := "user",
            timestamp := .clock now } :: between ∧
      (run env (evs ++ [.sendSettled o later]) (step env (.submitted now) sys)).state.messages =
        sys.state.messages ++
          { id := sys.state.messages.length + 1, text := sys.state.inputMessage, sender := "user",
            timestamp := .clock now } :: between ++
          [{ id := sys.state.messages.length + between.length + 2,
             text := "Network error. Please check your connection and try again.",
             sender := "jarvis", timestamp := .clock later }] ∧
      ((∀ ev ∈ evs, ev.isInputChanged = true) → between = []) := by
  obtain ⟨between, h1, h2, h3⟩ :=
    send_among_events env sys now later o evs hview hinit hinput hpending
  refine ⟨between, h1, ?_, h3⟩
  rw [h2]
  cases o <;> simp_all [ChatOutcome.throws, networkErrorText]

/-- Witness of C3 amended: the send of `"ping"` after a load that rehydrated
one message, with the input edited while the request is in flight, and
`fetch` rejecting. -/
theorem send_throws_transcript_witness :
    ∃ between : List Message,
      (run sampleEnv [.inputChanged "next"]
        (step sampleEnv (.submitted 5)
          (run sampleEnv [.initSettled sampleInit 0, .inputChanged "ping"]
            (mount sampleEnv)))).state.messages =
        (run sampleEnv [.initSettled sampleInit 0, .inputChanged "ping"]
          (mount sampleEnv)).state.messages ++
          { id := (run sampleEnv [.initSettled sampleInit 0, .inputChanged "ping"]
              (mount sampleEnv)).state.messages.length + 1,
            text := (run sampleEnv [.initSettled sampleInit 0, .inputChanged "ping"]
              (mount sampleEnv)).state.inputMessage,
            sender := "user", timestamp := .clock 5 } :: between ∧
      (run sampleEnv ([.inputChanged "next"] ++ [.sendSettled .fetchRejected 9])
        (step sampleEnv (.submitted 5)
          (run sampleEnv [.initSettled sampleInit 0, .inputChanged "ping"]
            (mount sampleEnv)))).state.messages =
        (run sampleEnv [.initSettled sampleInit 0, .inputChanged "ping"]
          (mount sampleEnv)).state.messages ++
          { id := (run sampleEnv [.initSettled sampleInit 0, .inputChanged "ping"]
              (mount sampleEnv)).state.messages.length + 1,
            text := (run sampleEnv [.initSettled sampleInit 0, .inputChanged "ping"]
              (mount sampleEnv)).state.inputMessage,
            sender := "user", timestamp := .clock 5 } :: between ++
          [{ id := (run sampleEnv [.initSettled sampleInit 0, .inputChanged "ping"]
               (mount sampleEnv)).state.messages.length + between.length + 2,
             text := "Network error. Please check your connection and try again.",
             sender := "jarvis", timestamp := .clock 9 }] ∧
      ((∀ ev ∈ [Event.inputChanged "next"], ev.isInputChanged = true) → between = []) :=
  send_throws_transcript sampleEnv
    (run sampleEnv [.initSettled sampleInit 0, .inputChanged "ping"] (mount sampleEnv)) 5 9
    .fetchRejected [.inputChanged "next"] (by decide) (by decide) (by decide) rfl (by decide)

/-- C4, as stated, fails: the send of `a` is submitted after a load that
rehydrated one message; while its request is in flight the send of `b` is
submitted; then the response to `a` arrives with `success` false, and the
transcript is the rehydrated message followed by three entries, the
processing-trouble message not next to the user message `a`. -/
theorem send_logical_failure_not_two_entries :
    (run sampleEnv [.initSettled sampleInit 0, .inputChanged "a"]
      (mount sampleEnv)).state.messages.map Message.text = ["hello"] ∧
    (run sampleEnv [.initSettled sampleInit 0, .inputChanged "a"]
      (mount sampleEnv)).pendingSends = 0 ∧
    (run sampleEnv
      [.initSettled sampleInit 0, .inputChanged "a", .submitted 1, .inputChanged "b",
       .submitted 2, .sendSettled (.body ⟨false, "ignored"⟩) 3]
      (mount sampleEnv)).state.messages.map (fun m => (m.id, m.text, m.sender)) =
      [(1, "hello", "jarvis"), (2, "a", "user"), (3, "b", "user"),
       (4, "Sorry, I'm having trouble processing your message. Please try again.", "jarvis")] := by
  decide

/-- C4, amended: a non-blank input is submitted in the chat view on the
transcript `T`, and the chat response arrives with a falsy `success` after the
events `evs` that take place while the request is in flight.  Right before
the response the transcript is `T`, then the user message, then the entries
`between` that those events appended; the `else` branch turns it into that
transcript followed by exactly one `jarvis` message with the fixed
processing-trouble text, and that text differs from the network-error text.
When the events are input changes only (or there are none), `between` is
empty and the transcript is `T` followed by exactly the two entries. -/
theorem send_logical_failure_transcript (env : Env) (sys : Session) (now later : Nat)
    (result : ChatResult) (evs : List Event)
    (hview : selectView env sys.state = .chat) (hinit : sys.pendingInit = 0)
    (hinput : jsTrim sys.state.inputMessage ≠ "") (hflag : result.success = false)
    (hpending : (run env evs (step env (.submitted now) sys)).pendingSends ≠ 0) :
    (∃ between : List Message,
      (run env evs (step env (.submitted now) sys)).state.messages =
        sys.state.messages ++
          { id := sys.state.messages.length + 1, text := sys.state.inputMessage, sender := "user",
            timestamp := .clock now } :: between ∧
      (run env (evs ++ [.sendSettled (.body result) later])
          (step env (.submitted now) sys)).state.messages =
        sys.state.messages ++
          { id := sys.state.messages.length + 1, text := sys.state.inputMessage, sender := "user",
            timestamp := .clock now } :: between ++
          [{ id := sys.state.messages.length + between.length + 2,
             text := "Sorry, I'm having trouble processing your message. Please try again.",
             sender := "jarvis", timestamp := .clock later }] ∧
      ((∀ ev ∈ evs, ev.isInputChanged = true) → between = [])) ∧
    processingTroubleText ≠ networkErrorText := by
  obtain ⟨between, h1, h2, h3⟩ :=
    send_among_events env sys now later (.body result) evs hview hinit hinput hpending
  refine ⟨⟨between, h1, ?_, h3⟩, by decide⟩
  rw [h2]
  simp [hflag, processingTroubleText]

/-- Witness of C4 amended: the send of `"a"` after a load that rehydrated one
message, with the send of `"b"` submitted while the request is in flight, and
a response with `success` false. -/
theorem send_logical_failure_transcript_witness :
    (∃ between : List Message,
      (run sampleEnv [.inputChanged "b", .submitted 2]
        (step sampleEnv (.submitted 1)
          (run sampleEnv [.initSettled sampleInit 0, .inputChanged "a"]
            (mount sampleEnv)))).state.messages =
        (run sampleEnv [.initSettled sampleInit 0, .inputChanged "a"]
          (mount sampleEnv)).state.messages ++
          { id := (run sampleEnv [.initSettled sampleInit 0, .inputChanged "a"]
              (mount sampleEnv)).state.messages.length + 1,
            text := (run sampleEnv [.initSettled sampleInit 0, .inputChanged "a"]
              (mount sampleEnv)).state.inputMessage,
            sender := "user", timestamp := .clock 1 } :: between ∧
      (run sampleEnv
        ([.inputChanged "b", .submitted 2] ++ [.sendSettled (.body ⟨false, "ignored"⟩) 3])
        (step sampleEnv (.submitted 1)
          (run sampleEnv [.initSettled sampleInit 0, .inputChanged "a"]
            (mount sampleEnv)))).state.messages =
        (run sampleEnv [.initSettled sampleInit 0, .inputChanged "a"]
          (mount sampleEnv)).state.messages ++
          { id := (run sampleEnv [.initSettled sampleInit 0, .inputChanged "a"]
              (mount sampleEnv)).state.messages.length + 1,
            text := (run sampleEnv [.initSettled sampleInit 0, .inputChanged "a"]
              (mount sampleEnv)).state.inputMessage,
            sender := "user", timestamp := .clock 1 } :: between ++
          [{ id := (run sampleEnv [.initSettled sampleInit 0, .inputChanged "a"]
               (mount sampleEnv)).state.messages.length + between.length + 2,
             text := "Sorry, I'm having trouble processing your message. Please try again.",
             sender := "jarvis", timestamp := .clock 3 }] ∧
      ((∀ ev ∈ [Event.inputChanged "b", Event.submitted 2], ev.isInputChanged = true) →
        between = [])) ∧
    processingTroubleText ≠ networkErrorText :=
  send_logical_failure_transcript sampleEnv
    (run sampleEnv [.initSettled sampleInit 0, .inputChanged "a"] (mount sampleEnv)) 1 3
    ⟨false, "ignored"⟩ [.inputChanged "b", .submitted 2]
    (by decide) (by decide) (by decide) rfl (by decide)

/-! ## Rehydration -/

theorem formattedMessages_getElem? (history : List HistoryEntry) (now i : Nat) (e : HistoryEntry)
    (he : history[i]? = some e) :
    (formattedMessages history now)[i]? =
      some { id := i + 1
             text := e.message
             sender := if e.role = "user" then "user" else "jarvis"
             timestamp :=
               match e.timestamp with
               | some raw => if truthyString raw then .parsed raw else .clock now
               | none => .clock now } := by
  simp [formattedMessages, List.getElem?_map, List.getElem?_enum, he]

/-- C12: rehydration maps the server history `h` to a transcript of the same
length and order in which entry `i` has id `i + 1`, the text of `h[i]`, and
the sender `"user"` exactly when the role of `h[i]` is `"user"` and `"jarvis"`
for every other role; the transcript set by `fetchMemberData` is this list for
`member.chat_history`, and it is empty when the member or its `chat_history`
is missing. -/
theorem rehydration_spec (history : List HistoryEntry) (now : Nat) :
    (formattedMessages history now).length = history.length ∧
    (∀ (i : Nat) (e : HistoryEntry), history[i]? = some e →
      ∃ m, (formattedMessages history now)[i]? = some m ∧ m.id = i + 1 ∧ m.text = e.message ∧
        (m.sender = "user" ↔ e.role = "user") ∧ (e.role ≠ "user" → m.sender = "jarvis")) ∧
    (∀ (result : InitResult) (s : ChatState),
      (fetchMemberDataSettle (.body result) now s).messages =
        formattedMessages (chatHistoryOf result) now) ∧
    (∀ (result : InitResult) (member : Member), result.member = some member →
      member.chat_history = some history → chatHistoryOf result = history) ∧
    (∀ (result : InitResult) (s : ChatState), result.member = none →
      (fetchMemberDataSettle (.body result) now s).messages = []) ∧
    (∀ (result : InitResult) (member : Member) (s : ChatState), result.member = some member →
      member.chat_history = none →
      (fetchMemberDataSettle (.body result) now s).messages = []) := by
  have hset : ∀ (result : InitResult) (s : ChatState),
      (fetchMemberDataSettle (.body result) now s).messages =
        formattedMessages (chatHistoryOf result) now := by
    intro result s
    cases hs : result.success <;> simp [fetchMemberDataSettle, hs]
  refine ⟨formattedMessages_length history now, fun i e he => ?_, hset, ?_, ?_, ?_⟩
  · refine ⟨_, formattedMessages_getElem? history now i e he, rfl, rfl, ?_, ?_⟩
    · by_cases hr : e.role = "user"
      · simp [hr]
      · simp [hr]
    · intro hr
      simp [hr]
  · intro result member hm hh
    simp [chatHistoryOf, hm, hh]
  · intro result s hm
    rw [hset]
    simp [chatHistoryOf, hm, formattedMessages]
  · intro result member s hm hh
    rw [hset]
    simp [chatHistoryOf, hm, hh, formattedMessages]

/-- Witness of C12: a history of a user message and an assistant message. -/
theorem rehydration_spec_witness :
    ∃ m, (formattedMessages [⟨"hi", "user", none⟩, ⟨"hello", "assistant", some "2024-01-01"⟩] 7)[1]?
        = some m ∧
      m.id = 1 + 1 ∧ m.text = (⟨"hello", "assistant", some "2024-01-01"⟩ : HistoryEntry).message ∧
      (m.sender = "user" ↔
        (⟨"hello", "assistant", some "2024-01-01"⟩ : HistoryEntry).role = "user") ∧
      ((⟨"hello", "assistant", some "2024-01-01"⟩ : HistoryEntry).role ≠ "user" →
        m.sender = "jarvis") :=
  (rehydration_spec [⟨"hi", "user", none⟩, ⟨"hello", "assistant", some "2024-01-01"⟩] 7).2.1 1
    ⟨"hello", "assistant", some "2024-01-01"⟩ rfl

/-! ## Skill normalisation -/

theorem splitComma_ne_nil (cs : List Char) : splitComma cs ≠ [] := by
  induction cs with
  | nil => simp [splitComma]
  | cons c cs ih =>
    unfold splitComma
    split
    · simp
    · split <;> simp

theorem splitComma_no_comma (cs : List Char) : ∀ piece ∈ splitComma cs, ',' ∉ piece := by
  induction cs with
  | nil => simp [splitComma]
  | cons c cs ih =>
    unfold splitComma
    split
    · intro piece hp
      rcases List.mem_cons.1 hp with h | h
      · simp [h]
      · exact ih piece h
    · rename_i hc
      split
      · intro piece hp
        simp only [List.mem_singleton] at hp
        subst hp
        simpa using Ne.symm hc
      · rename_i p ps heq
        intro piece hp
        rcases List.mem_cons.1 hp with h | h
        · subst h
          have hp' : ',' ∉ p := ih p (by rw [heq]; exact List.mem_cons_self _ _)
          simp only [List.mem_cons, not_or]
          exact ⟨Ne.symm hc, hp'⟩
        · exact ih piece (by rw [heq]; exact List.mem_cons_of_mem _ h)

theorem jsTrimChars_sublist (cs : List Char) : (jsTrimChars cs).Sublist cs := by
  unfold jsTrimChars
  have h1 : ((cs.dropWhile isJsWhiteSpace).reverse.dropWhile isJsWhiteSpace).Sublist
      (cs.dropWhile isJsWhiteSpace).reverse := List.dropWhile_sublist _
  have h2 := List.reverse_sublist.2 h1
  rw [List.reverse_reverse] at h2
  exact h2.trans (List.dropWhile_sublist _)

theorem jsTrimChars_getLast? (cs : List Char) (c : Char)
    (h : (jsTrimChars cs).getLast? = some c) : isJsWhiteSpace c = false := by
  unfold jsTrimChars at h
  rw [List.getLast?_reverse] at h
  have := List.head?_dropWhile_not isJsWhiteSpace (cs.dropWhile isJsWhiteSpace).reverse
  rw [h] at this
  exact this

theorem jsTrimChars_head? (cs : List Char) (c : Char)
    (h : (jsTrimChars cs).head? = some c) : isJsWhiteSpace c = false := by
  have hpre : jsTrimChars cs <+: cs.dropWhile isJsWhiteSpace := by
    unfold jsTrimChars
    have := List.dropWhile_suffix (l := (cs.dropWhile isJsWhiteSpace).reverse) isJsWhiteSpace
    have h2 := List.reverse_prefix.2 this
    rwa [List.reverse_reverse] at h2
  obtain ⟨rest, hrest⟩ := hpre
  have hhead : (cs.dropWhile isJsWhiteSpace).head? = some c := by
    rw [← hrest]
    cases hj : jsTrimChars cs with
    | nil => rw [hj] at h; cases h
    | cons a as => rw [hj] at h; simpa using h
  have := List.head?_dropWhile_not isJsWhiteSpace cs
  rw [hhead] at this
  exact this

theorem normalizeSkills_text (s : String) :
    normalizeSkills (.text s) = ((jsSplitComma s).map jsTrim).filter truthyString := by
  by_cases h : truthyString s = true
  · simp [normalizeSkills, h]
  · have hs : s = "" := (truthyString_eq_false_iff s).1 (by simpa using h)
    subst hs
    decide

/-- What the normalised skills of a free-text field satisfy. -/
theorem normalizeSkills_text_mem (s x : String) (hx : x ∈ normalizeSkills (.text s)) :
    x ≠ "" ∧ ',' ∉ x.data ∧
      (∀ c, x.data.head? = some c → isJsWhiteSpace c = false) ∧
      (∀ c, x.data.getLast? = some c → isJsWhiteSpace c = false) := by
  rw [normalizeSkills_text, List.mem_filter] at hx
  obtain ⟨hmem, htruthy⟩ := hx
  rw [List.mem_map] at hmem
  obtain ⟨piece, hpiece, rfl⟩ := hmem
  unfold jsSplitComma at hpiece
  rw [List.mem_map] at hpiece
  obtain ⟨cs, hcs, rfl⟩ := hpiece
  refine ⟨(truthyString_iff _).1 htruthy, ?_, ?_, ?_⟩
  · intro hcomma
    exact splitComma_no_comma s.data cs hcs ((jsTrimChars_sublist cs).subset hcomma)
  · intro c hc
    exact jsTrimChars_head? cs c hc
  · intro c hc
    exact jsTrimChars_getLast? cs c hc

theorem toBodyMember_toMemberRecord (member : RosterMember) :
    toBodyMember (toMemberRecord member) =
      { name := member.name
        email := member.email
        phone := member.phone
        role := stringOr member.role "Team Member"
        skills := normalizeSkills member.skills } := by
  have hdefault : ∀ text fallback : String, truthyString fallback = true →
      stringOr (stringOr text fallback) fallback = stringOr text fallback := by
    intro text fallback hf
    unfold stringOr
    split
    · rename_i h; simp [h]
    · simp [hf]
  have hphone : stringOr (stringOr member.phone "") "" = member.phone := by
    unfold stringOr
    split
    · rename_i h; simp [h]
    · rename_i h
      have : member.phone = "" := (truthyString_eq_false_iff _).1 (by simpa using h)
      simp [this]
  simp only [toBodyMember, toMemberRecord, hphone, hdefault _ _ (by decide : truthyString "Team Member" = true),
    normalizeSkills]

theorem registerBody_members (st : ManagerDashboard.State) :
    (ManagerDashboard.registerBody st).members =
      { name := st.formData.managerName
        email := st.formData.managerEmail
        phone := st.formData.managerPhone
        role := "Manager"
        skills := ["Project Management", "Client Relations"] } ::
      st.members.map fun member =>
        { name := member.name
          email := member.email
          phone := member.phone
          role := stringOr member.role "Team Member"
          skills := normalizeSkills member.skills } := by
  have hmanager : stringOr st.formData.managerPhone "" = st.formData.managerPhone := by
    unfold stringOr
    split
    · rfl
    · rename_i h
      exact ((truthyString_eq_false_iff _).1 (by simpa using h)).symm
  simp only [ManagerDashboard.registerBody, ManagerDashboard.projectMembers, List.map_cons,
    List.map_map]
  congr 1
  · simp [toBodyMember, hmanager, normalizeSkills]
    decide
  · apply List.map_congr_left
    intro member _
    exact toBodyMember_toMemberRecord member

theorem registerBody_member_skills (st : ManagerDashboard.State) (i : Nat) (member : RosterMember)
    (hm : st.members[i]? = some member) :
    ((ManagerDashboard.registerBody st).members[i + 1]?).map MemberRecord.skills =
      some (normalizeSkills member.skills) := by
  rw [registerBody_members]
  simp [List.getElem?_map, hm]

/-- C13: for every roster entry whose skills field is the free text `s`, the
skills in the request body for that member are the pieces of `s` between
commas, each trimmed, without the pieces that are empty after trimming, in the
original order; every transmitted skill is non-empty, has no comma and neither
starts nor ends with white space; and `"react, node.js ,  , python"` gives
`["react", "node.js", "python"]`. -/
theorem skills_text_transmitted (st : ManagerDashboard.State) (i : Nat) (member : RosterMember)
    (s : String) (hm : st.members[i]? = some member) (hs : member.skills = .text s) :
    ((ManagerDashboard.registerBody st).members[i + 1]?).map MemberRecord.skills =
      some (((jsSplitComma s).map jsTrim).filter fun piece => decide (piece ≠ "")) ∧
    (∀ x ∈ ((jsSplitComma s).map jsTrim).filter fun piece => decide (piece ≠ ""),
      x ≠ "" ∧ ',' ∉ x.data ∧
      (∀ c, x.data.head? = some c → isJsWhiteSpace c = false) ∧
      (∀ c, x.data.getLast? = some c → isJsWhiteSpace c = false)) ∧
    normalizeSkills (.text "react, node.js ,  , python") = ["react", "node.js", "python"] := by
  have hfilter : (((jsSplitComma s).map jsTrim).filter fun piece => decide (piece ≠ "")) =
      normalizeSkills (.text s) := by
    rw [normalizeSkills_text]
    apply List.filter_congr
    intro x _
    by_cases hx : x = ""
    · subst hx; decide
    · simp [hx, (truthyString_iff x).2 hx]
  rw [hfilter]
  refine ⟨?_, fun x hx => normalizeSkills_text_mem s x hx, by decide⟩
  rw [registerBody_member_skills st i member hm, hs]

/-- Witness of C13: the roster entry of the sample dashboard with the skills
text of the specification. -/
theorem skills_text_transmitted_witness :
    ((ManagerDashboard.registerBody
        (ManagerDashboard.sampleState "react, node.js ,  , python")).members[0 + 1]?).map
      MemberRecord.skills = some ["react", "node.js", "python"] :=
  (skills_text_transmitted (ManagerDashboard.sampleState "react, node.js ,  , python") 0
    { id := 1, name := "Aman", email := "aman@agrimater.com", phone := "", role := ""
      skills := .text "react, node.js ,  , python" }
    "react, node.js ,  , python" (by decide) rfl).1.trans (by decide)

/-- C14: skill normalisation returns a list unchanged (`["a", "b"]` stays
`["a", "b"]`); hence it is idempotent, and the submit path, which normalises in
`handleSubmit` and again in `saveToJarvisMemory`, transmits the same skills as
one normalisation. -/
theorem skills_list_identity (items : List String) :
    normalizeSkills (.list items) = items ∧
    normalizeSkills (.list ["a", "b"]) = ["a", "b"] ∧
    (∀ skills : Skills, normalizeSkills (.list (normalizeSkills skills)) = normalizeSkills skills) ∧
    (∀ member : RosterMember,
      (toBodyMember (toMemberRecord member)).skills = (toMemberRecord member).skills ∧
      (toBodyMember (toMemberRecord member)).skills = normalizeSkills member.skills) :=
  ⟨rfl, rfl, fun _ => rfl, fun _ => ⟨rfl, rfl⟩⟩

/-- C15, as stated, fails: the free text `"react, react"` is transmitted as
`["react", "react"]`, in which `"react"` occurs twice. -/
theorem skills_not_deduplicated :
    ((ManagerDashboard.registerBody (ManagerDashboard.sampleState "react, react")).members[1]?).map
      MemberRecord.skills = some ["react", "react"] ∧
    ¬ (["react", "react"] : List String).Nodup := by
  decide

/-- C15, amended: the transmitted skills keep duplicates.  The skills in the
request body are the normalised skills of the roster entry; for a free-text
input a non-empty string occurs in them exactly as often as among the trimmed
pieces of the text, and for a list input every string occurs exactly as often
as in the list. -/
theorem skills_duplicates_kept (member : RosterMember) :
    (toBodyMember (toMemberRecord member)).skills = normalizeSkills member.skills ∧
    (∀ (s x : String), x ≠ "" →
      (normalizeSkills (.text s)).count x = ((jsSplitComma s).map jsTrim).count x) ∧
    (∀ (items : List String) (x : String), (normalizeSkills (.list items)).count x = items.count x) := by
  refine ⟨rfl, fun s x hx => ?_, fun _ _ => rfl⟩
  rw [normalizeSkills_text]
  exact List.count_filter ((truthyString_iff x).2 hx)

/-- Witness of C15 amended: `"react"` occurs twice among the pieces of
`"react, vue ,react"` and twice in the transmitted list. -/
theorem skills_duplicates_kept_witness :
    (normalizeSkills (.text "react, vue ,react")).count "react" =
      ((jsSplitComma "react, vue ,react").map jsTrim).count "react" :=
  (skills_duplicates_kept (blankMember 1)).2.1 "react, vue ,react" "react" (by decide)

/-! ## Roster resizing -/

/-- The blank entries with ids `start + 1, ..., start + count`. -/
theorem growMembers_eq (num : Nat) (fuel : Nat) :
    ∀ newMembers : List RosterMember,
      growMembers (num : Int) fuel newMembers =
        newMembers ++ (List.range (min fuel (num - newMembers.length))).map
          fun k => blankMember (newMembers.length + k + 1) := by
  induction fuel with
  | zero => intro newMembers; simp [growMembers]
  | succ fuel ih =>
    intro newMembers
    unfold growMembers
    by_cases hlt : newMembers.length < num
    · have hcond : ((newMembers.length : Int) < (num : Int)) := by exact_mod_cast hlt
      rw [if_pos hcond, ih]
      have hmin : min (fuel + 1) (num - newMembers.length) =
          min fuel (num - (newMembers.length + 1)) + 1 := by omega
      rw [hmin, List.range_succ_eq_map]
      simp only [List.length_append, List.length_singleton, List.map_cons, List.map_map,
        List.append_assoc, List.singleton_append, Nat.add_zero]
      congr 2
      apply List.map_congr_left
      intro k _
      simp only [Function.comp_apply]
      congr 1
      omega
    · have hcond : ¬ ((newMembers.length : Int) < (num : Int)) := by exact_mod_cast hlt
      rw [if_neg hcond]
      have : num - newMembers.length = 0 := by omega
      simp [this]

theorem resizeMembers_of_parse (r : List RosterMember) (value : String) (n : Nat)
    (hparse : parseInt value = .finite (n : Int)) (hn : 1 ≤ n) :
    resizeMembers r value =
      if n ≤ r.length then r.take n
      else r ++ (List.range (n - r.length)).map fun k => blankMember (r.length + k + 1) := by
  have hnum : parseIntOr value 1 = .finite (n : Int) := by
    have hne : (n : Int) ≠ 0 := by exact_mod_cast (by omega : n ≠ 0)
    simp [parseIntOr, hparse, hne]
  unfold resizeMembers
  simp only [hnum, Int.toNat_ofNat]
  rw [growMembers_eq]
  by_cases hle : n ≤ r.length
  · have h0 : min n (n - r.length) = 0 := by omega
    simp only [h0, List.range_zero, List.map_nil, List.append_nil, if_pos hle]
    by_cases hlt : n < r.length
    · have hcond : ((r.length : Int) > (n : Int)) := by exact_mod_cast hlt
      have hneg : ¬ ((n : Int) < 0) := by omega
      simp only [if_pos hcond, spliceFrom, if_neg hneg, Int.toNat_ofNat]
      congr 1
      omega
    · have hcond : ¬ ((r.length : Int) > (n : Int)) := by exact_mod_cast hlt
      have heq : n = r.length := by omega
      simp only [if_neg hcond]
      rw [heq, List.take_length]
  · have hmin : min n (n - r.length) = n - r.length := by omega
    simp only [hmin, if_neg hle]
    have hlen : ¬ (((r ++ (List.range (n - r.length)).map
        fun k => blankMember (r.length + k + 1)).length : Int) > (n : Int)) := by
      simp only [List.length_append, List.length_map, List.length_range]
      have : r.length + (n - r.length) = n := by omega
      rw [this]
      omega
    rw [if_neg hlen]

/-- C16: for every roster `r` and every typed member count whose integer value
is `n >= 1`, `handleInputChange` of either form sets the roster to the first
`n` entries of `r` when `n <= length(r)`, and otherwise to `r` followed by
`n - length(r)` blank entries with the ids `length(r) + 1, ..., n` in order;
the loop that adds the entries has stopped by itself; from two entries the
count 5 appends blank entries 3, 4, 5, and from five entries the count 2 keeps
entries 1 and 2 unchanged. -/
theorem roster_resize (r : List RosterMember) (value : String) (n : Nat)
    (hparse : parseInt value = .finite (n : Int)) (hn : 1 ≤ n) :
    (∀ st : ManagerDashboard.State, st.members = r →
      (ManagerDashboard.handleInputChange "numberOfMembers" value st).members =
        if n ≤ r.length then r.take n
        else r ++ (List.range (n - r.length)).map fun k => blankMember (r.length + k + 1)) ∧
    (∀ st : TeamRegistrationForm.State, st.members = r →
      (TeamRegistrationForm.handleInputChange "numberOfMembers" value st).members =
        if n ≤ r.length then r.take n
        else r ++ (List.range (n - r.length)).map fun k => blankMember (r.length + k + 1)) ∧
    ¬ (((growMembers (n : Int) n r).length : Int) < (n : Int)) ∧
    (r.length = 2 → resizeMembers r "5" = r ++ [blankMember 3, blankMember 4, blankMember 5]) ∧
    (r.length = 5 → resizeMembers r "2" = r.take 2) := by
  have hmain := resizeMembers_of_parse r value n hparse hn
  refine ⟨?_, ?_, ?_, ?_, ?_⟩
  · intro st hst
    simp [ManagerDashboard.handleInputChange, hst, hmain]
  · intro st hst
    simp [TeamRegistrationForm.handleInputChange, hst, hmain]
  · rw [growMembers_eq]
    simp only [List.length_append, List.length_map, List.length_range]
    omega
  · intro hlen
    rw [resizeMembers_of_parse r "5" 5 (by decide) (by decide), hlen]
    rfl
  · intro hlen
    rw [resizeMembers_of_parse r "2" 2 (by decide) (by decide), hlen]
    rfl

/-- Witness of C16: the count `"3"` typed into the sample dashboard, whose
roster has one filled entry. -/
theorem roster_resize_witness :
    (ManagerDashboard.handleInputChange "numberOfMembers" "3"
        (ManagerDashboard.sampleState "react")).members =
      if 3 ≤ (ManagerDashboard.sampleState "react").members.length then
        (ManagerDashboard.sampleState "react").members.take 3
      else (ManagerDashboard.sampleState "react").members ++
        (List.range (3 - (ManagerDashboard.sampleState "react").members.length)).map
          fun k => blankMember ((ManagerDashboard.sampleState "react").members.length + k + 1) :=
  (roster_resize (ManagerDashboard.sampleState "react").members "3" 3 (by decide) (by decide)).1
    (ManagerDashboard.sampleState "react") rfl

/-! ## Validation gates -/

/-- C17: at step 1 of `ManagerDashboard`, `validateForm` is truthy if and only
if `clientName`, `projectName`, `projectDescription` and `projectDurationDays`
are all non-empty, and the submit button of step 1 is disabled exactly when
`validateForm` is falsy. -/
theorem validateForm_step1 (st : ManagerDashboard.State) (hstep : st.currentStep = 1) :
    (ManagerDashboard.validateForm st = true ↔
      st.formData.clientName ≠ "" ∧ st.formData.projectName ≠ "" ∧
        st.formData.projectDescription ≠ "" ∧ st.formData.projectDurationDays ≠ "") ∧
    (ManagerDashboard.step1SubmitDisabled st = true ↔
      ManagerDashboard.validateForm st = false) := by
  constructor
  · simp only [ManagerDashboard.validateForm, hstep, if_true, Bool.and_eq_true, truthyString_iff]
    tauto
  · simp [ManagerDashboard.step1SubmitDisabled]

/-- Witness of C17: the first render, where the three text fields are empty,
and the dashboard after they are filled. -/
theorem validateForm_step1_witness :
    (ManagerDashboard.step1SubmitDisabled ManagerDashboard.initialState = true ↔
      ManagerDashboard.validateForm ManagerDashboard.initialState = false) ∧
    (ManagerDashboard.validateForm
        (ManagerDashboard.handleInputChange "projectDescription" "Stock keeping"
          (ManagerDashboard.handleInputChange "projectName" "Inventory"
            (ManagerDashboard.handleInputChange "clientName" "Acme"
              ManagerDashboard.initialState))) = true ↔
      "Acme" ≠ "" ∧ "Inventory" ≠ "" ∧ "Stock keeping" ≠ "" ∧ "7" ≠ "") :=
  ⟨(validateForm_step1 ManagerDashboard.initialState rfl).2,
   (validateForm_step1
      (ManagerDashboard.handleInputChange "projectDescription" "Stock keeping"
        (ManagerDashboard.handleInputChange "projectName" "Inventory"
          (ManagerDashboard.handleInputChange "clientName" "Acme"
            ManagerDashboard.initialState))) rfl).1⟩

/-- C18: at step 2 of `ManagerDashboard`, `validateForm` is truthy if and only
if the manager name is non-empty and every roster entry has a non-empty name
and a non-empty email (for an empty roster: if and only if the manager name is
non-empty), and the submit button of step 2 is disabled whenever
`validateForm` is falsy. -/
theorem validateForm_step2 (st : ManagerDashboard.State) (hstep : st.currentStep = 2) :
    (ManagerDashboard.validateForm st = true ↔
      st.formData.managerName ≠ "" ∧
        ∀ member ∈ st.members, member.name ≠ "" ∧ member.email ≠ "") ∧
    (st.members = [] →
      (ManagerDashboard.validateForm st = true ↔ st.formData.managerName ≠ "")) ∧
    (ManagerDashboard.validateForm st = false →
      ManagerDashboard.step2SubmitDisabled st = true) := by
  have hmain : ManagerDashboard.validateForm st = true ↔
      st.formData.managerName ≠ "" ∧
        ∀ member ∈ st.members, member.name ≠ "" ∧ member.email ≠ "" := by
    simp only [ManagerDashboard.validateForm, hstep, if_true, Bool.and_eq_true,
      List.all_eq_true]
    simp [truthyString_iff]
  refine ⟨hmain, fun hempty => ?_, fun hfalse => ?_⟩
  · rw [hmain, hempty]
    simp
  · simp [ManagerDashboard.step2SubmitDisabled, hfalse]

/-- Witness of C18: the sample dashboard passes the gate, and after its roster
grows by a blank entry the gate fails and the button is disabled. -/
theorem validateForm_step2_witness :
    (ManagerDashboard.validateForm (ManagerDashboard.sampleState "react") = true ↔
      (ManagerDashboard.sampleState "react").formData.managerName ≠ "" ∧
        ∀ member ∈ (ManagerDashboard.sampleState "react").members,
          member.name ≠ "" ∧ member.email ≠ "") ∧
    ManagerDashboard.step2SubmitDisabled
      (ManagerDashboard.handleInputChange "numberOfMembers" "2"
        (ManagerDashboard.sampleState "react")) = true :=
  ⟨(validateForm_step2 (ManagerDashboard.sampleState "react") rfl).1,
   (validateForm_step2
      (ManagerDashboard.handleInputChange "numberOfMembers" "2"
        (ManagerDashboard.sampleState "react")) rfl).2.2 (by decide)⟩

/-! ## Registration request and links -/

/-- C19: for every form state with roster `r`, the `members` list of the
registration request body has length `length(r) + 1`; element 0 is the
manager, with the name, email and phone of the form and the role `"Manager"`;
element `i + 1` carries the name, email and phone of `r[i]` unchanged (an
empty phone stays the empty string), its role or `"Team Member"` when the role
is empty, and its normalised skills. -/
theorem register_body_members (st : ManagerDashboard.State) :
    (ManagerDashboard.registerBody st).members.length = st.members.length + 1 ∧
    (∃ manager, (ManagerDashboard.registerBody st).members[0]? = some manager ∧
      manager.name = st.formData.managerName ∧ manager.email = st.formData.managerEmail ∧
      manager.phone = st.formData.managerPhone ∧ manager.role = "Manager") ∧
    (∀ (i : Nat) (member : RosterMember), st.members[i]? = some member →
      (ManagerDashboard.registerBody st).members[i + 1]? =
        some { name := member.name
               email := member.email
               phone := member.phone
               role := if member.role = "" then "Team Member" else member.role
               skills := normalizeSkills member.skills }) := by
  rw [registerBody_members]
  refine ⟨by simp, ⟨_, List.getElem?_cons_zero, rfl, rfl, rfl, rfl⟩, fun i member hm => ?_⟩
  have hrole : stringOr member.role "Team Member" =
      if member.role = "" then "Team Member" else member.role := by
    unfold stringOr
    by_cases h : member.role = ""
    · rw [if_pos h, h]; rfl
    · rw [if_neg h, if_pos ((truthyString_iff _).2 h)]
  simp [List.getElem?_map, hm, hrole]

/-- Witness of C19: the roster entry of the sample dashboard, whose role is
empty. -/
theorem register_body_members_witness :
    (ManagerDashboard.registerBody (ManagerDashboard.sampleState "react, node")).members[0 + 1]? =
      some { name := "Aman"
             email := "aman@agrimater.com"
             phone := ""
             role := if ("" : String) = "" then "Team Member" else ""
             skills := normalizeSkills (.text "react, node") } :=
  (register_body_members (ManagerDashboard.sampleState "react, node")).2.2 0
    { id := 1, name := "Aman", email := "aman@agrimater.com", phone := "", role := ""
      skills := .text "react, node" } (by decide)

theorem rosterLink_of_token (origin : String) (memberTokens : List TokenData) (index : Nat)
    (member : RosterMember) (td : TokenData) (htd : memberTokens[index + 1]? = some td)
    (htoken : td.token ≠ "") :
    rosterLink origin memberTokens index member =
      { memberId := .number member.id
        memberName := member.name
        role := td.role
        link := origin ++ "/chat?token=" ++ td.token } := by
  simp [rosterLink, htd, (truthyString_iff _).2 htoken, generateMemberLink]

theorem allLinks_of_manager (origin : String) (st : ManagerDashboard.State)
    (memberTokens : List TokenData) (td0 : TokenData) (h0 : memberTokens[0]? = some td0) :
    ManagerDashboard.allLinks origin st memberTokens =
      { memberId := .label "manager"
        memberName := st.formData.managerName
        role := "Manager"
        link := origin ++ "/chat?token=" ++ td0.token } ::
      st.members.enum.map fun p => rosterLink origin memberTokens p.1 p.2 := by
  simp [ManagerDashboard.allLinks, h0, generateMemberLink]

/-- C20: for every roster `r` and every token list `t` of length
`length(r) + 1` whose entries all carry a non-empty token,
`generateMemberLinks` produces exactly `length(r) + 1` links aligned with `t`:
link 0 is the manager link `origin + "/chat?token=" + t[0].token`, and link
`i + 1` belongs to roster entry `r[i]` and is
`origin + "/chat?token=" + t[i + 1].token`; these links are what the timeout
stores in `generatedLinks`. -/
theorem links_aligned (origin : String) (st : ManagerDashboard.State) (t : List TokenData)
    (hlen : t.length = st.members.length + 1) (htokens : ∀ td ∈ t, td.token ≠ "") :
    (ManagerDashboard.allLinks origin st t).length = st.members.length + 1 ∧
    (∃ td0, t[0]? = some td0 ∧
      (ManagerDashboard.allLinks origin st t)[0]? =
        some { memberId := .label "manager"
               memberName := st.formData.managerName
               role := "Manager"
               link := origin ++ "/chat?token=" ++ td0.token }) ∧
    (∀ (i : Nat) (member : RosterMember), st.members[i]? = some member →
      ∃ td, t[i + 1]? = some td ∧
        (ManagerDashboard.allLinks origin st t)[i + 1]? =
          some { memberId := .number member.id
                 memberName := member.name
                 role := td.role
                 link := origin ++ "/chat?token=" ++ td.token }) ∧
    (∀ later : ManagerDashboard.State,
      (ManagerDashboard.generateMemberLinksTimeout origin st t later).generatedLinks =
        ManagerDashboard.allLinks origin st t) := by
  have hpos : 0 < t.length := by omega
  have h0 : t[0]? = some (t[0]) := List.getElem?_eq_getElem hpos
  rw [allLinks_of_manager origin st t _ h0]
  refine ⟨by simp, ⟨_, h0, by simp⟩, fun i member hm => ?_,
    fun _ => (allLinks_of_manager origin st t _ h0).symm ▸ rfl⟩
  have hi : i < st.members.length := by
    rcases Nat.lt_or_ge i st.members.length with h | h
    · exact h
    · rw [List.getElem?_eq_none h] at hm; cases hm
  have hi1 : i + 1 < t.length := by omega
  have htd : t[i + 1]? = some (t[i + 1]) := List.getElem?_eq_getElem hi1
  refine ⟨_, htd, ?_⟩
  have htoken : (t[i + 1]).token ≠ "" := htokens _ (List.getElem_mem _)
  simp only [List.getElem?_cons_succ, List.getElem?_map, List.getElem?_enum, hm, Option.map_some']
  rw [rosterLink_of_token origin t i member _ htd htoken]

/-- Witness of C20: the tokens `T0` and `T1` with the one roster entry of the
sample dashboard give two links, the manager link with `T0` and the entry
link with `T1`. -/
theorem links_aligned_witness :
    (ManagerDashboard.allLinks "https://app.example" (ManagerDashboard.sampleState "react")
        [⟨"T0", "Manager"⟩, ⟨"T1", "Dev"⟩]).length =
      (ManagerDashboard.sampleState "react").members.length + 1 ∧
    ManagerDashboard.allLinks "https://app.example" (ManagerDashboard.sampleState "react")
        [⟨"T0", "Manager"⟩, ⟨"T1", "Dev"⟩] =
      [{ memberId := .label "manager", memberName := "Dhairyashil Shinde", role := "Manager"
         link := "https://app.example/chat?token=T0" },
       { memberId := .number 1, memberName := "Aman", role := "Dev"
         link := "https://app.example/chat?token=T1" }] :=
  ⟨(links_aligned "https://app.example" (ManagerDashboard.sampleState "react")
      [⟨"T0", "Manager"⟩, ⟨"T1", "Dev"⟩] (by decide) (by decide)).1, by decide⟩

/-! ## Registration failure -/

/-- C21: when the registration request fails (`fetch` throws, or the response
is not OK, which becomes the error `HTTP <status>: <body>`, or the body cannot
be read), `handleSubmit` leaves the whole state as it was: the generated-link
list is unchanged, the wizard stays on step 2, and the one alert shown is
`"Registration failed: "` followed by the message of the error. -/
theorem registration_failure (origin : String) (o : ManagerDashboard.RegisterOutcome)
    (st : ManagerDashboard.State) (message : String)
    (hfail : o.errorMessage = some message) (hstep : st.currentStep = 2) :
    (ManagerDashboard.handleSubmit origin o st).1 = st ∧
    (ManagerDashboard.handleSubmit origin o st).1.generatedLinks = st.generatedLinks ∧
    (ManagerDashboard.handleSubmit origin o st).1.currentStep = 2 ∧
    (ManagerDashboard.handleSubmit origin o st).2 = ["Registration failed: " ++ message] ∧
    (∀ (status : Nat) (errorText : String),
      (ManagerDashboard.RegisterOutcome.notOk status errorText).errorMessage =
        some ("HTTP " ++ toString status ++ ": " ++ errorText)) := by
  have hrun : ManagerDashboard.handleSubmit origin o st =
      (st, ["Registration failed: " ++ message]) := by
    simp [ManagerDashboard.handleSubmit, ManagerDashboard.handleSubmitSettle, hfail]
  rw [hrun]
  exact ⟨rfl, rfl, hstep, rfl, fun _ _ => rfl⟩

/-- Witness of C21: the sample dashboard gets the answer 500 with the body
`"database down"`. -/
theorem registration_failure_witness :
    (ManagerDashboard.handleSubmit "https://app.example" (.notOk 500 "database down")
      (ManagerDashboard.sampleState "react")).1 = ManagerDashboard.sampleState "react" ∧
    (ManagerDashboard.handleSubmit "https://app.example" (.notOk 500 "database down")
      (ManagerDashboard.sampleState "react")).2 =
        ["Registration failed: " ++ "HTTP 500: database down"] :=
  have h := registration_failure "https://app.example" (.notOk 500 "database down")
    (ManagerDashboard.sampleState "react") "HTTP 500: database down" (by decide) (by decide)
  ⟨h.1, h.2.2.2.1⟩

/-! ## The welcome exchange on failure -/

/-- C23, as stated, fails: after a load whose welcome request is answered with
a falsy `success`, and after one whose welcome request is rejected, the
transcript is still empty; no fallback message was appended. -/
theorem welcome_failure_appends_nothing :
    (run sampleEnv [.initSettled freshInit 0] (mount sampleEnv)).pendingWelcomes = 1 ∧
    (run sampleEnv [.initSettled freshInit 0, .welcomeSettled (.body ⟨false, ""⟩) 1]
      (mount sampleEnv)).state.messages = [] ∧
    (run sampleEnv [.initSettled freshInit 0, .welcomeSettled .fetchRejected 1]
      (mount sampleEnv)).state.messages = [] := by
  decide

/-- C23, amended: a welcome send that ends with a falsy `success` or with a
thrown error appends no message: `sendWelcomeMessage` leaves the transcript,
and the rest of the state, unchanged. -/
theorem welcome_failure_state (o : ChatOutcome) (now : Nat) (s : ChatState)
    (hfail : o.throws = true ∨ ∃ result, o = .body result ∧ result.success = false) :
    sendWelcomeMessageSettle o now s = s ∧
    (sendWelcomeMessageSettle o now s).messages = s.messages := by
  have hsame : sendWelcomeMessageSettle o now s = s := by
    rcases hfail with hthrow | ⟨result, rfl, hflag⟩
    · cases o with
      | body result => simp [ChatOutcome.throws] at hthrow
      | _ => rfl
    · simp [sendWelcomeMessageSettle, hflag]
  exact ⟨hsame, by rw [hsame]⟩

/-- Witness of C23 amended: a refused welcome in the state of a fresh load. -/
theorem welcome_failure_state_witness :
    sendWelcomeMessageSettle (.body ⟨false, ""⟩) 1
        (run sampleEnv [.initSettled freshInit 0] (mount sampleEnv)).state =
      (run sampleEnv [.initSettled freshInit 0] (mount sampleEnv)).state :=
  (welcome_failure_state (.body ⟨false, ""⟩) 1
    (run sampleEnv [.initSettled freshInit 0] (mount sampleEnv)).state
    (Or.inr ⟨_, rfl, rfl⟩)).1

/-! ## Duration -/

theorem bitLengthAux_le (fuel : Nat) :
    ∀ (m k : Nat), m < 2 ^ k → bitLengthAux fuel m ≤ k := by
  induction fuel with
  | zero => intro m k _; simp [bitLengthAux]
  | succ fuel ih =>
    intro m k hm
    unfold bitLengthAux
    by_cases h0 : m = 0
    · simp [h0]
    · rw [if_neg h0]
      cases k with
      | zero => simp at hm; exact absurd hm h0
      | succ k =>
        have hhalf : m / 2 < 2 ^ k := by
          rw [Nat.pow_succ] at hm
          omega
        have := ih (m / 2) k hhalf
        omega

theorem roundToDouble_of_le (m : Nat) (h : m ≤ 2 ^ 53) : roundToDouble m = m := by
  rcases Nat.lt_or_ge m (2 ^ 53) with hlt | hge
  · unfold roundToDouble
    rw [if_pos hlt]
  · have heq : m = 2 ^ 53 := Nat.le_antisymm h hge
    subst heq
    decide

theorem toNumber_of_le (n : Int) (h : n.natAbs ≤ 2 ^ 53) : toNumber n = .finite n := by
  have hlt : n.natAbs < 2 ^ 54 := by
    have : (2 : Nat) ^ 53 < 2 ^ 54 := by decide
    omega
  have hbits : bitLength n.natAbs ≤ 1024 :=
    Nat.le_trans (bitLengthAux_le n.natAbs n.natAbs 54 hlt) (by decide)
  unfold toNumber
  simp only [roundToDouble_of_le n.natAbs h, hbits, if_true]
  congr 1
  split <;> omega

theorem pow2_eq (e : Nat) : pow2 e = 2 ^ e := by
  simp [pow2, Nat.shiftLeft_eq]

theorem bitLengthAux_bounds (fuel : Nat) :
    ∀ m : Nat, m ≤ fuel → m ≠ 0 →
      2 ^ (bitLengthAux fuel m - 1) ≤ m ∧ m < 2 ^ bitLengthAux fuel m := by
  induction fuel with
  | zero => intro m hm h0; omega
  | succ fuel ih =>
    intro m hm h0
    unfold bitLengthAux
    rw [if_neg h0, Nat.add_sub_cancel]
    by_cases hhalf : m / 2 = 0
    · have h1 : m = 1 := by omega
      subst h1
      cases fuel <;> simp [bitLengthAux]
    · have hbound := ih (m / 2) (by omega) hhalf
      constructor
      · have hpos : 0 < bitLengthAux fuel (m / 2) := by
          cases fuel with
          | zero => omega
          | succ f =>
            unfold bitLengthAux
            rw [if_neg hhalf]
            omega
        have hsplit : bitLengthAux fuel (m / 2) = (bitLengthAux fuel (m / 2) - 1) + 1 := by omega
        rw [hsplit, Nat.pow_succ]
        omega
      · rw [Nat.pow_succ]
        omega

/-- The rounding of `roundToDouble` is rounding to the nearest number with a
significand of 53 binary digits, a tie going to the even significand: for `m`
from `2 ^ 53` on and `e` the number of binary digits beyond 53, the result is
`s * 2 ^ e` with `2 ^ 52 ≤ s ≤ 2 ^ 53`, it is within half of `2 ^ e` of `m`,
and `s` is even when `m` lies exactly half way. -/
theorem roundToDouble_nearest (m : Nat) (hm : 2 ^ 53 ≤ m) :
    ∃ s : Nat, roundToDouble m = s * 2 ^ (bitLength m - 53) ∧ 2 ^ 52 ≤ s ∧ s ≤ 2 ^ 53 ∧
      2 * (roundToDouble m - m) ≤ 2 ^ (bitLength m - 53) ∧
      2 * (m - roundToDouble m) ≤ 2 ^ (bitLength m - 53) ∧
      (2 * (m % 2 ^ (bitLength m - 53)) = 2 ^ (bitLength m - 53) → s % 2 = 0) := by
  have h0 : m ≠ 0 := by
    have : 0 < 2 ^ 53 := by decide
    omega
  have hbits := bitLengthAux_bounds m m (Nat.le_refl m) h0
  change 2 ^ (bitLength m - 1) ≤ m ∧ m < 2 ^ bitLength m at hbits
  have hlong : 54 ≤ bitLength m := by
    by_contra hshort
    have hle : bitLength m ≤ 53 := by omega
    have : 2 ^ bitLength m ≤ 2 ^ 53 := Nat.pow_le_pow_right (by decide) hle
    omega
  generalize hL : bitLength m = L at *
  obtain ⟨e, rfl⟩ : ∃ e, L = e + 53 := ⟨L - 53, by omega⟩
  have he : e + 53 - 53 = e := by omega
  have hq1 : 2 ^ 52 ≤ m / 2 ^ e := by
    rw [Nat.le_div_iff_mul_le (Nat.pos_pow_of_pos e (by decide))]
    have : 2 ^ 52 * 2 ^ e = 2 ^ (e + 53 - 1) := by
      rw [← Nat.pow_add]
      congr 1
      omega
    rw [this]
    exact hbits.1
  have hq2 : m / 2 ^ e < 2 ^ 53 := by
    rw [Nat.div_lt_iff_lt_mul (Nat.pos_pow_of_pos e (by decide))]
    have : 2 ^ 53 * 2 ^ e = 2 ^ (e + 53) := by
      rw [← Nat.pow_add]
      congr 1
      omega
    rw [this]
    exact hbits.2
  have hdiv := Nat.div_add_mod m (2 ^ e)
  have hmod : m % 2 ^ e < 2 ^ e := Nat.mod_lt _ (Nat.pos_pow_of_pos e (by decide))
  have hnot : ¬ m < 2 ^ 53 := by omega
  unfold roundToDouble
  rw [if_neg hnot]
  simp only [hL, he, pow2_eq]
  generalize hq : m / 2 ^ e = q at *
  generalize hr : m % 2 ^ e = r at *
  generalize hp : 2 ^ e = p at *
  have hm' : m = q * p + r := by rw [← hdiv, Nat.mul_comm]
  by_cases hlow : 2 * r < p
  · rw [if_pos hlow]
    refine ⟨q, rfl, hq1, by omega, ?_, ?_, ?_⟩
    · omega
    · omega
    · intro htie; omega
  · rw [if_neg hlow]
    by_cases htie : 2 * r = p ∧ q % 2 = 0
    · rw [if_pos htie]
      refine ⟨q, rfl, hq1, by omega, ?_, ?_, ?_⟩
      · omega
      · omega
      · intro _; exact htie.2
    · rw [if_neg htie]
      have hexp : (q + 1) * p = q * p + p := by ring
      refine ⟨q + 1, rfl, by omega, by omega, ?_, ?_, ?_⟩
      · omega
      · omega
      · intro htie2
        have : ¬ q % 2 = 0 := fun h => htie ⟨htie2, h⟩
        omega

theorem bitLength_le_iff (m k : Nat) : bitLength m ≤ k ↔ m < 2 ^ k := by
  constructor
  · intro h
    by_cases h0 : m = 0
    · rw [h0]
      exact Nat.pos_pow_of_pos k (by decide)
    · have hbits := (bitLengthAux_bounds m m (Nat.le_refl m) h0).2
      exact Nat.lt_of_lt_of_le hbits (Nat.pow_le_pow_right (by decide) h)
  · exact bitLengthAux_le m m k

/-- The Number value of an integer is an infinity exactly when the rounded
magnitude reaches `2 ^ 1024`. -/
theorem toNumber_infinity_iff (n : Int) :
    (∃ negative, toNumber n = .infinity negative) ↔ 2 ^ 1024 ≤ roundToDouble n.natAbs := by
  have hiff := bitLength_le_iff (roundToDouble n.natAbs) 1024
  unfold toNumber
  by_cases hbits : bitLength (roundToDouble n.natAbs) ≤ 1024
  · have hlt := hiff.1 hbits
    simp only [hbits, if_true]
    constructor
    · rintro ⟨negative, h⟩
      cases h
    · intro h
      omega
  · have hge : 2 ^ 1024 ≤ roundToDouble n.natAbs := by
      by_contra hlt
      exact hbits (hiff.2 (by omega))
    simp only [hbits, if_false]
    exact ⟨fun _ => hge, fun _ => ⟨_, rfl⟩⟩

set_option maxRecDepth 100000 in
/-- C24, as stated, fails: the field `9007199254740991` parses to that integer
and the request carries 216172782113783776, which is not 24 times it; the
field `9007199254740993` parses to 9007199254740992 and the request carries
216172782113783808; and for a field of 400 nines the parse is `Infinity` and
the request carries `null`. -/
theorem duration_hours_rounded :
    parseInt "9007199254740991" = .finite 9007199254740991 ∧
    (ManagerDashboard.registerBody
      (ManagerDashboard.handleInputChange "projectDurationDays" "9007199254740991"
        (ManagerDashboard.sampleState "react"))).duration_hours = some 216172782113783776 ∧
    (216172782113783776 : Int) ≠ 24 * 9007199254740991 ∧
    parseInt "9007199254740993" = .finite 9007199254740992 ∧
    (ManagerDashboard.registerBody
      (ManagerDashboard.handleInputChange "projectDurationDays" "9007199254740993"
        (ManagerDashboard.sampleState "react"))).duration_hours = some 216172782113783808 ∧
    parseInt ⟨List.replicate 400 '9'⟩ = .infinity false ∧
    (ManagerDashboard.registerBody
      (ManagerDashboard.handleInputChange "projectDurationDays" ⟨List.replicate 400 '9'⟩
        (ManagerDashboard.sampleState "react"))).duration_hours = none := by
  decide

/-- C24, amended: in the request of `ManagerDashboard`, when the duration
field parses to a non-zero integer `d`, `duration_hours` is `24 * d` rounded to
the nearest double, which is `24 * d` itself whenever `24 * |d|` is at most
`2 ^ 53`; when the field parses to an infinity, `duration_hours` is `null`;
when the field is empty, is not numeric or parses to zero, `duration_hours`
is 168. -/
theorem duration_hours_spec (st : ManagerDashboard.State) :
    (∀ d : Int, parseInt st.formData.projectDurationDays = .finite d → d ≠ 0 →
      24 * d.natAbs ≤ 2 ^ 53 →
      (ManagerDashboard.registerBody st).duration_hours = some (24 * d)) ∧
    (∀ d : Int, parseInt st.formData.projectDurationDays = .finite d → d ≠ 0 →
      (ManagerDashboard.registerBody st).duration_hours = jsonNumber (toNumber (24 * d))) ∧
    (∀ negative : Bool, parseInt st.formData.projectDurationDays = .infinity negative →
      (ManagerDashboard.registerBody st).duration_hours = none) ∧
    (parseInt st.formData.projectDurationDays = .nan →
      (ManagerDashboard.registerBody st).duration_hours = some 168) ∧
    (parseInt st.formData.projectDurationDays = .finite 0 →
      (ManagerDashboard.registerBody st).duration_hours = some 168) ∧
    (st.formData.projectDurationDays = "" →
      (ManagerDashboard.registerBody st).duration_hours = some 168) := by
  have hgeneral : ∀ d : Int, parseInt st.formData.projectDurationDays = .finite d → d ≠ 0 →
      (ManagerDashboard.registerBody st).duration_hours = jsonNumber (toNumber (24 * d)) := by
    intro d hd hne
    simp [ManagerDashboard.registerBody, parseIntOr, hd, hne, JsNumber.mul, Int.mul_comm]
  have h168 : jsonNumber (toNumber (7 * 24)) = some 168 := by decide
  refine ⟨fun d hd hne hsmall => ?_, hgeneral, fun negative hinf => ?_, fun hnan => ?_,
    fun hzero => ?_, fun hempty => ?_⟩
  · have habs : (24 * d).natAbs ≤ 2 ^ 53 := by
      rw [Int.natAbs_mul]
      exact hsmall
    rw [hgeneral d hd hne, toNumber_of_le (24 * d) habs]
    rfl
  · cases negative <;>
      simp [ManagerDashboard.registerBody, parseIntOr, hinf, JsNumber.mul, jsonNumber]
  · simpa [ManagerDashboard.registerBody, parseIntOr, hnan, JsNumber.mul] using h168
  · simpa [ManagerDashboard.registerBody, parseIntOr, hzero, JsNumber.mul] using h168
  · have hnan : parseInt st.formData.projectDurationDays = .nan := by rw [hempty]; decide
    simpa [ManagerDashboard.registerBody, parseIntOr, hnan, JsNumber.mul] using h168

set_option maxRecDepth 100000 in
/-- Witness of C24 amended: 14 days, the field `9007199254740991`, a field of
400 nines, the words `two weeks`, zero days and the default field `"7"` of the
sample dashboard. -/
theorem duration_hours_spec_witness :
    (ManagerDashboard.registerBody
      (ManagerDashboard.handleInputChange "projectDurationDays" "14"
        (ManagerDashboard.sampleState "react"))).duration_hours = some (24 * 14) ∧
    (ManagerDashboard.registerBody
      (ManagerDashboard.handleInputChange "projectDurationDays" "9007199254740991"
        (ManagerDashboard.sampleState "react"))).duration_hours =
      jsonNumber (toNumber (24 * 9007199254740991)) ∧
    (ManagerDashboard.registerBody
      (ManagerDashboard.handleInputChange "projectDurationDays" ⟨List.replicate 400 '9'⟩
        (ManagerDashboard.sampleState "react"))).duration_hours = none ∧
    (ManagerDashboard.registerBody
      (ManagerDashboard.handleInputChange "projectDurationDays" "two weeks"
        (ManagerDashboard.sampleState "react"))).duration_hours = some 168 ∧
    (ManagerDashboard.registerBody
      (ManagerDashboard.handleInputChange "projectDurationDays" "0"
        (ManagerDashboard.sampleState "react"))).duration_hours = some 168 ∧
    (ManagerDashboard.registerBody (ManagerDashboard.sampleState "react")).duration_hours =
      some (24 * 7) :=
  ⟨(duration_hours_spec (ManagerDashboard.handleInputChange "projectDurationDays" "14"
      (ManagerDashboard.sampleState "react"))).1 14 (by decide) (by decide) (by decide),
   (duration_hours_spec (ManagerDashboard.handleInputChange "projectDurationDays"
      "9007199254740991" (ManagerDashboard.sampleState "react"))).2.1 9007199254740991
      (by decide) (by decide),
   (duration_hours_spec (ManagerDashboard.handleInputChange "projectDurationDays"
      ⟨List.replicate 400 '9'⟩ (ManagerDashboard.sampleState "react"))).2.2.1 false (by decide),
   (duration_hours_spec (ManagerDashboard.handleInputChange "projectDurationDays" "two weeks"
      (ManagerDashboard.sampleState "react"))).2.2.2.1 (by decide),
   (duration_hours_spec (ManagerDashboard.handleInputChange "projectDurationDays" "0"
      (ManagerDashboard.sampleState "react"))).2.2.2.2.1 (by decide),
   (duration_hours_spec (ManagerDashboard.sampleState "react")).1 7 (by decide) (by decide)
      (by decide)⟩

/-! ## Empty query token -/

/-- C26: `getTokenFromUrl` treats an empty query token like a missing one: when
the query string carries `token` with the empty value, the result is the route
parameter, which is usable if it is non-empty and falsy otherwise; so the
resolver returns a usable (truthy) token if and only if the query token or the
route parameter is a non-empty string. -/
theorem getTokenFromUrl_empty_like_missing (env : Env) :
    (searchParamsGet env.search "token" = some "" → getTokenFromUrl env = env.memberId) ∧
    (searchParamsGet env.search "token" = some "" →
      (∀ route, env.memberId = some route → route ≠ "" → getTokenFromUrl env = some route) ∧
      ((env.memberId = none ∨ env.memberId = some "") → truthy (getTokenFromUrl env) = false)) ∧
    (truthy (getTokenFromUrl env) = true ↔
      (∃ t, searchParamsGet env.search "token" = some t ∧ t ≠ "") ∨
      (∃ route, env.memberId = some route ∧ route ≠ "")) := by
  have hempty : searchParamsGet env.search "token" = some "" →
      getTokenFromUrl env = env.memberId := by
    intro hq
    simp [getTokenFromUrl, hq, truthyString]
  refine ⟨hempty, fun hq => ⟨fun route hr _ => by rw [hempty hq, hr], fun hr => ?_⟩, ?_⟩
  · rw [hempty hq]
    rcases hr with h | h <;> rw [h] <;> rfl
  · have hroute : truthy env.memberId = true ↔ ∃ route, env.memberId = some route ∧ route ≠ "" := by
      cases hm : env.memberId with
      | none => simp [truthy]
      | some r => simp [truthy, truthyString_iff]
    cases hq : searchParamsGet env.search "token" with
    | none => simp [getTokenFromUrl, hq, hroute]
    | some t =>
      by_cases ht : t = ""
      · subst ht
        rw [hempty hq, hroute]
        simp
      · have htr : truthyString t = true := (truthyString_iff t).2 ht
        simp [getTokenFromUrl, hq, htr, truthy, ht]

/-- Witness of C26: `/chat/abc?token=` resolves to `abc`, and `/chat?token=`
resolves to nothing usable. -/
theorem getTokenFromUrl_empty_like_missing_witness :
    getTokenFromUrl (MemberChatWrapper "localhost" [("token", "")] "abc") = some "abc" ∧
    truthy (getTokenFromUrl (TokenBasedChat "localhost" [("token", "")])) = false :=
  ⟨((getTokenFromUrl_empty_like_missing
      (MemberChatWrapper "localhost" [("token", "")] "abc")).2.1 (by decide)).1 "abc" rfl
      (by decide),
   ((getTokenFromUrl_empty_like_missing
      (TokenBasedChat "localhost" [("token", "")])).2.1 (by decide)).2 (Or.inr (by decide))⟩

/-! ## Links for token lists of any length -/

theorem rosterLink_take (origin : String) (t : List TokenData) (bound index : Nat)
    (member : RosterMember) (h : index < bound) :
    rosterLink origin (t.take (bound + 1)) index member = rosterLink origin t index member := by
  have hget : (t.take (bound + 1))[index + 1]? = t[index + 1]? := by
    rw [List.getElem?_take]
    simp [h]
  simp [rosterLink, hget]

theorem enum_map_congr_index {α β : Type} (l : List α) (f g : Nat → α → β)
    (h : ∀ i, i < l.length → ∀ a, f i a = g i a) :
    (l.enum.map fun p => f p.1 p.2) = l.enum.map fun p => g p.1 p.2 := by
  apply List.map_congr_left
  intro p hp
  obtain ⟨i, a⟩ := p
  have hi : i < l.length := by
    have := List.mem_enum hp
    simp at this
    obtain ⟨hlt, -⟩ := this
    exact hlt
  exact h i hi a

/-- C27, as stated, fails: a roster entry with the role `Dev` whose token entry
exists with an empty token gets the placeholder link but the role of the token
entry, not its own role. -/
theorem rosterLink_empty_token_role :
    sampleStateWithRole.members.map RosterMember.role = ["Dev"] ∧
    ManagerDashboard.allLinks "https://app.example" sampleStateWithRole
        [⟨"T0", "Manager"⟩, ⟨"", "Member"⟩] =
      [{ memberId := .label "manager", memberName := "Dhairyashil Shinde", role := "Manager"
         link := "https://app.example/chat?token=T0" },
       { memberId := .number 1, memberName := "Aman", role := "Member", link := "#" }] := by
  decide

/-- C27, amended: for every roster `r` and every token list `t` of any length,
`generateMemberLinks` emits one link entry per roster entry, in roster order,
preceded by one manager entry exactly when `t[0]` exists; a roster entry
`r[i]` whose `t[i + 1]` is missing gets the link `"#"` and keeps its own role;
one whose `t[i + 1]` exists with an empty token gets the link `"#"` and the
role of `t[i + 1]`; and tokens beyond index `length(r)` are ignored. -/
theorem links_any_token_list (origin : String) (st : ManagerDashboard.State)
    (t : List TokenData) :
    (t = [] →
      ManagerDashboard.allLinks origin st t =
        st.members.enum.map fun p => rosterLink origin t p.1 p.2) ∧
    (∀ td0, t[0]? = some td0 →
      ManagerDashboard.allLinks origin st t =
        { memberId := .label "manager", memberName := st.formData.managerName, role := "Manager"
          link := origin ++ "/chat?token=" ++ td0.token } ::
        st.members.enum.map fun p => rosterLink origin t p.1 p.2) ∧
    ((st.members.enum.map fun p => rosterLink origin t p.1 p.2).map MemberLink.memberId =
      st.members.map fun member => LinkId.number member.id) ∧
    (∀ (i : Nat) (member : RosterMember), t[i + 1]? = none →
      (rosterLink origin t i member).link = "#" ∧
      (rosterLink origin t i member).role = member.role) ∧
    (∀ (i : Nat) (member : RosterMember) (td : TokenData), t[i + 1]? = some td →
      td.token = "" →
      (rosterLink origin t i member).link = "#" ∧
      (rosterLink origin t i member).role = td.role) ∧
    ManagerDashboard.allLinks origin st (t.take (st.members.length + 1)) =
      ManagerDashboard.allLinks origin st t := by
  refine ⟨fun hnil => ?_, fun td0 h0 => allLinks_of_manager origin st t td0 h0, ?_,
    fun i member hnone => ?_, fun i member td hsome hempty => ?_, ?_⟩
  · subst hnil
    simp [ManagerDashboard.allLinks]
  · rw [List.map_map]
    have : (MemberLink.memberId ∘ fun p : Nat × RosterMember => rosterLink origin t p.1 p.2) =
        (fun member : RosterMember => LinkId.number member.id) ∘ Prod.snd := by
      funext p
      simp [rosterLink]
    rw [this, ← List.map_map, List.enum_map_snd]
  · simp [rosterLink, hnone]
  · simp [rosterLink, hsome, hempty, truthyString]
  · have h0 : (t.take (st.members.length + 1))[0]? = t[0]? := by
      rw [List.getElem?_take]
      simp
    have hroster : (st.members.enum.map fun p =>
          rosterLink origin (t.take (st.members.length + 1)) p.1 p.2) =
        st.members.enum.map fun p => rosterLink origin t p.1 p.2 :=
      enum_map_congr_index st.members _ _
        (fun i hi a => rosterLink_take origin t st.members.length i a hi)
    simp only [ManagerDashboard.allLinks, h0, hroster]

/-- Witness of C27 amended: with the token list cut after the manager, the
roster entry of the sample dashboard gets `"#"` and keeps its role `Dev`. -/
theorem links_any_token_list_witness :
    (rosterLink "https://app.example" [⟨"T0", "Manager"⟩] 0
        { id := 1, name := "Aman", email := "aman@agrimater.com", phone := "", role := "Dev"
          skills := .text "react" }).link = "#" ∧
    (rosterLink "https://app.example" [⟨"T0", "Manager"⟩] 0
        { id := 1, name := "Aman", email := "aman@agrimater.com", phone := "", role := "Dev"
          skills := .text "react" }).role =
      ({ id := 1, name := "Aman", email := "aman@agrimater.com", phone := "", role := "Dev"
         skills := .text "react" } : RosterMember).role :=
  (links_any_token_list "https://app.example" sampleStateWithRole [⟨"T0", "Manager"⟩]).2.2.2.1 0
    { id := 1, name := "Aman", email := "aman@agrimater.com", phone := "", role := "Dev"
      skills := .text "react" } (by decide)

/-! ## The two link generators -/

/-- C28: for a dashboard and a registration form with the same roster and the
same manager / leader name, and for every token list, the two
`generateMemberLinks` produce lists of the same length whose entries have,
position by position, the same `memberName` and the same `link`; without a
first token the lists are equal, and with one they have the same entries after
the first, whose `memberId` and `role` are `manager` / `Manager` in the
dashboard and `leader` / `Team Leader` in the form. -/
theorem link_generators_agree (origin : String) (dashboard : ManagerDashboard.State)
    (form : TeamRegistrationForm.State) (t : List TokenData)
    (hroster : dashboard.members = form.members)
    (hname : dashboard.formData.managerName = form.formData.teamLeaderName) :
    (ManagerDashboard.allLinks origin dashboard t).length =
      (TeamRegistrationForm.allLinks origin form t).length ∧
    (ManagerDashboard.allLinks origin dashboard t).map MemberLink.memberName =
      (TeamRegistrationForm.allLinks origin form t).map MemberLink.memberName ∧
    (ManagerDashboard.allLinks origin dashboard t).map MemberLink.link =
      (TeamRegistrationForm.allLinks origin form t).map MemberLink.link ∧
    (t = [] →
      ManagerDashboard.allLinks origin dashboard t = TeamRegistrationForm.allLinks origin form t) ∧
    (∀ td0, t[0]? = some td0 →
      ∃ rest,
        ManagerDashboard.allLinks origin dashboard t =
          { memberId := .label "manager", memberName := dashboard.formData.managerName
            role := "Manager", link := origin ++ "/chat?token=" ++ td0.token } :: rest ∧
        TeamRegistrationForm.allLinks origin form t =
          { memberId := .label "leader", memberName := dashboard.formData.managerName
            role := "Team Leader", link := origin ++ "/chat?token=" ++ td0.token } :: rest) := by
  cases h0 : t[0]? with
  | none =>
    simp [ManagerDashboard.allLinks, TeamRegistrationForm.allLinks, h0, hroster]
  | some td0 =>
    have hne : t ≠ [] := by
      intro h
      rw [h] at h0
      cases h0
    simp [ManagerDashboard.allLinks, TeamRegistrationForm.allLinks, h0, hroster, hname,
      generateMemberLink, hne]

/-- Witness of C28: the sample dashboard and the sample registration form with
the tokens `T0` and `T1`. -/
theorem link_generators_agree_witness :
    (ManagerDashboard.allLinks "https://app.example" (ManagerDashboard.sampleState "react")
        [⟨"T0", "Manager"⟩, ⟨"T1", "Dev"⟩]).map MemberLink.link =
      (TeamRegistrationForm.allLinks "https://app.example" sampleTeamForm
        [⟨"T0", "Manager"⟩, ⟨"T1", "Dev"⟩]).map MemberLink.link :=
  (link_generators_agree "https://app.example" (ManagerDashboard.sampleState "react")
    sampleTeamForm [⟨"T0", "Manager"⟩, ⟨"T1", "Dev"⟩] (by decide) (by decide)).2.2.1

/-! ## Roster ids and member edits -/

theorem resizeMembers_cases (r : List RosterMember) (value : String) :
    (∃ k, resizeMembers r value = r.take k) ∨
      ∃ m, resizeMembers r value =
        r ++ (List.range m).map fun k => blankMember (r.length + k + 1) := by
  unfold resizeMembers
  generalize parseIntOr value 1 = parsed
  cases parsed with
  | nan => exact Or.inl ⟨r.length, (List.take_length r).symm⟩
  | infinity negative =>
    cases negative
    · exact Or.inl ⟨r.length, (List.take_length r).symm⟩
    · exact Or.inl ⟨0, (List.take_zero r).symm⟩
  | finite num =>
    simp only []
    rcases Int.lt_or_le num 0 with hneg | hpos
    · have htoNat : num.toNat = 0 := Int.toNat_eq_zero.2 (Int.le_of_lt hneg)
      have hcond : ((r.length : Int) > num) := by omega
      left
      simp only [htoNat, growMembers, if_pos hcond, spliceFrom]
      exact ⟨_, rfl⟩
    · obtain ⟨n, rfl⟩ := Int.eq_ofNat_of_zero_le hpos
      simp only [Int.toNat_ofNat]
      rw [growMembers_eq]
      by_cases hlt : n < r.length
      · left
        have h0 : min n (n - r.length) = 0 := by omega
        have hcond : ((r.length : Int) > (n : Int)) := by exact_mod_cast hlt
        simp only [h0, List.range_zero, List.map_nil, List.append_nil, if_pos hcond, spliceFrom]
        exact ⟨_, rfl⟩
      · right
        have hmin : min n (n - r.length) = n - r.length := by omega
        have hlen : ¬ (((r ++ (List.range (n - r.length)).map
            fun k => blankMember (r.length + k + 1)).length : Int) > (n : Int)) := by
          simp only [List.length_append, List.length_map, List.length_range]
          omega
        rw [hmin, if_neg hlen]
        exact ⟨_, rfl⟩

theorem rosterIds_take (r : List RosterMember) (k : Nat) (h : RosterIds r) :
    RosterIds (r.take k) := by
  unfold RosterIds at *
  rw [List.map_take, h, List.length_take, List.range'_eq_map_range, ← List.map_take,
    List.take_range, List.range'_eq_map_range]

theorem rosterIds_append_blank (r : List RosterMember) (m : Nat) (h : RosterIds r) :
    RosterIds (r ++ (List.range m).map fun k => blankMember (r.length + k + 1)) := by
  unfold RosterIds at *
  have hblank : ((List.range m).map fun k => blankMember (r.length + k + 1)).map RosterMember.id =
      List.range' (1 + r.length) m := by
    rw [List.range'_eq_map_range, List.map_map]
    apply List.map_congr_left
    intro k _
    simp only [Function.comp_apply, blankMember]
    omega
  rw [List.map_append, h, hblank, List.range'_append_1]
  simp [Nat.add_comm]

theorem setMemberField_id (member : RosterMember) (field value : String) :
    (setMemberField member field value).id = member.id := by
  unfold setMemberField
  repeat' split
  all_goals rfl

theorem handleMemberChange_ids (memberId : Nat) (field value : String)
    (r : List RosterMember) :
    (handleMemberChange memberId field value r).map RosterMember.id = r.map RosterMember.id := by
  unfold handleMemberChange
  rw [List.map_map]
  apply List.map_congr_left
  intro member _
  simp only [Function.comp_apply]
  split
  · exact setMemberField_id member field value
  · rfl

theorem rosterIds_applyRosterEvent (ev : RosterEvent) (r : List RosterMember)
    (h : RosterIds r) : RosterIds (applyRosterEvent ev r) := by
  cases ev with
  | countChanged value =>
    simp only [applyRosterEvent]
    rcases resizeMembers_cases r value with ⟨k, hk⟩ | ⟨m, hm⟩
    · rw [hk]; exact rosterIds_take r k h
    · rw [hm]; exact rosterIds_append_blank r m h
  | memberChanged memberId field value =>
    simp only [applyRosterEvent]
    unfold RosterIds at *
    rw [handleMemberChange_ids]
    simpa [handleMemberChange] using h

theorem rosterIds_runRoster (evs : List RosterEvent) :
    ∀ r : List RosterMember, RosterIds r → RosterIds (runRoster evs r) := by
  induction evs with
  | nil => intro r h; exact h
  | cons ev evs ih => intro r h; exact ih _ (rosterIds_applyRosterEvent ev r h)

theorem rosterIds_getElem? (r : List RosterMember) (h : RosterIds r) (i : Nat)
    (m : RosterMember) (hm : r[i]? = some m) : m.id = i + 1 := by
  have hlt : i < r.length := by
    rcases Nat.lt_or_ge i r.length with hlt | hge
    · exact hlt
    · rw [List.getElem?_eq_none hge] at hm; cases hm
  have h1 : (r.map RosterMember.id)[i]? = some m.id := by simp [hm]
  rw [h, List.getElem?_range' 1 1 hlt] at h1
  have h2 := Option.some.inj h1
  omega

/-- C29: in every roster reachable from the empty roster by member-count
changes and by `handleMemberChange` calls on keys other than `id`, the entry
at position `i` has id `i + 1`, so ids are pairwise distinct; and
`handleMemberChange(id, field, value)` returns a roster of the same length in
which an entry with that id (there is at most one) has the field set to the
value and its other fields unchanged, every other entry is unchanged, and the
roster is returned unchanged when no entry has that id.  Edits of the key
`id` are outside the model of `setMemberField`, hence the hypothesis. -/
theorem roster_ids_and_member_change (evs : List RosterEvent)
    (_hkeys : ∀ ev ∈ evs, ev.editsId = false) :
    (∀ (i : Nat) (m : RosterMember), (runRoster evs [])[i]? = some m → m.id = i + 1) ∧
    ((runRoster evs []).map RosterMember.id).Nodup ∧
    (∀ (memberId : Nat) (field value : String),
      (handleMemberChange memberId field value (runRoster evs [])).length =
        (runRoster evs []).length ∧
      (∀ (i : Nat) (m : RosterMember), (runRoster evs [])[i]? = some m →
        (handleMemberChange memberId field value (runRoster evs []))[i]? =
          some (if m.id = memberId then setMemberField m field value else m)) ∧
      (∀ (i j : Nat) (m m' : RosterMember), (runRoster evs [])[i]? = some m →
        (runRoster evs [])[j]? = some m' → m.id = memberId → m'.id = memberId → i = j) ∧
      ((∀ m ∈ runRoster evs [], m.id ≠ memberId) →
        handleMemberChange memberId field value (runRoster evs []) = runRoster evs [])) ∧
    (∀ (m : RosterMember) (value : String),
      setMemberField m "name" value = { m with name := value } ∧
      setMemberField m "email" value = { m with email := value } ∧
      setMemberField m "phone" value = { m with phone := value } ∧
      setMemberField m "role" value = { m with role := value } ∧
      setMemberField m "skills" value = { m with skills := .text value }) := by
  have hids : RosterIds (runRoster evs []) := rosterIds_runRoster evs [] (by simp [RosterIds])
  refine ⟨rosterIds_getElem? _ hids, ?_, fun memberId field value => ⟨?_, ?_, ?_, ?_⟩, ?_⟩
  · rw [hids]; exact List.nodup_range' 1 _
  · simp [handleMemberChange]
  · intro i m hm
    simp [handleMemberChange, List.getElem?_map, hm]
  · intro i j m m' hm hm' hid hid'
    have h1 := rosterIds_getElem? _ hids i m hm
    have h2 := rosterIds_getElem? _ hids j m' hm'
    omega
  · intro hnone
    unfold handleMemberChange
    conv_rhs => rw [← List.map_id (runRoster evs [])]
    apply List.map_congr_left
    intro m hm
    simp [hnone m hm]
  · intro m value
    simp [setMemberField]

/-- Witness of C29: the count goes to 3, entry 2 gets a name, the count goes
to 2; entry 2 then gets an email. -/
theorem roster_ids_and_member_change_witness :
    (handleMemberChange 2 "email" "b@agrimater.com"
        (runRoster [.countChanged "3", .memberChanged 2 "name" "Bina", .countChanged "2"] []))[1]? =
      some (if (blankMember 2).id = 2 then
        setMemberField { blankMember 2 with name := "Bina" } "email" "b@agrimater.com"
      else { blankMember 2 with name := "Bina" }) :=
  ((roster_ids_and_member_change
      [.countChanged "3", .memberChanged 2 "name" "Bina", .countChanged "2"]
      (by decide)).2.2.1 2 "email" "b@agrimater.com").2.1 1
    { blankMember 2 with name := "Bina" } (by decide)

/-! ## Declared member count -/

/-- C30 does not hold of the code: in the first render of either form the
declared count is 1 and the roster is empty, and after `0` is typed into the
count input of `TeamRegistrationForm` (whose input allows it) the declared
count is 0 and the roster has one entry, because `parseInt("0") || 1` is 1. -/
theorem roster_length_differs_from_declared_count :
    parseInt ManagerDashboard.initialState.formData.numberOfMembers = .finite 1 ∧
    ManagerDashboard.initialState.members.length = 0 ∧
    parseInt TeamRegistrationForm.initialState.formData.numberOfMembers = .finite 1 ∧
    TeamRegistrationForm.initialState.members.length = 0 ∧
    parseInt (TeamRegistrationForm.runForm [.inputChanged "numberOfMembers" "0"]
      TeamRegistrationForm.initialState).formData.numberOfMembers = .finite 0 ∧
    (TeamRegistrationForm.runForm [.inputChanged "numberOfMembers" "0"]
      TeamRegistrationForm.initialState).members.length = 1 ∧
    parseInt (TeamRegistrationForm.runForm
      [.inputChanged "numberOfMembers" "3", .inputChanged "numberOfMembers" "0"]
      TeamRegistrationForm.initialState).formData.numberOfMembers = .finite 0 ∧
    (TeamRegistrationForm.runForm
      [.inputChanged "numberOfMembers" "3", .inputChanged "numberOfMembers" "0"]
      TeamRegistrationForm.initialState).members.length = 1 := by
  decide

/-! ## Timer thresholds -/

theorem tick_keeps_warning_off (isActive : Bool) (s : HackathonTimer.State)
    (htime : s.timeLeft ≤ 7200) (hflag : s.isWarning = false) :
    (HackathonTimer.tick isActive s).timeLeft ≤ 7200 ∧
      (HackathonTimer.tick isActive s).isWarning = false := by
  have hne : ¬ (s.timeLeft - 1 = 2 * 3600 ∧ s.isWarning = false) := by
    intro h
    omega
  by_cases hidle : (!isActive || s.isCompleted) = true
  · simp only [HackathonTimer.tick, hidle, if_true]
    exact ⟨htime, hflag⟩
  · by_cases hdone : s.timeLeft - 1 ≤ 0
    · simp only [HackathonTimer.tick, hidle, hdone, hne, if_true, if_false, Bool.false_eq_true]
      exact ⟨by omega, hflag⟩
    · simp only [HackathonTimer.tick, hidle, hdone, hne, if_false, Bool.false_eq_true]
      exact ⟨by omega, hflag⟩

theorem tick_keeps_critical_off (isActive : Bool) (s : HackathonTimer.State)
    (htime : s.timeLeft ≤ 3600) (hflag : s.isCritical = false) :
    (HackathonTimer.tick isActive s).timeLeft ≤ 3600 ∧
      (HackathonTimer.tick isActive s).isCritical = false := by
  have hne : ¬ (s.timeLeft - 1 = 1 * 3600 ∧ s.isCritical = false) := by
    intro h
    omega
  by_cases hidle : (!isActive || s.isCompleted) = true
  · simp only [HackathonTimer.tick, hidle, if_true]
    exact ⟨htime, hflag⟩
  · by_cases hdone : s.timeLeft - 1 ≤ 0
    · simp only [HackathonTimer.tick, hidle, hdone, hne, if_true, if_false, Bool.false_eq_true]
      exact ⟨by omega, hflag⟩
    · simp only [HackathonTimer.tick, hidle, hdone, hne, if_false, Bool.false_eq_true]
      exact ⟨by omega, hflag⟩

theorem ticks_keep_warning_off (isActive : Bool) (n : Nat) :
    ∀ s : HackathonTimer.State, s.timeLeft ≤ 7200 → s.isWarning = false →
      (HackathonTimer.ticks isActive n s).isWarning = false := by
  induction n with
  | zero => intro s _ h; exact h
  | succ n ih =>
    intro s htime hflag
    have h := tick_keeps_warning_off isActive s htime hflag
    exact ih _ h.1 h.2

theorem ticks_keep_critical_off (isActive : Bool) (n : Nat) :
    ∀ s : HackathonTimer.State, s.timeLeft ≤ 3600 → s.isCritical = false →
      (HackathonTimer.ticks isActive n s).isCritical = false := by
  induction n with
  | zero => intro s _ h; exact h
  | succ n ih =>
    intro s htime hflag
    have h := tick_keeps_critical_off isActive s htime hflag
    exact ih _ h.1 h.2

/-- C25 does not hold of the code: a timer started with 2 hours never sets
`isWarning`, and a timer started with 1 hour never sets `isCritical` (nor
`isWarning`), because the flags are raised only on the tick that lands exactly
on 7200 or 3600 seconds; after one tick the first has 7199 seconds left and
the second 3599, with the flags still off. -/
theorem timer_started_at_threshold_never_flags (n : Nat) :
    (HackathonTimer.ticks true n (HackathonTimer.initialState 2)).isWarning = false ∧
    (HackathonTimer.ticks true n (HackathonTimer.initialState 1)).isCritical = false ∧
    (HackathonTimer.ticks true n (HackathonTimer.initialState 1)).isWarning = false ∧
    (HackathonTimer.ticks true 1 (HackathonTimer.initialState 2)) =
      { timeLeft := 7199, isWarning := false, isCritical := false, isCompleted := false } ∧
    (HackathonTimer.ticks true 1 (HackathonTimer.initialState 1)) =
      { timeLeft := 3599, isWarning := false, isCritical := false, isCompleted := false } :=
  ⟨ticks_keep_warning_off true n _ (by decide) rfl,
   ticks_keep_critical_off true n _ (by decide) rfl,
   ticks_keep_warning_off true n _ (by decide) rfl,
   by decide, by decide⟩

/-- Where the thresholds do work: a state with more than 7200 seconds left, or
with `isWarning` set, and with more than 3600 seconds left, or with
`isCritical` set, keeps that property on every tick; a timer started with 3
hours or more starts in such a state. -/
theorem tick_keeps_thresholds (isActive : Bool) (s : HackathonTimer.State)
    (hwarning : 7200 < s.timeLeft ∨ s.isWarning = true)
    (hcritical : 3600 < s.timeLeft ∨ s.isCritical = true) :
    (7200 < (HackathonTimer.tick isActive s).timeLeft ∨
      (HackathonTimer.tick isActive s).isWarning = true) ∧
    (3600 < (HackathonTimer.tick isActive s).timeLeft ∨
      (HackathonTimer.tick isActive s).isCritical = true) := by
  have hw : (if s.timeLeft - 1 = 2 * 3600 ∧ s.isWarning = false then true else s.isWarning)
      = true ∨ 7200 < s.timeLeft - 1 := by
    rcases hwarning with h | h
    · by_cases heq : s.timeLeft - 1 = 2 * 3600
      · cases hf : s.isWarning <;> simp [heq, hf]
      · right; omega
    · left; simp [h]
  have hc : (if s.timeLeft - 1 = 1 * 3600 ∧ s.isCritical = false then true else s.isCritical)
      = true ∨ 3600 < s.timeLeft - 1 := by
    rcases hcritical with h | h
    · by_cases heq : s.timeLeft - 1 = 1 * 3600
      · cases hf : s.isCritical <;> simp [heq, hf]
      · right; omega
    · left; simp [h]
  by_cases hidle : (!isActive || s.isCompleted) = true
  · simp only [HackathonTimer.tick, hidle, if_true]
    exact ⟨hwarning, hcritical⟩
  · by_cases hdone : s.timeLeft - 1 ≤ 0
    · simp only [HackathonTimer.tick, hidle, hdone, if_true, if_false, Bool.false_eq_true]
      refine ⟨?_, ?_⟩
      · rcases hw with h | h
        · exact Or.inr h
        · omega
      · rcases hc with h | h
        · exact Or.inr h
        · omega
    · simp only [HackathonTimer.tick, hidle, hdone, if_false, Bool.false_eq_true]
      exact ⟨hw.symm, hc.symm⟩

/-! ## From a generated link back to the token -/

theorem dropWhile_of_head_false {α : Type} (p : α → Bool) (a : α) (l : List α)
    (h : p a = false) : (a :: l).dropWhile p = a :: l := by
  simp [List.dropWhile, h]

theorem takeWhile_of_all {α : Type} (p : α → Bool) (l : List α)
    (h : ∀ a ∈ l, p a = true) : l.takeWhile p = l := by
  induction l with
  | nil => rfl
  | cons a as ih =>
    have ha : p a = true := h a (List.mem_cons_self _ _)
    simp [List.takeWhile, ha, ih (fun b hb => h b (List.mem_cons_of_mem _ hb))]

theorem char_ne_of_toNat_ne (c d : Char) (h : c.toNat ≠ d.toNat) : c ≠ d := by
  intro hcd
  exact h (by rw [hcd])

theorem char_toNat_ne_of_ne (c d : Char) (h : c ≠ d) : c.toNat ≠ d.toNat := by
  intro hcd
  apply h
  rw [← Char.ofNat_toNat c, ← Char.ofNat_toNat d, hcd]

/-- The bytes that reach `URLSearchParams` for one code point of the query. -/
theorem utf8Bytes_lt (c : Char) : ∀ b ∈ utf8Bytes c, b < 256 := by
  have hvalid : c.toNat < 0x110000 := by
    have := c.valid
    simp only [Char.toNat, UInt32.isValidChar, Nat.isValidChar] at *
    omega
  intro b hb
  unfold utf8Bytes at hb
  simp only [] at hb
  split at hb
  · simp at hb; omega
  · split at hb
    · simp at hb; omega
    · split at hb
      · simp at hb; omega
      · simp at hb; omega

theorem escape_bytes (b : Nat) (hb : b < 256) :
    (['%', hexDigit (b / 16), hexDigit (b % 16)] : List Char).flatMap utf8Bytes =
      [37, (hexDigit (b / 16)).toNat, (hexDigit (b % 16)).toNat] := by
  have hdigit : ∀ v, v < 16 → utf8Bytes (hexDigit v) = [(hexDigit v).toNat] := by decide
  have h1 := hdigit (b / 16) (by omega)
  have h2 := hdigit (b % 16) (by omega)
  have h0 : utf8Bytes '%' = [37] := by decide
  simp [List.flatMap_cons, h0, h1, h2]

/-- The percent escape of a byte, as bytes. -/
theorem queryEncode_bytes_of_encoded (c : Char) (h : inQueryEncodeSet c = true) :
    (queryEncode c).flatMap utf8Bytes =
      (utf8Bytes c).flatMap fun b => [37, (hexDigit (b / 16)).toNat, (hexDigit (b % 16)).toNat] := by
  unfold queryEncode
  rw [if_pos h]
  have hlt := utf8Bytes_lt c
  generalize utf8Bytes c = bs at hlt
  induction bs with
  | nil => rfl
  | cons b bs ih =>
    have hb := hlt b (List.mem_cons_self _ _)
    have hbs := ih (fun x hx => hlt x (List.mem_cons_of_mem _ hx))
    simp only [List.flatMap_cons, List.flatMap_append, hbs, escape_bytes b hb]

theorem queryEncode_bytes_of_plain (c : Char) (h : inQueryEncodeSet c = false) :
    (queryEncode c).flatMap utf8Bytes = [c.toNat] ∧ utf8Bytes c = [c.toNat] ∧ c.toNat < 128 := by
  have hlt : c.toNat < 128 := by
    simp only [inQueryEncodeSet, Bool.or_eq_false_iff, decide_eq_false_iff_not] at h
    omega
  have hbytes : utf8Bytes c = [c.toNat] := by simp [utf8Bytes, hlt]
  refine ⟨?_, hbytes, hlt⟩
  unfold queryEncode
  simp [h, hbytes]

theorem percentDecode_cons_of_ne (b : Nat) (rest : List Nat) (h : b ≠ 37) :
    percentDecode (b :: rest) = b :: percentDecode rest := by
  cases rest with
  | nil => simp [percentDecode]
  | cons x rest1 =>
    cases rest1 with
    | nil => simp [percentDecode]
    | cons y rest2 => simp [percentDecode, h]

theorem percentDecode_escape (x y : Nat) (hx : x < 16) (hy : y < 16) (rest : List Nat) :
    percentDecode (37 :: (hexDigit x).toNat :: (hexDigit y).toNat :: rest) =
      (16 * x + y) :: percentDecode rest := by
  have hval : ∀ v, v < 16 → hexValue (hexDigit v).toNat = some v := by decide
  simp [percentDecode, hval x hx, hval y hy]

theorem percentDecode_escapes (bs : List Nat) (rest : List Nat) (hlt : ∀ b ∈ bs, b < 256) :
    percentDecode
        ((bs.flatMap fun b => [37, (hexDigit (b / 16)).toNat, (hexDigit (b % 16)).toNat]) ++ rest) =
      bs ++ percentDecode rest := by
  induction bs with
  | nil => rfl
  | cons b bs ih =>
    have hb := hlt b (List.mem_cons_self _ _)
    have hbs := ih (fun x hx => hlt x (List.mem_cons_of_mem _ hx))
    simp only [List.flatMap_cons, List.cons_append, List.nil_append, List.append_assoc]
    rw [percentDecode_escape (b / 16) (b % 16) (by omega) (by omega), hbs]
    congr 1
    omega

/-- A `%` that is not followed by two hexadecimal digits stays. -/
theorem percentDecode_percent (bs : List Nat)
    (h : ∀ x y rest, bs = x :: y :: rest → hexValue x = none ∨ hexValue y = none) :
    percentDecode (37 :: bs) = 37 :: percentDecode bs := by
  cases bs with
  | nil => simp [percentDecode]
  | cons x bs1 =>
    cases bs1 with
    | nil => simp [percentDecode]
    | cons y rest =>
      rcases h x y rest rfl with hx | hy
      · simp [percentDecode, hx]
      · cases hvx : hexValue x <;> simp [percentDecode, hy, hvx]

theorem dropWhile_append_of_head_false {α : Type} (p : α → Bool) (l1 l2 : List α) (a : α)
    (h2 : l2.head? = some a) (ha : p a = false) :
    (l1 ++ l2).dropWhile p = l1.dropWhile p ++ l2 := by
  induction l1 with
  | nil =>
    cases l2 with
    | nil => simp at h2
    | cons b bs =>
      simp only [List.head?_cons, Option.some.injEq] at h2
      subst h2
      simp [List.dropWhile, ha]
  | cons x xs ih =>
    by_cases hx : p x = true
    · simp [List.dropWhile, hx, ih]
    · simp [List.dropWhile, hx]

/-- The query of the URL record of a generated link, for any token. -/
theorem urlQuery_link (origin token : List Char)
    (horigin : ∀ c ∈ origin, isOriginChar c = true) :
    urlQuery (origin ++ ['/', 'c', 'h', 'a', 't', '?', 't', 'o', 'k', 'e', 'n', '='] ++ token) =
      ['t', 'o', 'k', 'e', 'n', '='] ++ (tokenInUrl token).flatMap queryEncode := by
  have hfix : ∀ c ∈ ['/', 'c', 'h', 'a', 't', '?', 't', 'o', 'k', 'e', 'n', '='],
      0x20 < c.toNat ∧ c ≠ '#' := by decide
  have horigin1 : ∀ c ∈ origin, 0x20 < c.toNat ∧ c ≠ '?' ∧ c ≠ '#' := by
    intro c hc
    have := horigin c hc
    simp only [isOriginChar, Bool.and_eq_true, decide_eq_true_eq, bne_iff_ne] at this
    exact ⟨this.1.1, this.1.2, this.2⟩
  have hpre : ∀ c ∈ origin ++ ['/', 'c', 'h', 'a', 't', '?', 't', 'o', 'k', 'e', 'n', '='],
      0x20 < c.toNat ∧ c ≠ '#' := by
    intro c hc
    rcases List.mem_append.1 hc with h | h
    · exact ⟨(horigin1 c h).1, (horigin1 c h).2.2⟩
    · exact hfix c h
  have hfirst : ∃ first rest, origin ++ ['/', 'c', 'h', 'a', 't', '?', 't', 'o', 'k', 'e', 'n', '='] ++
      token = first :: rest ∧ isC0ControlOrSpace first = false := by
    cases origin with
    | nil => exact ⟨'/', _, rfl, by decide⟩
    | cons a as =>
      refine ⟨a, _, rfl, ?_⟩
      have := (horigin1 a (List.mem_cons_self _ _)).1
      simp [isC0ControlOrSpace]
      omega
  obtain ⟨first, rest, hhref, hfirst1⟩ := hfirst
  have hlead : (origin ++ ['/', 'c', 'h', 'a', 't', '?', 't', 'o', 'k', 'e', 'n', '='] ++
      token).dropWhile isC0ControlOrSpace =
      origin ++ ['/', 'c', 'h', 'a', 't', '?', 't', 'o', 'k', 'e', 'n', '='] ++ token := by
    rw [hhref]
    exact dropWhile_of_head_false _ _ _ hfirst1
  have hrev : (origin ++ ['/', 'c', 'h', 'a', 't', '?', 't', 'o', 'k', 'e', 'n', '='] ++
      token).reverse = token.reverse ++
        ('=' :: (['n', 'e', 'k', 'o', 't', '?', 't', 'a', 'h', 'c', '/'] ++ origin.reverse)) := by
    simp
  have htrim : ((((origin ++ ['/', 'c', 'h', 'a', 't', '?', 't', 'o', 'k', 'e', 'n', '='] ++
      token).dropWhile isC0ControlOrSpace).reverse.dropWhile isC0ControlOrSpace).reverse) =
      origin ++ ['/', 'c', 'h', 'a', 't', '?', 't', 'o', 'k', 'e', 'n', '='] ++
        (token.reverse.dropWhile isC0ControlOrSpace).reverse := by
    rw [hlead, hrev, dropWhile_append_of_head_false isC0ControlOrSpace token.reverse
      ('=' :: (['n', 'e', 'k', 'o', 't', '?', 't', 'a', 'h', 'c', '/'] ++ origin.reverse)) '=' rfl
      (by decide)]
    simp
  have hclean : (origin ++ ['/', 'c', 'h', 'a', 't', '?', 't', 'o', 'k', 'e', 'n', '=']).filter
      (fun c => !isTabOrNewline c) =
      origin ++ ['/', 'c', 'h', 'a', 't', '?', 't', 'o', 'k', 'e', 'n', '='] := by
    rw [List.filter_eq_self]
    intro c hc
    have := (hpre c hc).1
    simp [isTabOrNewline]
    omega
  have hfrag : ∀ c ∈ origin ++ ['/', 'c', 'h', 'a', 't', '?', 't', 'o', 'k', 'e', 'n', '='],
      (c != '#') = true := by
    intro c hc
    simpa using (hpre c hc).2
  have hchat : ∀ c ∈ ['/', 'c', 'h', 'a', 't'], (c != '?') = true := by decide
  have hpath : ∀ c ∈ origin ++ ['/', 'c', 'h', 'a', 't'], (c != '?') = true := by
    intro c hc
    rcases List.mem_append.1 hc with h | h
    · simpa using (horigin1 c h).2.1
    · exact hchat c h
  have hsplit : ∀ tail : List Char,
      origin ++ ['/', 'c', 'h', 'a', 't', '?', 't', 'o', 'k', 'e', 'n', '='] ++ tail =
      (origin ++ ['/', 'c', 'h', 'a', 't']) ++ ('?' :: (['t', 'o', 'k', 'e', 'n', '='] ++ tail)) := by
    intro tail
    simp
  unfold urlQuery
  simp only [htrim]
  rw [List.filter_append, hclean, List.takeWhile_append_of_pos hfrag, hsplit,
    List.dropWhile_append_of_pos hpath]
  simp only [List.dropWhile, bne_self_eq_false, List.drop_one, List.tail_cons, List.flatMap_append]
  congr 1

/-- The bytes for a code point other than `&` hold no `&`. -/
theorem queryEncode_bytes_no_amp (c : Char) (hc : c ≠ '&') :
    ∀ b ∈ (queryEncode c).flatMap utf8Bytes, b ≠ 38 := by
  have hdigit : ∀ v, v < 16 → (hexDigit v).toNat ≠ 38 := by decide
  intro b hb
  by_cases henc : inQueryEncodeSet c = true
  · rw [queryEncode_bytes_of_encoded c henc] at hb
    obtain ⟨x, hx, hin⟩ := List.mem_flatMap.1 hb
    have hlt := utf8Bytes_lt c x hx
    have h1 := hdigit (x / 16) (by omega)
    have h2 := hdigit (x % 16) (by omega)
    simp only [List.mem_cons, List.mem_singleton, List.not_mem_nil, or_false] at hin
    rcases hin with h | h | h
    · omega
    · rw [h]; exact h1
    · rw [h]; exact h2
  · rw [(queryEncode_bytes_of_plain c (by simpa using henc)).1, List.mem_singleton] at hb
    rw [hb]
    exact char_toNat_ne_of_ne c '&' hc

/-- Cutting the bytes of a text at the first `&` is cutting the text there. -/
theorem image_takeWhile (cs : List Char) :
    ((cs.flatMap queryEncode).flatMap utf8Bytes).takeWhile (fun b => b != 38) =
      ((cs.takeWhile fun c => c != '&').flatMap queryEncode).flatMap utf8Bytes := by
  induction cs with
  | nil => rfl
  | cons c cs1 ih =>
    simp only [List.flatMap_cons, List.flatMap_append]
    by_cases hc : c = '&'
    · subst hc
      have himage : (queryEncode '&').flatMap utf8Bytes = [38] := by decide
      rw [himage]
      simp [List.takeWhile]
    · have hall : ∀ b ∈ (queryEncode c).flatMap utf8Bytes, (b != 38) = true := by
        intro b hb
        simpa using queryEncode_bytes_no_amp c hc b hb
      have hkeep : (c != '&') = true := by simpa using hc
      rw [List.takeWhile_append_of_pos hall, ih, List.takeWhile_cons, if_pos hkeep,
        List.flatMap_cons, List.flatMap_append]

theorem splitBytes_head (sep : Nat) (bytes : List Nat) :
    ∃ more, splitBytes sep bytes = (bytes.takeWhile fun b => b != sep) :: more := by
  induction bytes with
  | nil => exact ⟨[], rfl⟩
  | cons b bs ih =>
    obtain ⟨more, hmore⟩ := ih
    by_cases hb : b = sep
    · exact ⟨splitBytes sep bs, by simp [splitBytes, hb, List.takeWhile]⟩
    · have hne : (b != sep) = true := by simpa using hb
      exact ⟨more, by simp [splitBytes, hb, hmore, List.takeWhile, hne]⟩

/-- The parameters behind a generated link, for any token: the first one is
`token`, and its value is decoded from what is left of the token. -/
theorem searchParamsOf_link (origin token : String)
    (horigin : ∀ c ∈ origin.data, isOriginChar c = true) :
    ∃ more, searchParamsOf (locationSearch (generateMemberLink origin token)) =
      ("token", decodeComponent
        (((tokenInQuery token.data).flatMap queryEncode).flatMap utf8Bytes)) :: more := by
  have hdata : (generateMemberLink origin token).data =
      origin.data ++ ['/', 'c', 'h', 'a', 't', '?', 't', 'o', 'k', 'e', 'n', '='] ++ token.data := by
    simp only [generateMemberLink, String.data_append]
  have hquery := urlQuery_link origin.data token.data horigin
  have hsearch : locationSearch (generateMemberLink origin token) =
      ⟨'?' :: (['t', 'o', 'k', 'e', 'n', '='] ++ (tokenInUrl token.data).flatMap queryEncode)⟩ := by
    unfold locationSearch
    rw [hdata, hquery]
    rfl
  have hprefix : (['t', 'o', 'k', 'e', 'n', '='] : List Char).flatMap utf8Bytes =
      [116, 111, 107, 101, 110, 61] := by decide
  have hname : decodeComponent [116, 111, 107, 101, 110] = "token" := by decide
  obtain ⟨more, hmore⟩ := splitBytes_head 38
    ([116, 111, 107, 101, 110, 61] ++ ((tokenInUrl token.data).flatMap queryEncode).flatMap utf8Bytes)
  have hkeep : ∀ b ∈ ([116, 111, 107, 101, 110, 61] : List Nat), (b != 38) = true := by decide
  rw [List.takeWhile_append_of_pos hkeep, image_takeWhile] at hmore
  refine ⟨(more.filter fun piece => !piece.isEmpty).map fun piece =>
    (decodeComponent (piece.takeWhile fun b => b != 61),
     decodeComponent ((piece.dropWhile fun b => b != 61).drop 1)), ?_⟩
  rw [hsearch]
  simp only [searchParamsOf, List.head?_cons, if_true, List.tail_cons, List.flatMap_append, hprefix,
    parseUrlencoded, hmore]
  simp [List.takeWhile, List.dropWhile, hname, tokenInQuery]

/-- The token resolved behind a generated link, for any token. -/
theorem getTokenFromUrl_link (hostname origin token : String)
    (horigin : ∀ c ∈ origin.data, isOriginChar c = true) :
    getTokenFromUrl (followLink hostname (generateMemberLink origin token)) =
      some (decodeComponent (((tokenInQuery token.data).flatMap queryEncode).flatMap utf8Bytes)) := by
  obtain ⟨more, hmore⟩ := searchParamsOf_link origin token horigin
  simp only [followLink, TokenBasedChat, getTokenFromUrl, hmore, searchParamsGet, List.find?_cons]
  simp

theorem utf8DecodeFrom_first (b : Nat) (rest : List Nat) :
    utf8DecodeFrom 0 0 0x80 0xBF (b :: rest) =
      if b < 0x80 then Char.ofNat b :: utf8DecodeFrom 0 0 0x80 0xBF rest
      else if inRange 0xC2 0xDF b then utf8DecodeFrom 1 (b - 0xC0) 0x80 0xBF rest
      else if inRange 0xE0 0xEF b then
        utf8DecodeFrom 2 (b - 0xE0) (if b = 0xE0 then 0xA0 else 0x80)
          (if b = 0xED then 0x9F else 0xBF) rest
      else if inRange 0xF0 0xF4 b then
        utf8DecodeFrom 3 (b - 0xF0) (if b = 0xF0 then 0x90 else 0x80)
          (if b = 0xF4 then 0x8F else 0xBF) rest
      else replacementChar :: utf8DecodeFrom 0 0 0x80 0xBF rest := by
  rw [utf8DecodeFrom]
  simp

theorem utf8DecodeFrom_continue (needed codePoint lower upper b : Nat) (rest : List Nat)
    (hneeded : needed ≠ 0) (hlower : lower ≤ b) (hupper : b ≤ upper) :
    utf8DecodeFrom needed codePoint lower upper (b :: rest) =
      if needed = 1 then
        Char.ofNat (codePoint * 64 + (b - 0x80)) :: utf8DecodeFrom 0 0 0x80 0xBF rest
      else utf8DecodeFrom (needed - 1) (codePoint * 64 + (b - 0x80)) 0x80 0xBF rest := by
  rw [utf8DecodeFrom]
  simp [inRange, hneeded, hlower, hupper]

/-- Decoding the UTF-8 bytes of a code point gives the code point back. -/
theorem utf8DecodeFrom_utf8Bytes (c : Char) (rest : List Nat) :
    utf8DecodeFrom 0 0 0x80 0xBF (utf8Bytes c ++ rest) =
      c :: utf8DecodeFrom 0 0 0x80 0xBF rest := by
  have hvalid : c.toNat < 0xD800 ∨ (0xDFFF < c.toNat ∧ c.toNat < 0x110000) := by
    have := c.valid
    simp only [Char.toNat, UInt32.isValidChar, Nat.isValidChar] at *
    omega
  have hback : ∀ n : Nat, n = c.toNat → Char.ofNat n = c := by
    intro n hn
    rw [hn, Char.ofNat_toNat]
  by_cases h1 : c.toNat < 0x80
  · have hbytes : utf8Bytes c = [c.toNat] := by simp [utf8Bytes, h1]
    rw [hbytes, List.singleton_append, utf8DecodeFrom_first, if_pos h1, hback _ rfl]
  · by_cases h2 : c.toNat < 0x800
    · have hbytes : utf8Bytes c = [0xC0 + c.toNat / 64, 0x80 + c.toNat % 64] := by
        simp [utf8Bytes, h1, h2]
      have hlead : inRange 0xC2 0xDF (0xC0 + c.toNat / 64) = true := by
        simp only [inRange, Bool.and_eq_true, decide_eq_true_eq]
        omega
      rw [hbytes, List.cons_append, List.cons_append, List.nil_append, utf8DecodeFrom_first,
        if_neg (by omega), if_pos hlead,
        utf8DecodeFrom_continue 1 _ 0x80 0xBF _ _ (by decide) (by omega) (by omega), if_pos rfl,
        hback _ (by omega)]
    · by_cases h3 : c.toNat < 0x10000
      · have hbytes : utf8Bytes c =
            [0xE0 + c.toNat / 4096, 0x80 + c.toNat / 64 % 64, 0x80 + c.toNat % 64] := by
          simp [utf8Bytes, h1, h2, h3]
        have hnot2 : inRange 0xC2 0xDF (0xE0 + c.toNat / 4096) = false := by
          simp only [inRange, Bool.and_eq_false_iff, decide_eq_false_iff_not]
          omega
        have hlead : inRange 0xE0 0xEF (0xE0 + c.toNat / 4096) = true := by
          simp only [inRange, Bool.and_eq_true, decide_eq_true_eq]
          omega
        rw [hbytes, List.cons_append, List.cons_append, List.cons_append, List.nil_append,
          utf8DecodeFrom_first, if_neg (by omega), hnot2, if_neg (by decide), if_pos hlead,
          utf8DecodeFrom_continue 2 _ _ _ _ _ (by decide) (by split <;> omega)
            (by split <;> omega),
          if_neg (by decide),
          utf8DecodeFrom_continue 1 _ 0x80 0xBF _ _ (by decide) (by omega) (by omega), if_pos rfl,
          hback _ (by omega)]
      · have hbytes : utf8Bytes c =
            [0xF0 + c.toNat / 262144, 0x80 + c.toNat / 4096 % 64, 0x80 + c.toNat / 64 % 64,
             0x80 + c.toNat % 64] := by
          simp [utf8Bytes, h1, h2, h3]
        have hnot2 : inRange 0xC2 0xDF (0xF0 + c.toNat / 262144) = false := by
          simp only [inRange, Bool.and_eq_false_iff, decide_eq_false_iff_not]
          omega
        have hnot3 : inRange 0xE0 0xEF (0xF0 + c.toNat / 262144) = false := by
          simp only [inRange, Bool.and_eq_false_iff, decide_eq_false_iff_not]
          omega
        have hlead : inRange 0xF0 0xF4 (0xF0 + c.toNat / 262144) = true := by
          simp only [inRange, Bool.and_eq_true, decide_eq_true_eq]
          omega
        rw [hbytes, List.cons_append, List.cons_append, List.cons_append, List.cons_append,
          List.nil_append, utf8DecodeFrom_first, if_neg (by omega), hnot2, if_neg (by decide),
          hnot3, if_neg (by decide), if_pos hlead,
          utf8DecodeFrom_continue 3 _ _ _ _ _ (by decide) (by split <;> omega)
            (by split <;> omega),
          if_neg (by decide),
          utf8DecodeFrom_continue 2 _ 0x80 0xBF _ _ (by decide) (by omega) (by omega),
          if_neg (by decide),
          utf8DecodeFrom_continue 1 _ 0x80 0xBF _ _ (by decide) (by omega) (by omega), if_pos rfl,
          hback _ (by omega)]

theorem utf8Decode_flatMap_utf8Bytes (cs : List Char) :
    utf8Decode (cs.flatMap utf8Bytes) = cs := by
  unfold utf8Decode
  induction cs with
  | nil => simp [utf8DecodeFrom]
  | cons c cs1 ih => rw [List.flatMap_cons, utf8DecodeFrom_utf8Bytes, ih]

/-! ### Decoding what is left of the token -/

theorem decodeComponent_valueBytes (cs : List Char) :
    decodeComponent ((cs.flatMap queryEncode).flatMap utf8Bytes) =
      ⟨utf8Decode (percentDecode (valueBytes cs))⟩ := rfl

theorem valueBytes_cons_of_encoded (c : Char) (cs : List Char) (h : inQueryEncodeSet c = true) :
    valueBytes (c :: cs) =
      ((utf8Bytes c).flatMap fun b => [37, (hexDigit (b / 16)).toNat, (hexDigit (b % 16)).toNat]) ++
        valueBytes cs := by
  have hdigit : ∀ v, v < 16 → (hexDigit v).toNat ≠ 43 := by decide
  unfold valueBytes
  rw [List.flatMap_cons, List.flatMap_append, List.map_append, queryEncode_bytes_of_encoded c h]
  congr 1
  conv_rhs => rw [← List.map_id ((utf8Bytes c).flatMap fun b =>
    [37, (hexDigit (b / 16)).toNat, (hexDigit (b % 16)).toNat])]
  apply List.map_congr_left
  intro b hb
  obtain ⟨x, hx, hin⟩ := List.mem_flatMap.1 hb
  have hlt := utf8Bytes_lt c x hx
  have h1 := hdigit (x / 16) (by omega)
  have h2 := hdigit (x % 16) (by omega)
  simp only [List.mem_cons, List.mem_singleton, List.not_mem_nil, or_false] at hin
  have hne : b ≠ 43 := by
    rcases hin with h | h | h
    · omega
    · rw [h]; exact h1
    · rw [h]; exact h2
  simp [hne]

theorem valueBytes_cons_of_plain (c : Char) (cs : List Char) (h : inQueryEncodeSet c = false) :
    valueBytes (c :: cs) = (if c.toNat = 43 then 32 else c.toNat) :: valueBytes cs := by
  unfold valueBytes
  rw [List.flatMap_cons, List.flatMap_append, List.map_append,
    (queryEncode_bytes_of_plain c h).1]
  rfl

theorem isHexDigitChar_plain (c : Char) (h : isHexDigitChar c = true) :
    inQueryEncodeSet c = false ∧ c.toNat ≠ 43 ∧ c.toNat ≠ 37 ∧ c ≠ '%' := by
  have hrange : (48 ≤ c.toNat ∧ c.toNat ≤ 57) ∨ (65 ≤ c.toNat ∧ c.toNat ≤ 70) ∨
      (97 ≤ c.toNat ∧ c.toNat ≤ 102) := by
    unfold isHexDigitChar hexValue at h
    split at h
    · left; assumption
    · split at h
      · right; left; assumption
      · split at h
        · right; right; assumption
        · simp at h
  refine ⟨?_, by omega, by omega, ?_⟩
  · simp only [inQueryEncodeSet, Bool.or_eq_false_iff, decide_eq_false_iff_not]
    omega
  · apply char_ne_of_toNat_ne
    have : ('%' : Char).toNat = 37 := rfl
    omega

/-- When the bytes of a text start with two hexadecimal digits, the text
starts with these two characters. -/
theorem valueBytes_head_hex (cs : List Char) (x y : Nat) (rest : List Nat)
    (himage : valueBytes cs = x :: y :: rest)
    (hx : hexValue x ≠ none) (hy : hexValue y ≠ none) :
    ∃ d e tail, cs = d :: e :: tail ∧ isHexDigitChar d = true ∧ isHexDigitChar e = true ∧
      rest = valueBytes tail := by
  have hpercent : hexValue 37 = none := by decide
  have hspace : hexValue 32 = none := by decide
  have hencoded : ∀ (c : Char) (tail : List Char), inQueryEncodeSet c = true →
      ∃ more, valueBytes (c :: tail) = 37 :: more := by
    intro c tail hc
    rw [valueBytes_cons_of_encoded c tail hc]
    cases hb : utf8Bytes c with
    | nil =>
      exfalso
      revert hb
      unfold utf8Bytes
      simp only []
      split
      · simp
      · split
        · simp
        · split <;> simp
    | cons b bs => exact ⟨_, rfl⟩
  have hplain : ∀ (c : Char) (b : Nat), (if c.toNat = 43 then 32 else c.toNat) = b →
      hexValue b ≠ none → c.toNat = b := by
    intro c b hb hhex
    by_cases h43 : c.toNat = 43
    · rw [if_pos h43] at hb
      rw [← hb] at hhex
      exact absurd hspace hhex
    · rw [if_neg h43] at hb
      exact hb
  cases cs with
  | nil => simp [valueBytes] at himage
  | cons d cs1 =>
    by_cases hd : inQueryEncodeSet d = true
    · obtain ⟨more, hmore⟩ := hencoded d cs1 hd
      rw [hmore] at himage
      simp only [List.cons.injEq] at himage
      rw [← himage.1] at hx
      exact absurd hpercent hx
    · rw [valueBytes_cons_of_plain d cs1 (by simpa using hd)] at himage
      simp only [List.cons.injEq] at himage
      have hdx := hplain d x himage.1 hx
      cases cs1 with
      | nil => simp [valueBytes] at himage
      | cons e tail =>
        by_cases he : inQueryEncodeSet e = true
        · obtain ⟨more, hmore⟩ := hencoded e tail he
          rw [hmore] at himage
          simp only [List.cons.injEq] at himage
          rw [← himage.2.1] at hy
          exact absurd hpercent hy
        · rw [valueBytes_cons_of_plain e tail (by simpa using he)] at himage
          simp only [List.cons.injEq] at himage
          have hey := hplain e y himage.2.1 hy
          refine ⟨d, e, tail, rfl, ?_, ?_, himage.2.2.symm⟩
          · rw [isHexDigitChar, hdx]
            exact Option.isSome_iff_ne_none.2 hx
          · rw [isHexDigitChar, hey]
            exact Option.isSome_iff_ne_none.2 hy

theorem valueBytes_of_hex_head (d e : Char) (tail : List Char)
    (hd : isHexDigitChar d = true) (he : isHexDigitChar e = true) :
    valueBytes (d :: e :: tail) = d.toNat :: e.toNat :: valueBytes tail := by
  have hd1 := isHexDigitChar_plain d hd
  have he1 := isHexDigitChar_plain e he
  rw [valueBytes_cons_of_plain d _ hd1.1, valueBytes_cons_of_plain e _ he1.1, if_neg hd1.2.1,
    if_neg he1.2.1]

theorem hasPercentEscape_cons_of_ne (c : Char) (cs : List Char) (h : c ≠ '%') :
    hasPercentEscape (c :: cs) = hasPercentEscape cs := by
  cases cs with
  | nil => rfl
  | cons d cs1 =>
    cases cs1 with
    | nil => rfl
    | cons e rest =>
      have hc : (c == '%') = false := by simpa using h
      rw [hasPercentEscape, hc]
      simp

theorem hasPercentEscape_percent (cs : List Char)
    (h : ∀ d e tail, cs = d :: e :: tail → isHexDigitChar d = false ∨ isHexDigitChar e = false) :
    hasPercentEscape ('%' :: cs) = hasPercentEscape cs := by
  cases cs with
  | nil => rfl
  | cons d cs1 =>
    cases cs1 with
    | nil => rfl
    | cons e rest =>
      rw [hasPercentEscape]
      rcases h d e rest rfl with hd | he
      · simp [hd]
      · simp [he]

theorem hasPercentEscape_tail (c : Char) (cs : List Char)
    (h : hasPercentEscape (c :: cs) = false) : hasPercentEscape cs = false := by
  cases cs with
  | nil => rfl
  | cons d cs1 =>
    cases cs1 with
    | nil => rfl
    | cons e rest =>
      rw [hasPercentEscape, Bool.or_eq_false_iff] at h
      exact h.2

/-- Without a percent escape in the text, percent-decoding gives back the
UTF-8 bytes of the text with each `+` turned into a space. -/
theorem percentDecode_valueBytes (cs : List Char) (hescape : hasPercentEscape cs = false) :
    percentDecode (valueBytes cs) =
      (cs.map fun c => if c = '+' then ' ' else c).flatMap utf8Bytes := by
  induction cs with
  | nil => rfl
  | cons c cs1 ih =>
    have hrest := ih (hasPercentEscape_tail c cs1 hescape)
    rw [List.map_cons, List.flatMap_cons]
    by_cases hc : inQueryEncodeSet c = true
    · have hplus : c ≠ '+' := by
        intro h
        rw [h] at hc
        revert hc
        decide
      rw [valueBytes_cons_of_encoded c cs1 hc, percentDecode_escapes _ _ (utf8Bytes_lt c), hrest,
        if_neg hplus]
    · have hplain := queryEncode_bytes_of_plain c (by simpa using hc)
      rw [valueBytes_cons_of_plain c cs1 (by simpa using hc)]
      by_cases h43 : c.toNat = 43
      · have hplus : c = '+' := by rw [← Char.ofNat_toNat c, h43]
        rw [if_pos h43, if_pos hplus, percentDecode_cons_of_ne _ _ (by decide), hrest]
        rfl
      · have hplus : c ≠ '+' := fun h => h43 (by rw [h]; rfl)
        rw [if_neg h43, if_neg hplus, hplain.2.1, List.singleton_append]
        by_cases h37 : c.toNat = 37
        · rw [h37, percentDecode_percent, hrest]
          intro x y rest himage
          by_contra hboth
          simp only [not_or] at hboth
          obtain ⟨d, e, tail, hcs, hd, he, _⟩ :=
            valueBytes_head_hex cs1 x y rest himage hboth.1 hboth.2
          have hcpercent : c = '%' := by rw [← Char.ofNat_toNat c, h37]
          rw [hcs, hcpercent, hasPercentEscape, Bool.or_eq_false_iff] at hescape
          simp [hd, he] at hescape
        · rw [percentDecode_cons_of_ne _ _ h37, hrest]

theorem utf8DecodeFrom_restart (needed codePoint lower upper b : Nat) (rest : List Nat)
    (h : ¬ (needed ≠ 0 ∧ inRange lower upper b = true)) :
    utf8DecodeFrom needed codePoint lower upper (b :: rest) =
      (if needed = 0 then [] else [replacementChar]) ++
        utf8DecodeFrom 0 0 0x80 0xBF (b :: rest) := by
  rw [utf8DecodeFrom_first, utf8DecodeFrom, if_neg h]

theorem utf8Bytes_head (c : Char) :
    ∃ b bs, utf8Bytes c = b :: bs ∧ (b < 0x80 ∨ 0xBF < b) := by
  unfold utf8Bytes
  simp only []
  split
  · exact ⟨_, _, rfl, Or.inl (by assumption)⟩
  · split
    · exact ⟨_, _, rfl, Or.inr (by omega)⟩
    · split
      · exact ⟨_, _, rfl, Or.inr (by omega)⟩
      · exact ⟨_, _, rfl, Or.inr (by omega)⟩

/-- Decoding the UTF-8 bytes of a code point in any decoder state: an
unfinished sequence gives U+FFFD, then comes the code point. -/
theorem utf8DecodeFrom_char (needed codePoint lower upper : Nat) (c : Char) (rest : List Nat)
    (hlower : 0x80 ≤ lower) (hupper : upper ≤ 0xBF) :
    utf8DecodeFrom needed codePoint lower upper (utf8Bytes c ++ rest) =
      (if needed = 0 then [] else [replacementChar]) ++
        c :: utf8DecodeFrom 0 0 0x80 0xBF rest := by
  obtain ⟨b, bs, hbytes, hb⟩ := utf8Bytes_head c
  have hout : ¬ (needed ≠ 0 ∧ inRange lower upper b = true) := by
    simp only [inRange, Bool.and_eq_true, decide_eq_true_eq]
    omega
  rw [← utf8DecodeFrom_utf8Bytes c rest, hbytes, List.cons_append]
  exact utf8DecodeFrom_restart needed codePoint lower upper b (bs ++ rest) hout

/-- One byte in any decoder state gives at most one code point more than the
unfinished sequences it ends or leaves. -/
theorem utf8DecodeFrom_step (needed codePoint lower upper b : Nat) (rest : List Nat) :
    ∃ (out : List Char) (needed1 codePoint1 lower1 upper1 : Nat),
      utf8DecodeFrom needed codePoint lower upper (b :: rest) =
        out ++ utf8DecodeFrom needed1 codePoint1 lower1 upper1 rest ∧
      0x80 ≤ lower1 ∧ upper1 ≤ 0xBF ∧
      out.length + (if needed1 = 0 then 0 else 1) ≤ (if needed = 0 then 0 else 1) + 1 := by
  by_cases hcont : needed ≠ 0 ∧ inRange lower upper b = true
  · have hrange := hcont.2
    simp only [inRange, Bool.and_eq_true, decide_eq_true_eq] at hrange
    rw [utf8DecodeFrom_continue needed codePoint lower upper b rest hcont.1 hrange.1 hrange.2]
    by_cases h1 : needed = 1
    · rw [if_pos h1]
      exact ⟨[_], 0, 0, 0x80, 0xBF, rfl, by decide, by decide, by simp [h1]⟩
    · rw [if_neg h1]
      refine ⟨[], needed - 1, _, 0x80, 0xBF, rfl, by decide, by decide, ?_⟩
      have hpending : (if needed = 0 then 0 else 1) = 1 := if_neg hcont.1
      rw [hpending, List.length_nil]
      split <;> omega
  · rw [utf8DecodeFrom_restart needed codePoint lower upper b rest hcont, utf8DecodeFrom_first]
    by_cases h1 : b < 0x80
    · rw [if_pos h1]
      refine ⟨(if needed = 0 then [] else [replacementChar]) ++ [Char.ofNat b], 0, 0, 0x80, 0xBF,
        by simp, by decide, by decide, ?_⟩
      split <;> simp
    · rw [if_neg h1]
      by_cases h2 : inRange 0xC2 0xDF b = true
      · rw [if_pos h2]
        refine ⟨(if needed = 0 then [] else [replacementChar]), 1, _, 0x80, 0xBF, rfl,
          by decide, by decide, ?_⟩
        split <;> simp
      · rw [if_neg h2]
        by_cases h3 : inRange 0xE0 0xEF b = true
        · rw [if_pos h3]
          refine ⟨(if needed = 0 then [] else [replacementChar]), 2, _, _, _, rfl,
            by split <;> decide, by split <;> decide, ?_⟩
          split <;> simp
        · rw [if_neg h3]
          by_cases h4 : inRange 0xF0 0xF4 b = true
          · rw [if_pos h4]
            refine ⟨(if needed = 0 then [] else [replacementChar]), 3, _, _, _, rfl,
              by split <;> decide, by split <;> decide, ?_⟩
            split <;> simp
          · rw [if_neg h4]
            refine ⟨(if needed = 0 then [] else [replacementChar]) ++ [replacementChar], 0, 0,
              0x80, 0xBF, by simp, by decide, by decide, ?_⟩
            split <;> simp

/-- The decoded value is never longer than the text it comes from, and it is
shorter when the text holds a percent escape. -/
theorem decoded_length_le (n : Nat) :
    ∀ cs : List Char, cs.length ≤ n →
      ∀ needed codePoint lower upper : Nat, 0x80 ≤ lower → upper ≤ 0xBF →
        (utf8DecodeFrom needed codePoint lower upper (percentDecode (valueBytes cs))).length +
            (if hasPercentEscape cs = true then 1 else 0) ≤
          cs.length + (if needed = 0 then 0 else 1) := by
  induction n with
  | zero =>
    intro cs hlen needed codePoint lower upper _ _
    have hnil : cs = [] := List.length_eq_zero.1 (Nat.le_zero.1 hlen)
    subst hnil
    simp only [valueBytes, List.flatMap_nil, List.map_nil, percentDecode, utf8DecodeFrom,
      hasPercentEscape, List.length_nil]
    split <;> simp
  | succ n ih =>
    intro cs hlen needed codePoint lower upper hlower hupper
    cases cs with
    | nil =>
      simp only [valueBytes, List.flatMap_nil, List.map_nil, percentDecode, utf8DecodeFrom,
        hasPercentEscape, List.length_nil]
      split <;> simp
    | cons c cs1 =>
      have hlen1 : cs1.length ≤ n := by
        simp only [List.length_cons] at hlen
        omega
      have hprefix : ((if needed = 0 then [] else [replacementChar]) : List Char).length =
          (if needed = 0 then 0 else 1) := by
        split <;> rfl
      by_cases hc : inQueryEncodeSet c = true
      · have hne : c ≠ '%' := by
          intro h
          rw [h] at hc
          revert hc
          decide
        have hrest := ih cs1 hlen1 0 0 0x80 0xBF (by decide) (by decide)
        rw [valueBytes_cons_of_encoded c cs1 hc, percentDecode_escapes _ _ (utf8Bytes_lt c),
          utf8DecodeFrom_char needed codePoint lower upper c _ hlower hupper,
          hasPercentEscape_cons_of_ne c cs1 hne, List.length_append, List.length_cons, hprefix,
          List.length_cons]
        simp only [if_true] at hrest
        omega
      · have hplain := queryEncode_bytes_of_plain c (by simpa using hc)
        rw [valueBytes_cons_of_plain c cs1 (by simpa using hc)]
        have hascii : ∀ (b : Nat) (rest : List Nat), b < 0x80 →
            (utf8DecodeFrom needed codePoint lower upper (b :: rest)).length =
              (if needed = 0 then 0 else 1) + 1 +
                (utf8DecodeFrom 0 0 0x80 0xBF rest).length := by
          intro b rest hb
          have hout : ¬ (needed ≠ 0 ∧ inRange lower upper b = true) := by
            simp only [inRange, Bool.and_eq_true, decide_eq_true_eq]
            omega
          rw [utf8DecodeFrom_restart needed codePoint lower upper b rest hout,
            utf8DecodeFrom_first, if_pos hb, List.length_append, List.length_cons, hprefix]
          omega
        by_cases h37 : c.toNat = 37
        · have hcpercent : c = '%' := by rw [← Char.ofNat_toNat c, h37]
          have h43 : ¬ c.toNat = 43 := by omega
          rw [if_neg h43, h37]
          by_cases hhex : ∃ x y rest, valueBytes cs1 = x :: y :: rest ∧ hexValue x ≠ none ∧
              hexValue y ≠ none
          · obtain ⟨x, y, rest, himage, hx, hy⟩ := hhex
            obtain ⟨d, e, tail, hcs, hd, he, hrest⟩ :=
              valueBytes_head_hex cs1 x y rest himage hx hy
            obtain ⟨vx, hvx⟩ := Option.ne_none_iff_exists'.1 hx
            obtain ⟨vy, hvy⟩ := Option.ne_none_iff_exists'.1 hy
            have hdecode : percentDecode (37 :: valueBytes cs1) =
                (16 * vx + vy) :: percentDecode (valueBytes tail) := by
              rw [himage, hrest]
              simp [percentDecode, hvx, hvy]
            obtain ⟨out, needed1, codePoint1, lower1, upper1, hstep, hlower1, hupper1, hcount⟩ :=
              utf8DecodeFrom_step needed codePoint lower upper (16 * vx + vy)
                (percentDecode (valueBytes tail))
            have hlen2 : tail.length ≤ n := by
              rw [hcs] at hlen1
              simp only [List.length_cons] at hlen1
              omega
            have htail := ih tail hlen2 needed1 codePoint1 lower1 upper1 hlower1 hupper1
            have hescape : hasPercentEscape (c :: cs1) = true := by
              rw [hcs, hcpercent, hasPercentEscape]
              simp [hd, he]
            rw [hdecode, hstep, List.length_append, hescape, hcs]
            simp only [List.length_cons, if_true]
            have : 0 ≤ (if hasPercentEscape tail = true then 1 else 0) := Nat.zero_le _
            omega
          · have hliteral : ∀ x y rest, valueBytes cs1 = x :: y :: rest →
                hexValue x = none ∨ hexValue y = none := by
              intro x y rest himage
              by_contra hboth
              simp only [not_or] at hboth
              exact hhex ⟨x, y, rest, himage, hboth.1, hboth.2⟩
            have hchars : ∀ d e tail, cs1 = d :: e :: tail →
                isHexDigitChar d = false ∨ isHexDigitChar e = false := by
              intro d e tail hcs
              by_contra hboth
              simp only [not_or, Bool.not_eq_false] at hboth
              have himage := valueBytes_of_hex_head d e tail hboth.1 hboth.2
              rw [← hcs] at himage
              rcases hliteral _ _ _ himage with h | h
              · have := hboth.1
                rw [isHexDigitChar, h] at this
                simp at this
              · have := hboth.2
                rw [isHexDigitChar, h] at this
                simp at this
            have hrest := ih cs1 hlen1 0 0 0x80 0xBF (by decide) (by decide)
            rw [percentDecode_percent _ hliteral, hascii 37 _ (by decide), hcpercent,
              hasPercentEscape_percent cs1 hchars, List.length_cons]
            simp only [if_true] at hrest
            omega
        · have hne : c ≠ '%' := fun h => h37 (by rw [h]; rfl)
          have hrest := ih cs1 hlen1 0 0 0x80 0xBF (by decide) (by decide)
          have hbyte : (if c.toNat = 43 then 32 else c.toNat) ≠ 37 ∧
              (if c.toNat = 43 then 32 else c.toNat) < 0x80 := by
            have := hplain.2.2
            split <;> omega
          rw [percentDecode_cons_of_ne _ _ hbyte.1, hascii _ _ hbyte.2,
            hasPercentEscape_cons_of_ne c cs1 hne, List.length_cons]
          simp only [if_true] at hrest
          omega

/-! ### Which tokens survive -/

theorem tokenInQuery_of_clean (token : List Char)
    (hchars : ∀ c ∈ token, c ≠ '#' ∧ c ≠ '&' ∧ isTabOrNewline c = false)
    (hlast : ∀ c, token.getLast? = some c → isC0ControlOrSpace c = false) :
    tokenInQuery token = token := by
  have hstrip : (token.reverse.dropWhile isC0ControlOrSpace).reverse = token := by
    cases hrev : token.reverse with
    | nil =>
      have : token = [] := List.reverse_eq_nil_iff.1 hrev
      rw [this]
      rfl
    | cons a as =>
      have hhead : token.getLast? = some a := by
        rw [← List.head?_reverse, hrev]
        rfl
      rw [dropWhile_of_head_false _ _ _ (hlast a hhead), ← hrev, List.reverse_reverse]
  have hfilter : token.filter (fun c => !isTabOrNewline c) = token := by
    rw [List.filter_eq_self]
    intro c hc
    simp [(hchars c hc).2.2]
  have hfragment : token.takeWhile (fun c => c != '#') = token := by
    apply takeWhile_of_all
    intro c hc
    simpa using (hchars c hc).1
  have hamp : token.takeWhile (fun c => c != '&') = token := by
    apply takeWhile_of_all
    intro c hc
    simpa using (hchars c hc).2.1
  unfold tokenInQuery tokenInUrl
  rw [hstrip, hfilter, hfragment, hamp]

theorem clean_of_tokenInQuery_length (token : List Char)
    (hlen : token.length ≤ (tokenInQuery token).length) :
    tokenInQuery token = token ∧
      (∀ c ∈ token, c ≠ '#' ∧ c ≠ '&' ∧ isTabOrNewline c = false) ∧
      (∀ c, token.getLast? = some c → isC0ControlOrSpace c = false) := by
  have h1 : (tokenInQuery token).length ≤ (tokenInUrl token).length :=
    (List.takeWhile_prefix _).length_le
  have h2 : (tokenInUrl token).length ≤
      (((token.reverse.dropWhile isC0ControlOrSpace).reverse).filter fun c =>
        !isTabOrNewline c).length :=
    (List.takeWhile_prefix _).length_le
  have h3 : (((token.reverse.dropWhile isC0ControlOrSpace).reverse).filter fun c =>
      !isTabOrNewline c).length ≤ (token.reverse.dropWhile isC0ControlOrSpace).reverse.length :=
    List.length_filter_le _ _
  have h4 : (token.reverse.dropWhile isC0ControlOrSpace).length ≤ token.reverse.length :=
    (List.dropWhile_suffix _).length_le
  rw [List.length_reverse] at h3 h4
  have hdrop : token.reverse.dropWhile isC0ControlOrSpace = token.reverse :=
    (List.dropWhile_suffix _).eq_of_length (by rw [List.length_reverse]; omega)
  have hstrip : (token.reverse.dropWhile isC0ControlOrSpace).reverse = token := by
    rw [hdrop, List.reverse_reverse]
  have hlast : ∀ c, token.getLast? = some c → isC0ControlOrSpace c = false := by
    intro c hc
    by_contra hspace
    have hspace1 : isC0ControlOrSpace c = true := by simpa using hspace
    cases hrev : token.reverse with
    | nil =>
      rw [← List.head?_reverse, hrev] at hc
      simp at hc
    | cons a as =>
      rw [← List.head?_reverse, hrev] at hc
      simp only [List.head?_cons, Option.some.injEq] at hc
      subst hc
      rw [hrev] at hdrop
      have hshort := (List.dropWhile_suffix isC0ControlOrSpace (l := as)).length_le
      have hsame := congrArg List.length hdrop
      simp only [List.dropWhile, hspace1, List.length_cons] at hsame
      omega
  rw [hstrip] at h2 h3
  have htab : ∀ c ∈ token, (!isTabOrNewline c) = true :=
    List.filter_length_eq_length.1 (by omega)
  have hfilter : token.filter (fun c => !isTabOrNewline c) = token :=
    List.filter_eq_self.2 htab
  have hurl : tokenInUrl token = token.takeWhile fun c => c != '#' := by
    unfold tokenInUrl
    rw [hstrip, hfilter]
  rw [hurl] at h1 h2
  have hfragment : token.takeWhile (fun c => c != '#') = token :=
    (List.takeWhile_prefix _).eq_of_length (by rw [hfilter] at h2; omega)
  have hquery : tokenInQuery token = token.takeWhile fun c => c != '&' := by
    unfold tokenInQuery
    rw [hurl, hfragment]
  rw [hquery] at hlen
  have hamp : token.takeWhile (fun c => c != '&') = token :=
    (List.takeWhile_prefix _).eq_of_length
      (Nat.le_antisymm (List.takeWhile_prefix _).length_le hlen)
  refine ⟨by rw [hquery, hamp], fun c hc => ⟨?_, ?_, ?_⟩, hlast⟩
  · simpa using List.takeWhile_eq_self_iff.1 hfragment c hc
  · simpa using List.takeWhile_eq_self_iff.1 hamp c hc
  · simpa using htab c hc

theorem map_plus_eq_self (cs : List Char)
    (h : (cs.map fun c => if c = '+' then ' ' else c) = cs) : ∀ c ∈ cs, c ≠ '+' := by
  induction cs with
  | nil => intro c hc; simp at hc
  | cons a as ih =>
    simp only [List.map_cons, List.cons.injEq] at h
    intro c hc
    rcases List.mem_cons.1 hc with hca | hcas
    · subst hca
      intro hplus
      rw [if_pos hplus, hplus] at h
      exact absurd h.1 (by decide)
    · exact ih h.2 c hcas

/-- C22, as stated, fails: the links generated for the tokens `a&b`, `a+b`,
`100%41` and `a#b` resolve to `a`, `a b`, `100A` and `a`; a tab inside the
token is dropped, and so is a space at its end. -/
theorem link_round_trip_breaks :
    getTokenFromUrl (followLink "app.example" (generateMemberLink "https://app.example" "a&b")) =
      some "a" ∧
    getTokenFromUrl (followLink "app.example" (generateMemberLink "https://app.example" "a+b")) =
      some "a b" ∧
    getTokenFromUrl (followLink "app.example"
      (generateMemberLink "https://app.example" "100%41")) = some "100A" ∧
    getTokenFromUrl (followLink "app.example" (generateMemberLink "https://app.example" "a#b")) =
      some "a" ∧
    getTokenFromUrl (followLink "app.example" (generateMemberLink "https://app.example" "a\tb")) =
      some "ab" ∧
    getTokenFromUrl (followLink "app.example" (generateMemberLink "https://app.example" "ab ")) =
      some "ab" := by
  decide

/-- C22, amended: for every origin without control characters, spaces, `?`
and `#`, the token that `getTokenFromUrl` resolves after the link
`generateMemberLink(t)` is followed is exactly `t` if and only if `t` holds no
`#`, `&`, `+`, tab or newline, does not end in a space or control character,
and holds no percent escape (`%` followed by two hexadecimal digits).  Spaces
inside the token, code points beyond ASCII and a `%` that starts no escape
make the round trip; every token outside the condition does not. -/
theorem link_round_trip (hostname origin t : String)
    (horigin : ∀ c ∈ origin.data, isOriginChar c = true) :
    getTokenFromUrl (followLink hostname (generateMemberLink origin t)) = some t ↔
      ((∀ c ∈ t.data, c ≠ '#' ∧ c ≠ '&' ∧ c ≠ '+' ∧ isTabOrNewline c = false) ∧
        (∀ c, t.data.getLast? = some c → isC0ControlOrSpace c = false) ∧
        hasPercentEscape t.data = false) := by
  rw [getTokenFromUrl_link hostname origin t horigin, decodeComponent_valueBytes]
  constructor
  · intro hsame
    have hdata : utf8Decode (percentDecode (valueBytes (tokenInQuery t.data))) = t.data := by
      have := congrArg String.data (Option.some.inj hsame)
      simpa using this
    have hbound := decoded_length_le (tokenInQuery t.data).length (tokenInQuery t.data)
      (Nat.le_refl _) 0 0 0x80 0xBF (by decide) (by decide)
    rw [utf8Decode] at hdata
    rw [hdata] at hbound
    simp only [if_true, Nat.add_zero] at hbound
    have hlen : t.data.length ≤ (tokenInQuery t.data).length := by omega
    obtain ⟨hquery, hchars, hlast⟩ := clean_of_tokenInQuery_length t.data hlen
    rw [hquery] at hbound hdata
    have hescape : hasPercentEscape t.data = false := by
      by_contra hesc
      have hesc1 : hasPercentEscape t.data = true := by simpa using hesc
      rw [if_pos hesc1] at hbound
      omega
    rw [percentDecode_valueBytes t.data hescape] at hdata
    have hdecoded := utf8Decode_flatMap_utf8Bytes (t.data.map fun c => if c = '+' then ' ' else c)
    rw [utf8Decode, hdata] at hdecoded
    have hplus := map_plus_eq_self t.data hdecoded.symm
    exact ⟨fun c hc => ⟨(hchars c hc).1, (hchars c hc).2.1, hplus c hc, (hchars c hc).2.2⟩,
      hlast, hescape⟩
  · rintro ⟨hchars, hlast, hescape⟩
    have hquery := tokenInQuery_of_clean t.data
      (fun c hc => ⟨(hchars c hc).1, (hchars c hc).2.1, (hchars c hc).2.2.2⟩) hlast
    have hmap : (t.data.map fun c => if c = '+' then ' ' else c) = t.data := by
      conv_rhs => rw [← List.map_id t.data]
      apply List.map_congr_left
      intro c hc
      simp [(hchars c hc).2.2.1]
    rw [hquery, percentDecode_valueBytes t.data hescape, hmap, utf8Decode_flatMap_utf8Bytes]

/-- Witness of C22 amended: a token with a space inside, an accented letter,
a `%` that starts no escape, `=`, a quote and Japanese text makes the round
trip. -/
theorem link_round_trip_witness :
    getTokenFromUrl (followLink "app.example"
      (generateMemberLink "https://app.example" "T0 é%zz=c'日本語 100%")) =
        some "T0 é%zz=c'日本語 100%" :=
  (link_round_trip "app.example" "https://app.example" "T0 é%zz=c'日本語 100%" (by decide)).2
    ⟨by decide, by decide, by decide⟩


end Jarvis
